import Mathlib

set_option maxRecDepth 40000
set_option maxHeartbeats 4000000

/-!
Verification development for the HvM Gomoku move-selection engine.

This file gives a shallow embedding of the engine code in
`game/ai/minimax_engine.py`, `game/ai/engines/engine_engine.py` and
`game/ai.py`, and proves (or refutes) the frozen specification claims
about it.

Embedding conventions:
- Python string cells ("", "X", "O") are kept as Lean `String`s, boards as
  `List (List String)` (or `List (List Int)` for the integer-encoded engine).
- In-place mutation of the shared board during search (place / undo) is
  modelled by threading the board value through the recursion, so that
  restoration properties are expressible.
- The module-level search state of `minimax_engine.py` (transposition table,
  killer table, history table) is threaded as an explicit state record; a
  top-level call is modelled from the module's freshly initialised state.
- Wall-clock time checks are modelled by a boolean oracle (one observation
  per check site); random values (Zobrist keys, score noise, tie-break
  choices) are explicit parameters.
- Scores mix Python ints with `math.inf` / `-math.inf`, embedded as the
  extended-integer type `XInt`.
- Python's `int(...)` applied to an infinity raises `OverflowError`; fallible
  paths therefore live in `Except String`.
-/

/-- Extended integers: Python ints together with `math.inf` and `-math.inf`. -/
inductive XInt where
  | negInf : XInt
  | fin : Int → XInt
  | posInf : XInt
deriving DecidableEq

namespace XInt

/-- Python `<=` on scores. -/
def ble : XInt → XInt → Bool
  | negInf, _ => true
  | _, posInf => true
  | fin a, fin b => a ≤ b
  | posInf, _ => false
  | fin _, negInf => false

/-- Python `<` on scores. -/
def blt (a b : XInt) : Bool := !(ble b a)

/-- Python `max`. -/
def max (a b : XInt) : XInt := if ble a b then b else a

/-- Python `min`. -/
def min (a b : XInt) : XInt := if ble b a then b else a

/-- Adding a plain int to an extended score (infinities absorb). -/
def addInt : XInt → Int → XInt
  | negInf, _ => negInf
  | posInf, _ => posInf
  | fin a, b => fin (a + b)

/-- Python unary minus on scores. -/
def neg : XInt → XInt
  | negInf => posInf
  | posInf => negInf
  | fin a => fin (-a)

/-- Python `int(x)`: raises `OverflowError` on an infinity. -/
def toIntE : XInt → Except String Int
  | fin a => .ok a
  | negInf => .error "OverflowError"
  | posInf => .error "OverflowError"

end XInt

/-! ## Board model shared by the string-cell engines -/

/-- A cell of the string-cell boards: "", "X" or "O". -/
abbrev Cell := String

/-- A board, as the Python code holds it: a list of rows of cells. -/
abbrev Board := List (List Cell)

/-- Read `board[r][c]` for the (guarded) accesses the code performs.
All source accesses are dominated by an in-bounds guard, so the junk
default "?" is never produced on the guarded paths. -/
def cellI (b : Board) (r c : Int) : Cell :=
  if 0 ≤ r ∧ 0 ≤ c then (b.getD r.toNat []).getD c.toNat "?" else "?"

/-- Write `board[r][c] = v` (a no-op out of range, which the guarded code
never relies on). -/
def setCell (b : Board) (r c : Int) (v : Cell) : Board :=
  if 0 ≤ r ∧ 0 ≤ c then b.set r.toNat ((b.getD r.toNat []).set c.toNat v) else b

namespace MinimaxEngine

/-- BOARD_SIZE in minimax_engine.py. -/
def BOARD_SIZE : Nat := 15

/-- WIN_LEN in minimax_engine.py. -/
def WIN_LEN : Nat := 5

/-- DIRS: vertical, horizontal, two diagonals. -/
def DIRS : List (Int × Int) := [(1, 0), (0, 1), (1, 1), (1, -1)]

/-- PATTERN_SCORES[WIN]. -/
def WIN_SCORE : Int := 1000000

/-- The in-bounds test of minimax_engine.py (fixed 15x15 board). -/
def in_bounds (r c : Int) : Bool :=
  0 ≤ r && r < (BOARD_SIZE : Int) && 0 ≤ c && c < (BOARD_SIZE : Int)

/-- Row-major enumeration of the 15x15 coordinates, as the Python
`for r in range(15): for c in range(15)` loops produce them. -/
def pairs15 : List (Nat × Nat) :=
  (List.range BOARD_SIZE).flatMap fun r => (List.range BOARD_SIZE).map fun c => (r, c)

/-- One window test of `_check_winner`: cell (r,c) is a stone and the five
cells from it in direction (dr,dc) stay on the board and all match it. -/
def winner_window (b : Board) (r c : Nat) (d : Int × Int) : Option Cell :=
  let player := cellI b r c
  if player = "" then none
  else
    let nr : Int := (r : Int) + d.1 * (WIN_LEN - 1 : Nat)
    let nc : Int := (c : Int) + d.2 * (WIN_LEN - 1 : Nat)
    if in_bounds nr nc then
      if (List.range WIN_LEN).all
          (fun i => cellI b ((r : Int) + d.1 * i) ((c : Int) + d.2 * i) == player)
      then some player else none
    else none

/-- `_check_winner`: scan every cell and direction, returning the player of
the first completed five found (row-major, direction order as in DIRS). -/
def check_winner (b : Board) : Option Cell :=
  pairs15.findSome? fun rc => DIRS.findSome? fun d => winner_window b rc.1 rc.2 d

/-- `_find_immediate_win`: first empty cell whose placement makes
`_check_winner` report `player` (the Python code places, checks, undoes). -/
def find_immediate_win (b : Board) (player : Cell) : Option (Nat × Nat) :=
  pairs15.find? fun rc =>
    cellI b rc.1 rc.2 == "" &&
      check_winner (setCell b rc.1 rc.2 player) == some player

/-- A completed five-in-a-row of value p starting at (r,c) in direction d:
the window stays on the board and all five cells hold p. -/
def window_all (b : Board) (p : Cell) (r c : Nat) (d : Int × Int) : Bool :=
  in_bounds ((r : Int) + d.1 * (WIN_LEN - 1 : Nat)) ((c : Int) + d.2 * (WIN_LEN - 1 : Nat)) &&
  (List.range WIN_LEN).all fun i => cellI b ((r : Int) + d.1 * i) ((c : Int) + d.2 * i) == p

/-- The board contains a completed five for p somewhere. -/
def board_has_five (b : Board) (p : Cell) : Bool :=
  pairs15.any fun rc => DIRS.any fun d => window_all b p rc.1 rc.2 d

/-- Every cell of the 15x15 grid is one of the three legal states. -/
def valid_board (b : Board) : Bool :=
  pairs15.all fun rc =>
    cellI b rc.1 rc.2 == "" || cellI b rc.1 rc.2 == "X" || cellI b rc.1 rc.2 == "O"

end MinimaxEngine

/-! ## Basic lemmas about the board model -/

theorem List.all_congr_fun {α : Type} {l : List α} {p q : α → Bool}
    (h : ∀ a ∈ l, p a = q a) : l.all p = l.all q := by
  induction l with
  | nil => rfl
  | cons x xs ih =>
    simp only [List.all_cons]
    rw [h x (by simp), ih (fun a ha => h a (by simp [ha]))]

theorem List.set_getElem_self_eq {α : Type} (l : List α) (i : Nat) (h : i < l.length) :
    l.set i l[i] = l := by
  apply List.ext_getElem?
  intro j
  by_cases hij : i = j
  · subst hij; rw [List.getElem?_set_self h, List.getElem?_eq_getElem h]
  · rw [List.getElem?_set_ne hij]

theorem getD_set_ne {α : Type} (l : List α) (i j : Nat) (a d : α) (h : i ≠ j) :
    (l.set i a).getD j d = l.getD j d := by
  rw [List.getD_eq_getElem?_getD, List.getD_eq_getElem?_getD, List.getElem?_set_ne h]

theorem getD_set_self_split {α : Type} (l : List α) (i : Nat) (a d : α) :
    (l.set i a).getD i d = if i < l.length then a else l.getD i d := by
  by_cases h : i < l.length
  · rw [if_pos h, List.getD_eq_getElem?_getD, List.getElem?_set_self h]; rfl
  · rw [if_neg h, List.set_eq_of_length_le (Nat.le_of_not_lt h)]

/-- Writing one cell leaves every other coordinate unchanged. -/
theorem cellI_setCell_ne {b : Board} {r c r' c' : Int} {v : Cell}
    (hne : (r', c') ≠ (r, c)) : cellI (setCell b r c v) r' c' = cellI b r' c' := by
  unfold setCell
  by_cases hg : 0 ≤ r ∧ 0 ≤ c
  · rw [if_pos hg]
    unfold cellI
    by_cases hg' : 0 ≤ r' ∧ 0 ≤ c'
    · rw [if_pos hg', if_pos hg']
      by_cases hr : r'.toNat = r.toNat
      · have hrr : r' = r := by omega
        have hcc : c' ≠ c := fun h => hne (by rw [hrr, h])
        have hct : c'.toNat ≠ c.toNat := by omega
        rw [hrr, getD_set_self_split]
        by_cases hlen : r.toNat < b.length
        · rw [if_pos hlen, getD_set_ne _ _ _ _ _ (fun h => hct h.symm)]
        · rw [if_neg hlen]
      · rw [getD_set_ne _ _ _ _ _ (fun h => hr h.symm)]
    · rw [if_neg hg', if_neg hg']
  · rw [if_neg hg]

/-- Either the write is an out-of-shape no-op, or the written cell reads back. -/
theorem setCell_eq_or {b : Board} {r c : Int} {v : Cell} :
    setCell b r c v = b ∨ cellI (setCell b r c v) r c = v := by
  unfold setCell
  by_cases hg : 0 ≤ r ∧ 0 ≤ c
  · rw [if_pos hg]
    by_cases hlen : r.toNat < b.length
    · by_cases hclen : c.toNat < (b.getD r.toNat []).length
      · right
        unfold cellI
        rw [if_pos hg, getD_set_self_split, if_pos hlen, getD_set_self_split, if_pos hclen]
      · left
        have hrow : (b.getD r.toNat []).set c.toNat v = b.getD r.toNat [] :=
          List.set_eq_of_length_le (Nat.le_of_not_lt hclen)
        rw [hrow]
        have hb : b.getD r.toNat [] = b[r.toNat] := by
          rw [List.getD_eq_getElem?_getD, List.getElem?_eq_getElem hlen]
          rfl
        rw [hb]
        exact List.set_getElem_self_eq b r.toNat hlen
    · left
      exact List.set_eq_of_length_le (Nat.le_of_not_lt hlen)
  · rw [if_neg hg]
    exact Or.inl rfl

namespace MinimaxEngine

theorem mem_pairs15 {r c : Nat} : (r, c) ∈ pairs15 ↔ r < BOARD_SIZE ∧ c < BOARD_SIZE := by
  simp [pairs15, List.mem_flatMap, List.mem_map, List.mem_range]

/-- The first cell of a completed window holds its value. -/
theorem window_all_cell0 {b : Board} {p : Cell} {r c : Nat} {d : Int × Int}
    (h : window_all b p r c d = true) : cellI b r c = p := by
  unfold window_all at h
  rw [Bool.and_eq_true] at h
  have h0 := (List.all_eq_true.mp h.2) 0 (by simp [WIN_LEN])
  simpa using h0

theorem winner_window_some {b : Board} {r c : Nat} {d : Int × Int} {p : Cell}
    (h : winner_window b r c d = some p) :
    p ≠ "" ∧ window_all b p r c d = true := by
  unfold winner_window at h
  by_cases hp : cellI b r c = ""
  · simp [hp] at h
  · simp only [hp, if_false] at h
    by_cases hb : in_bounds ((r : Int) + d.1 * (WIN_LEN - 1 : Nat))
        ((c : Int) + d.2 * (WIN_LEN - 1 : Nat)) = true
    · simp only [hb, if_true] at h
      by_cases hall : ((List.range WIN_LEN).all
          (fun i => cellI b ((r : Int) + d.1 * i) ((c : Int) + d.2 * i) == cellI b r c)) = true
      · simp only [hall, if_true, Option.some.injEq] at h
        subst h
        exact ⟨hp, by unfold window_all; rw [Bool.and_eq_true]; exact ⟨hb, hall⟩⟩
      · simp [hall] at h
    · simp [hb] at h

theorem winner_window_of_window {b : Board} {r c : Nat} {d : Int × Int} {p : Cell}
    (hp : p ≠ "") (h : window_all b p r c d = true) :
    winner_window b r c d = some p := by
  have hc0 := window_all_cell0 h
  unfold window_all at h
  rw [Bool.and_eq_true] at h
  unfold winner_window
  rw [hc0]
  simp only [hp, if_false, h.1, if_true]
  rw [if_pos h.2]

theorem check_winner_some {b : Board} {p : Cell} (h : check_winner b = some p) :
    p ≠ "" ∧ board_has_five b p = true := by
  obtain ⟨rc, hmem, hrc⟩ := List.exists_of_findSome?_eq_some h
  obtain ⟨d, hd, hw⟩ := List.exists_of_findSome?_eq_some hrc
  obtain ⟨hp, hwin⟩ := winner_window_some hw
  refine ⟨hp, ?_⟩
  unfold board_has_five
  rw [List.any_eq_true]
  exact ⟨rc, hmem, by rw [List.any_eq_true]; exact ⟨d, hd, hwin⟩⟩

theorem check_winner_eq_none_iff {b : Board} :
    check_winner b = none ↔ ∀ p, p ≠ "" → board_has_five b p = false := by
  unfold check_winner
  constructor
  · intro h p hp
    rw [List.findSome?_eq_none_iff] at h
    by_contra hfive
    rw [Bool.not_eq_false] at hfive
    unfold board_has_five at hfive
    rw [List.any_eq_true] at hfive
    obtain ⟨rc, hmem, hany⟩ := hfive
    rw [List.any_eq_true] at hany
    obtain ⟨d, hd, hw⟩ := hany
    have := winner_window_of_window hp hw
    have hnone := h rc hmem
    rw [List.findSome?_eq_none_iff] at hnone
    have := hnone d hd
    simp_all
  · intro h
    rw [List.findSome?_eq_none_iff]
    intro rc hmem
    rw [List.findSome?_eq_none_iff]
    intro d hd
    cases hw : winner_window b rc.1 rc.2 d with
    | none => rfl
    | some q =>
      exfalso
      obtain ⟨hq, hwin⟩ := winner_window_some hw
      have hfive : board_has_five b q = true := by
        unfold board_has_five
        rw [List.any_eq_true]
        exact ⟨rc, hmem, by rw [List.any_eq_true]; exact ⟨d, hd, hwin⟩⟩
      rw [h q hq] at hfive
      exact Bool.false_ne_true hfive

theorem check_winner_complete {b : Board} {p : Cell}
    (h5 : board_has_five b p = true) (hp : p ≠ "")
    (huniq : ∀ q, q ≠ "" → board_has_five b q = true → q = p) :
    check_winner b = some p := by
  cases hcw : check_winner b with
  | none =>
    rw [check_winner_eq_none_iff] at hcw
    rw [hcw p hp] at h5
    exact absurd h5 Bool.false_ne_true
  | some q =>
    obtain ⟨hq, hfq⟩ := check_winner_some hcw
    rw [huniq q hq hfq]

/-- A window that avoids the written cell is unaffected by the write. -/
theorem window_all_setCell_ne {b : Board} {r c : Int} {v p : Cell} {r0 c0 : Nat}
    {d : Int × Int}
    (hne : ∀ i : Nat, i < WIN_LEN →
      ((r0 : Int) + d.1 * i, (c0 : Int) + d.2 * i) ≠ (r, c)) :
    window_all (setCell b r c v) p r0 c0 d = window_all b p r0 c0 d := by
  unfold window_all
  congr 1
  apply List.all_congr_fun
  intro i hi
  rw [List.mem_range] at hi
  rw [cellI_setCell_ne (hne i hi)]

/-- On a valid board with no completed five, if placing p at (r,c) produces a
five for p, then the full-board scan of the placed board reports exactly p:
no other value can own a five on the placed board. -/
theorem check_winner_setCell_wins {b : Board} {r c : Nat} {p : Cell}
    (hnone : check_winner b = none)
    (hp : p = "X" ∨ p = "O")
    (hfive : board_has_five (setCell b r c p) p = true) :
    check_winner (setCell b r c p) = some p := by
  have hpne : p ≠ "" := by rcases hp with h | h <;> simp [h]
  rcases @setCell_eq_or b (r : Int) (c : Int) p with heq | hw
  · rw [heq] at hfive
    rw [check_winner_eq_none_iff] at hnone
    rw [hnone p hpne] at hfive
    exact absurd hfive Bool.false_ne_true
  · apply check_winner_complete hfive hpne
    intro q hq hfq
    unfold board_has_five at hfq
    rw [List.any_eq_true] at hfq
    obtain ⟨rc0, hmem0, hany⟩ := hfq
    rw [List.any_eq_true] at hany
    obtain ⟨d, hd, hwin⟩ := hany
    by_cases hmemwin : ∃ i : Nat, i < WIN_LEN ∧
        ((rc0.1 : Int) + d.1 * i, (rc0.2 : Int) + d.2 * i) = ((r : Int), (c : Int))
    · obtain ⟨i, hi, hpos⟩ := hmemwin
      unfold window_all at hwin
      rw [Bool.and_eq_true] at hwin
      have hcq := (List.all_eq_true.mp hwin.2) i (List.mem_range.mpr hi)
      rw [beq_iff_eq] at hcq
      rw [Prod.mk.injEq] at hpos
      rw [hpos.1, hpos.2, hw] at hcq
      exact hcq.symm
    · push_neg at hmemwin
      rw [window_all_setCell_ne (fun i hi => hmemwin i hi)] at hwin
      exfalso
      rw [check_winner_eq_none_iff] at hnone
      have hfb : board_has_five b q = true := by
        unfold board_has_five
        rw [List.any_eq_true]
        exact ⟨rc0, hmem0, by rw [List.any_eq_true]; exact ⟨d, hd, hwin⟩⟩
      rw [hnone q hq] at hfb
      exact Bool.false_ne_true hfb

/-- What a successful `_find_immediate_win` guarantees about its result. -/
theorem find_immediate_win_some {b : Board} {p : Cell} {m : Nat × Nat}
    (h : find_immediate_win b p = some m) :
    cellI b m.1 m.2 = "" ∧ check_winner (setCell b m.1 m.2 p) = some p ∧
      m.1 < BOARD_SIZE ∧ m.2 < BOARD_SIZE := by
  have hpred := List.find?_some h
  have hmem := List.mem_of_find?_eq_some h
  rw [Bool.and_eq_true, beq_iff_eq, beq_iff_eq] at hpred
  have hm : (m.1, m.2) ∈ pairs15 := by simpa using hmem
  rw [mem_pairs15] at hm
  exact ⟨hpred.1, hpred.2, hm.1, hm.2⟩

/-- Completeness of `_find_immediate_win`: on a valid live board, if some
empty cell completes a five for p, the scan finds a cell. -/
theorem find_immediate_win_isSome {b : Board} {p : Cell}
    (hnone : check_winner b = none) (hp : p = "X" ∨ p = "O")
    (hex : ∃ rc : Nat × Nat, rc.1 < BOARD_SIZE ∧ rc.2 < BOARD_SIZE ∧
      cellI b rc.1 rc.2 = "" ∧ board_has_five (setCell b rc.1 rc.2 p) p = true) :
    ∃ m, find_immediate_win b p = some m := by
  obtain ⟨rc, hr, hc, hemp, hfive⟩ := hex
  have hsome : (find_immediate_win b p).isSome := by
    unfold find_immediate_win
    rw [List.find?_isSome]
    refine ⟨(rc.1, rc.2), mem_pairs15.mpr ⟨hr, hc⟩, ?_⟩
    rw [Bool.and_eq_true, beq_iff_eq, beq_iff_eq]
    exact ⟨hemp, check_winner_setCell_wins hnone hp hfive⟩
  exact Option.isSome_iff_exists.mp hsome

/-- If no empty cell completes a five for p, the scan reports none. -/
theorem find_immediate_win_none {b : Board} {p : Cell}
    (hno : ∀ r c : Nat, r < BOARD_SIZE → c < BOARD_SIZE → cellI b r c = "" →
      board_has_five (setCell b r c p) p = false) :
    find_immediate_win b p = none := by
  cases hf : find_immediate_win b p with
  | none => rfl
  | some m =>
    exfalso
    obtain ⟨hemp, hcw, hr, hc⟩ := find_immediate_win_some hf
    obtain ⟨_, hfive⟩ := check_winner_some hcw
    rw [hno m.1 m.2 hr hc hemp] at hfive
    exact Bool.false_ne_true hfive

end MinimaxEngine

/-! ## A stable sort usable for the Python list.sort calls

Python's sort is stable; any stable sort against the same key produces the
same list, so a structurally recursive insertion sort models it exactly.
`before x y = true` means x must be strictly in front of y; ties keep the
original enumeration order. -/

def insort {α : Type} (before : α → α → Bool) (x : α) : List α → List α
  | [] => [x]
  | y :: ys => if before x y then x :: y :: ys else y :: insort before x ys

def stable_sort {α : Type} (before : α → α → Bool) (l : List α) : List α :=
  l.foldl (fun acc x => insort before x acc) []

theorem mem_insort {α : Type} {before : α → α → Bool} {x a : α} :
    ∀ {l : List α}, a ∈ insort before x l ↔ a = x ∨ a ∈ l := by
  intro l
  induction l with
  | nil => simp [insort]
  | cons y ys ih =>
    unfold insort
    by_cases h : before x y
    · simp [h]
    · rw [if_neg (by simpa using h)]
      simp only [List.mem_cons, ih]
      tauto

theorem mem_stable_sort {α : Type} {before : α → α → Bool} {a : α} {l : List α} :
    a ∈ stable_sort before l ↔ a ∈ l := by
  unfold stable_sort
  suffices h : ∀ acc : List α, a ∈ l.foldl (fun acc x => insort before x acc) acc ↔
      a ∈ l ∨ a ∈ acc by simpa using h []
  induction l with
  | nil => simp
  | cons y ys ih =>
    intro acc
    simp only [List.foldl_cons, ih, mem_insort, List.mem_cons]
    tauto

namespace MinimaxEngine

/-! ## Pattern scan and evaluation (minimax_engine.py lines 127-218) -/

/-- Pattern codes, as in the module constants. -/
def WIN : Nat := 7

def OPEN_FOUR : Nat := 6

def HALF_OPEN_FOUR : Nat := 5

def OPEN_THREE : Nat := 4

def HALF_OPEN_THREE : Nat := 3

def OPEN_TWO : Nat := 2

def HALF_OPEN_TWO : Nat := 1

/-- PATTERN_SCORES as a total function (0 outside the dict, matching the
`.get(pat, 0)` uses; direct indexing only happens on nonzero codes). -/
def PATTERN_SCORES : Nat → Int
  | 7 => 1000000
  | 6 => 100000
  | 5 => 10000
  | 4 => 5000
  | 3 => 500
  | 2 => 50
  | 1 => 5
  | _ => 0

/-- Difficulty table. Fields: max_depth, radius, max_candidates, noise. -/
structure Params where
  max_depth : Nat
  radius : Nat
  max_candidates : Nat
  noise : Int
deriving DecidableEq

def DIFFICULTY_PARAMS : String → Option Params
  | "easy" => some ⟨2, 2, 15, 40⟩
  | "standard" => some ⟨4, 2, 25, 0⟩
  | "challenge" => some ⟨6, 1, 30, 0⟩
  | _ => none

/-- The while-loop of `_scan_direction` (and the direction walks elsewhere):
number of consecutive p-cells starting at (r,c) inclusive, walking (dr,dc).
Fuel BOARD_SIZE bounds the walk; the walk leaves the 15x15 board after at
most BOARD_SIZE steps, so the bound is never the reason it stops. -/
def run_length (b : Board) (p : Cell) : Nat → Int → Int → Int → Int → Nat
  | 0, _, _, _, _ => 0
  | fuel + 1, r, c, dr, dc =>
    if in_bounds r c && (cellI b r c == p) then
      1 + run_length b p fuel (r + dr) (c + dc) dr dc
    else 0

/-- `_scan_direction`: classify the maximal run starting at (r,c) in
direction (dr,dc); (0, len) when (r,c) does not start a run or the run
forms no scored pattern. Returns (pattern code, run length). -/
def scan_direction (b : Board) (p : Cell) (r c dr dc : Int) : Nat × Nat :=
  if !(in_bounds r c && (cellI b r c == p)) then (0, 0)
  else
    let pr := r - dr
    let pc := c - dc
    if in_bounds pr pc && (cellI b pr pc == p) then (0, 0)
    else
      let len := 1 + run_length b p BOARD_SIZE (r + dr) (c + dc) dr dc
      let nr := r + dr * len
      let nc := c + dc * len
      let left_open := in_bounds pr pc && (cellI b pr pc == "")
      let right_open := in_bounds nr nc && (cellI b nr nc == "")
      if len ≥ 5 then (WIN, len)
      else if len = 4 then
        (if left_open && right_open then OPEN_FOUR
         else if left_open || right_open then HALF_OPEN_FOUR else 0, len)
      else if len = 3 then
        (if left_open && right_open then OPEN_THREE
         else if left_open || right_open then HALF_OPEN_THREE else 0, len)
      else if len = 2 then
        (if left_open && right_open then OPEN_TWO
         else if left_open || right_open then HALF_OPEN_TWO else 0, len)
      else (0, len)

/-- `_get_game_stage`: stones are counted over the rows the board actually
has, exactly as the Python generator expression does. -/
def get_game_stage (b : Board) : Nat :=
  Nat.min ((b.flatten.countP fun cell => !(cell == "")) / 10) 2

/-- Per-cell pattern contribution: the inner direction loop of
`_evaluate_position` for one stone. -/
def pattern_cell_score (b : Board) (q : Cell) (r c : Nat) : Int :=
  (DIRS.map fun d =>
    let pat := scan_direction b q r c d.1 d.2
    if pat.1 ≠ 0 then PATTERN_SCORES pat.1 else 0).sum

/-- `_evaluate_position`. -/
def evaluate_position (b : Board) (player opponent : Cell) : Int :=
  if check_winner b = some player then PATTERN_SCORES WIN
  else if check_winner b = some opponent then -(PATTERN_SCORES WIN)
  else
    let player_score := (pairs15.map fun rc =>
      if cellI b rc.1 rc.2 = player then pattern_cell_score b player rc.1 rc.2 else 0).sum
    let opponent_score := (pairs15.map fun rc =>
      if cellI b rc.1 rc.2 = player then 0
      else if cellI b rc.1 rc.2 = opponent then pattern_cell_score b opponent rc.1 rc.2
      else 0).sum
    let center_bonus := if get_game_stage b = 0 then
      (pairs15.map fun rc =>
        if cellI b rc.1 rc.2 = player then
          max 0 (10 - (((rc.1 : Int) - 7).natAbs + ((rc.2 : Int) - 7).natAbs : Nat))
        else 0).sum
    else 0
    (player_score + center_bonus) - opponent_score

/-! ## Search state (the module-level tables), move generation and ordering -/

/-- The module-level mutable search state: transposition table
(hash -> depth, score, flag, best move; flags 0 EXACT / 1 LOWERBOUND /
2 UPPERBOUND), killer slots per depth, and the history table. The
association lists are consed on write and read front-first, giving dict
overwrite semantics. -/
structure SearchState where
  tt : List (Nat × (Nat × XInt × Nat × Option (Nat × Nat)))
  killers : List (Nat × (Option (Nat × Nat) × Option (Nat × Nat)))
  hist : Nat → Nat → Int

/-- The state of the freshly initialised module (`_init_zobrist` plus the
empty tables). -/
def initial_state : SearchState := ⟨[], [], fun _ _ => 0⟩

def tt_lookup (st : SearchState) (h : Nat) :
    Option (Nat × XInt × Nat × Option (Nat × Nat)) :=
  (st.tt.find? fun e => e.1 == h).map (·.2)

def tt_store (st : SearchState) (h : Nat) (e : Nat × XInt × Nat × Option (Nat × Nat)) :
    SearchState :=
  { st with tt := (h, e) :: st.tt }

/-- Net effect of the killer-slot update in `_minimax` (ensure the depth
entry exists, then shift in the move unless already present). -/
def killer_update (st : SearchState) (depth : Nat) (m : Nat × Nat) : SearchState :=
  let old := ((st.killers.find? fun e => e.1 == depth).map (·.2)).getD (none, none)
  let new := if some m = old.1 ∨ some m = old.2 then old else (some m, old.1)
  { st with killers := (depth, new) :: st.killers }

/-- `_history_table[r][c] += depth * depth`. -/
def hist_update (st : SearchState) (r c : Nat) (depth : Nat) : SearchState :=
  { st with hist := fun r' c' =>
      if r' = r ∧ c' = c then st.hist r c + (depth : Int) * depth else st.hist r' c' }

/-- `_score_single_move`: static ordering score of one candidate. The Python
code places the stone, scores, and removes it again; the placement is
modelled as an expression. Pattern weights are floor-divided by 10 on
nonnegative values. -/
def score_single_move (b : Board) (hist : Nat → Nat → Int) (r c : Nat)
    (player : Cell) : Int :=
  let b1 := setCell b r c player
  if check_winner b1 = some player then 100000000
  else
    (DIRS.map fun d =>
      let pf := scan_direction b1 player r c d.1 d.2
      let pb := scan_direction b1 player r c (-d.1) (-d.2)
      PATTERN_SCORES pf.1 / 10 + PATTERN_SCORES pb.1 / 10).sum
    + hist r c

/-- Descending-by-(score, minus center distance) order for `scored.sort`;
x goes strictly before y when its key is lexicographically larger. Python's
float factor 0.9 is modelled by the exact comparison on 10x scaled scores
(see generate_moves). -/
def gen_before (x y : (Nat × Nat) × Int) : Bool :=
  let kx : Int × Int := (x.2, -(((x.1.1 : Int) - 7).natAbs + ((x.1.2 : Int) - 7).natAbs : Nat))
  let ky : Int × Int := (y.2, -(((y.1.1 : Int) - 7).natAbs + ((y.1.2 : Int) - 7).natAbs : Nat))
  ky.1 < kx.1 || (ky.1 == kx.1 && ky.2 < kx.2)

/-- `_generate_moves`: candidate empty cells within Chebyshev distance
`radius` of a stone, scored from both sides, sorted descending, truncated.
The Python candidate set is enumerated row-major (set order is an
implementation detail of one run; any fixed order is a faithful model).
`max(ai, opp * 0.9)` is modelled exactly as `max(10 * ai, 9 * opp)` on a
10x scale, preserving the comparison. -/
def generate_moves (b : Board) (hist : Nat → Nat → Int) (player opponent : Cell)
    (radius : Nat) (max_candidates : Nat) : List ((Nat × Nat) × Int) :=
  let stones := pairs15.filter fun rc => !(cellI b rc.1 rc.2 == "")
  if stones.isEmpty then [((7, 7), 0)]
  else
    let candidates := pairs15.filter fun rc =>
      (cellI b rc.1 rc.2 == "") &&
      stones.any fun s =>
        ((rc.1 : Int) - s.1).natAbs ≤ radius && ((rc.2 : Int) - s.2).natAbs ≤ radius
    let scored := candidates.map fun rc =>
      let ai_score := score_single_move b hist rc.1 rc.2 player
      let opp_score := score_single_move b hist rc.1 rc.2 opponent
      (rc, max (10 * ai_score) (9 * opp_score))
    (stable_sort gen_before scored).take max_candidates

/-! ## The alpha-beta search `_minimax` (board and tables threaded) -/

mutual

/-- `_minimax`: transposition probe, terminal check, depth cutoff, then the
maximizing / minimizing expansion. Returns (score, best move, board as left
by the call, updated tables). `Z` is the Zobrist key table. -/
def minimax (Z : Nat → Nat → Nat → Nat) (b : Board) (depth : Nat)
    (alpha beta : XInt) (maximizing : Bool) (player opponent : Cell)
    (max_candidates radius : Nat) (node_hash : Nat) (ply : Nat)
    (st : SearchState) :
    XInt × Option (Nat × Nat) × Board × SearchState :=
  let hit : Option (XInt × Option (Nat × Nat)) :=
    match tt_lookup st node_hash with
    | some (td, ts, tf, tm) =>
      if td ≥ depth then
        if tf = 0 then some (ts, tm)
        else if tf = 1 ∧ XInt.ble beta ts then some (ts, tm)
        else if tf = 2 ∧ XInt.ble ts alpha then some (ts, tm)
        else none
      else none
    | none => none
  match hit with
  | some (s, m) => (s, m, b, st)
  | none =>
    if check_winner b = some player then (XInt.fin (WIN_SCORE - ply), none, b, st)
    else if check_winner b = some opponent then (XInt.fin (-WIN_SCORE + ply), none, b, st)
    else if hdz : depth = 0 then (XInt.fin (evaluate_position b player opponent), none, b, st)
    else
      let current_player := if maximizing then player else opponent
      let current_opponent := if maximizing then opponent else player
      let moves := generate_moves b st.hist current_player current_opponent radius max_candidates
      if maximizing then
        let res := mm_loop_max Z b (depth - 1) alpha beta player opponent max_candidates radius
          node_hash ply depth moves XInt.negInf none st
        let value := res.1
        let best := res.2.1
        let alphaF := res.2.2.1
        let flag := if XInt.blt beta alphaF then 0 else 1
        let st2 := if depth ≥ 2 then tt_store res.2.2.2.2 node_hash (depth, value, flag, best)
          else res.2.2.2.2
        (value, best, res.2.2.2.1, st2)
      else
        let res := mm_loop_min Z b (depth - 1) alpha beta player opponent max_candidates radius
          node_hash ply depth moves XInt.posInf none st
        let value := res.1
        let best := res.2.1
        let betaF := res.2.2.1
        let flag := if XInt.blt betaF alpha then 0 else 2
        let st2 := if depth ≥ 2 then tt_store res.2.2.2.2 node_hash (depth, value, flag, best)
          else res.2.2.2.2
        (value, best, res.2.2.2.1, st2)
termination_by (depth, 0)
decreasing_by
  all_goals exact Prod.Lex.left _ _ (by omega)

/-- The maximizing move loop of `_minimax` (place, recurse, undo, update
value / killers / alpha, cutoff with history update). Returns
(value, best move, final alpha, board, tables). -/
def mm_loop_max (Z : Nat → Nat → Nat → Nat) (b : Board) (dchild : Nat)
    (alpha beta : XInt) (player opponent : Cell) (max_candidates radius : Nat)
    (node_hash : Nat) (ply : Nat) (depth : Nat)
    (moves : List ((Nat × Nat) × Int)) (value : XInt) (best : Option (Nat × Nat))
    (st : SearchState) :
    XInt × Option (Nat × Nat) × XInt × Board × SearchState :=
  match moves with
  | [] => (value, best, alpha, b, st)
  | m :: rest =>
    let r := m.1.1
    let c := m.1.2
    let b1 := setCell b r c player
    let child_hash := node_hash ^^^ Z r c 0
    let child := minimax Z b1 dchild alpha beta false player opponent
      max_candidates radius child_hash (ply + 1) st
    let score := child.1
    let b3 := setCell child.2.2.1 r c ""
    let st1 := child.2.2.2
    if XInt.blt value score then
      let st2 := killer_update st1 depth (r, c)
      let alpha1 := XInt.max alpha score
      if XInt.ble beta alpha1 then
        (score, some (r, c), alpha1, b3, hist_update st2 r c depth)
      else
        mm_loop_max Z b3 dchild alpha1 beta player opponent max_candidates radius
          node_hash ply depth rest score (some (r, c)) st2
    else
      let alpha1 := XInt.max alpha value
      if XInt.ble beta alpha1 then
        (value, best, alpha1, b3, hist_update st1 r c depth)
      else
        mm_loop_max Z b3 dchild alpha1 beta player opponent max_candidates radius
          node_hash ply depth rest value best st1
termination_by (dchild, moves.length + 1)

/-- The minimizing move loop of `_minimax` (no killer update, mirrors the
source). Returns (value, best move, final beta, board, tables). -/
def mm_loop_min (Z : Nat → Nat → Nat → Nat) (b : Board) (dchild : Nat)
    (alpha beta : XInt) (player opponent : Cell) (max_candidates radius : Nat)
    (node_hash : Nat) (ply : Nat) (depth : Nat)
    (moves : List ((Nat × Nat) × Int)) (value : XInt) (best : Option (Nat × Nat))
    (st : SearchState) :
    XInt × Option (Nat × Nat) × XInt × Board × SearchState :=
  match moves with
  | [] => (value, best, beta, b, st)
  | m :: rest =>
    let r := m.1.1
    let c := m.1.2
    let b1 := setCell b r c opponent
    let child_hash := node_hash ^^^ Z r c 1
    let child := minimax Z b1 dchild alpha beta true player opponent
      max_candidates radius child_hash (ply + 1) st
    let score := child.1
    let b3 := setCell child.2.2.1 r c ""
    let st1 := child.2.2.2
    if XInt.blt score value then
      let beta1 := XInt.min beta score
      if XInt.ble beta1 alpha then
        (score, some (r, c), beta1, b3, hist_update st1 r c depth)
      else
        mm_loop_min Z b3 dchild alpha beta1 player opponent max_candidates radius
          node_hash ply depth rest score (some (r, c)) st1
    else
      let beta1 := XInt.min beta value
      if XInt.ble beta1 alpha then
        (value, best, beta1, b3, hist_update st1 r c depth)
      else
        mm_loop_min Z b3 dchild alpha beta1 player opponent max_candidates radius
          node_hash ply depth rest value best st1
termination_by (dchild, moves.length + 1)

end

/-! ## Aspiration windows, iterative deepening and the public API -/

/-- `_aspiration_search`: narrow window around the previous score, then a
one-sided re-search on failure. -/
def aspiration_search (Z : Nat → Nat → Nat → Nat) (b : Board) (depth : Nat)
    (prev_score : XInt) (player opponent : Cell) (params : Params)
    (node_hash : Nat) (st : SearchState) :
    XInt × Option (Nat × Nat) × Board × SearchState :=
  let margin : Int := if depth ≥ 4 then 500 else 1000
  let alpha := XInt.addInt prev_score (-margin)
  let beta := XInt.addInt prev_score margin
  let first := minimax Z b depth alpha beta true player opponent
    params.max_candidates params.radius node_hash 0 st
  if XInt.ble first.1 alpha then
    minimax Z first.2.2.1 depth XInt.negInf beta true player opponent
      params.max_candidates params.radius node_hash 0 first.2.2.2
  else if XInt.ble beta first.1 then
    minimax Z first.2.2.1 depth alpha XInt.posInf true player opponent
      params.max_candidates params.radius node_hash 0 first.2.2.2
  else first

/-- `_zobrist_hash` over the 15x15 grid; key index 0 for "X", 1 for "O"
(note: the child-hash updates inside `_minimax` use the opposite indices,
exactly as the source does). -/
def zobrist_hash (Z : Nat → Nat → Nat → Nat) (b : Board) : Nat :=
  pairs15.foldl (fun h rc =>
    if cellI b rc.1 rc.2 = "X" then h ^^^ Z rc.1 rc.2 0
    else if cellI b rc.1 rc.2 = "O" then h ^^^ Z rc.1 rc.2 1
    else h) 0

/-- The iterative-deepening loop of `choose_best_move`. `time_up` is the
oracle for the soft wall-clock checks (one observation per completed
iteration); "easy" has no time check. The `try/except` of the source is
vacuous here: no modelled operation raises. -/
def id_loop (Z : Nat → Nat → Nat → Nat) (time_up : Nat → Bool)
    (player opponent : Cell) (params : Params) (dnorm : String) (node_hash : Nat) :
    List Nat → Board → Option (Nat × Nat) → XInt → SearchState →
    Option (Nat × Nat) × XInt × Board × SearchState
  | [], b, best, bscore, st => (best, bscore, b, st)
  | d :: rest, b, best, bscore, st =>
    let step :=
      if d = 1 then
        minimax Z b d XInt.negInf XInt.posInf true player opponent
          params.max_candidates params.radius node_hash 0 st
      else
        aspiration_search Z b d bscore player opponent params node_hash st
    let best1 := match step.2.1 with
      | some m => some m
      | none => best
    let bscore1 := match step.2.1 with
      | some _ => step.1
      | none => bscore
    if dnorm = "standard" && time_up d then (best1, bscore1, step.2.2.1, step.2.2.2)
    else if dnorm = "challenge" && time_up d then (best1, bscore1, step.2.2.1, step.2.2.2)
    else id_loop Z time_up player opponent params dnorm node_hash rest
      step.2.2.1 best1 bscore1 step.2.2.2

/-- The result dictionary of `choose_best_move`. -/
structure MoveResult where
  row : Nat
  col : Nat
  score : Int
  depth : Nat
deriving DecidableEq

/-- The tail of `choose_best_move`: add the noise perturbation to the score
when the profile asks for one, convert with Python `int` (which raises on an
infinity), and build the result dictionary. -/
def finish_result (params : Params) (noise : Int) (best : Nat × Nat)
    (bscore : XInt) : Except String (Option MoveResult) :=
  let noisy := if params.noise > 0 then XInt.addInt bscore noise else bscore
  match noisy.toIntE with
  | .ok s => .ok (some ⟨best.1, best.2, s, params.max_depth⟩)
  | .error e => .error e

/-- `choose_best_move`, modelled from the module's freshly initialised
state (empty tables). `Z` is the Zobrist key table, `time_up` the soft
time-check oracle, `noise` the sampled `random.randint(-noise, noise)`
perturbation. A Python `None` result is `.ok none`; the only modelled
exception is `int()` applied to an infinite score. -/
def choose_best_move (Z : Nat → Nat → Nat → Nat) (time_up : Nat → Bool)
    (noise : Int) (b : Board) (difficulty : String) :
    Except String (Option MoveResult) :=
  let dnorm := if (DIFFICULTY_PARAMS difficulty).isSome then difficulty else "standard"
  let params := (DIFFICULTY_PARAMS dnorm).getD ⟨4, 2, 25, 0⟩
  match find_immediate_win b "O" with
  | some m => .ok (some ⟨m.1, m.2, PATTERN_SCORES WIN, 0⟩)
  | none =>
  match find_immediate_win b "X" with
  | some m => .ok (some ⟨m.1, m.2, PATTERN_SCORES WIN - 1, 0⟩)
  | none =>
    let st0 := if initial_state.tt.length > 500000 then
      { initial_state with tt := [], killers := [] } else initial_state
    let node_hash := zobrist_hash Z b
    let res := id_loop Z time_up "O" "X" params dnorm node_hash
      (List.range' 1 params.max_depth) b none XInt.negInf st0
    match res.1 with
    | some best => finish_result params noise best res.2.1
    | none =>
      match generate_moves res.2.2.1 res.2.2.2.hist "O" "X"
        params.radius params.max_candidates with
      | [] => .ok none
      | m :: _ => finish_result params noise m.1 res.2.1

end MinimaxEngine

/-! ## Place / undo round-trip (the backtracking pattern of both searches) -/

/-- Placing a stone on an empty cell and removing it restores the exact
prior board (also covers the degenerate out-of-shape no-op writes). -/
theorem setCell_roundtrip {b : Board} {r c : Nat} {v : Cell}
    (h : cellI b r c = "") : setCell (setCell b r c v) r c "" = b := by
  unfold setCell
  have hg : (0 : Int) ≤ (r : Int) ∧ (0 : Int) ≤ (c : Int) := ⟨Int.ofNat_nonneg r, Int.ofNat_nonneg c⟩
  rw [if_pos hg, if_pos hg]
  simp only [Int.toNat_natCast]
  by_cases hlen : r < b.length
  · rw [getD_set_self_split, if_pos hlen, List.set_set, List.set_set]
    by_cases hc : c < (b.getD r []).length
    · have hcell : (b.getD r []).getD c "?" = "" := by
        unfold cellI at h
        rw [if_pos hg] at h
        simpa using h
      have hge : (b.getD r [])[c] = "" := by
        rw [List.getD_eq_getElem?_getD, List.getElem?_eq_getElem hc] at hcell
        simpa using hcell
      have hrow : (b.getD r []).set c "" = b.getD r [] := by
        calc (b.getD r []).set c "" = (b.getD r []).set c (b.getD r [])[c] := by rw [hge]
        _ = b.getD r [] := List.set_getElem_self_eq _ _ hc
      rw [hrow]
      have hb : b.getD r [] = b[r] := by
        rw [List.getD_eq_getElem?_getD, List.getElem?_eq_getElem hlen]
        rfl
      rw [hb]
      exact List.set_getElem_self_eq b r hlen
    · have hrow : ∀ w : Cell, (b.getD r []).set c w = b.getD r [] := fun w =>
        List.set_eq_of_length_le (Nat.le_of_not_lt hc)
      rw [hrow]
      have hb : b.getD r [] = b[r] := by
        rw [List.getD_eq_getElem?_getD, List.getElem?_eq_getElem hlen]
        rfl
      rw [hb]
      exact List.set_getElem_self_eq b r hlen
  · rw [List.set_eq_of_length_le (Nat.le_of_not_lt hlen),
      List.set_eq_of_length_le (Nat.le_of_not_lt hlen)]

namespace MinimaxEngine

/-- Every generated candidate is an empty cell of the board it was
generated from. -/
theorem generate_moves_empty_cells {b : Board} {hist : Nat → Nat → Int}
    {p o : Cell} {rad mc : Nat} {m : (Nat × Nat) × Int}
    (hm : m ∈ generate_moves b hist p o rad mc) : cellI b m.1.1 m.1.2 = "" := by
  simp only [generate_moves] at hm
  by_cases hst : (pairs15.filter fun rc => !(cellI b rc.1 rc.2 == "")).isEmpty
  · rw [if_pos hst] at hm
    have hmm : m = ((7, 7), 0) := by simpa using hm
    subst hmm
    by_contra hne
    have hmem : ((7 : Nat), (7 : Nat)) ∈ pairs15.filter fun rc => !(cellI b rc.1 rc.2 == "") := by
      rw [List.mem_filter]
      exact ⟨mem_pairs15.mpr (by constructor <;> norm_num [BOARD_SIZE]), by simpa using hne⟩
    rw [List.isEmpty_iff] at hst
    rw [hst] at hmem
    exact absurd hmem (List.not_mem_nil _)
  · rw [if_neg hst] at hm
    have hm2 := List.mem_of_mem_take hm
    rw [mem_stable_sort, List.mem_map] at hm2
    obtain ⟨rc, hrc, hmap⟩ := hm2
    rw [List.mem_filter, Bool.and_eq_true] at hrc
    have hcell : cellI b rc.1 rc.2 = "" := by simpa using hrc.2.1
    have hm1 : m.1 = rc := by rw [← hmap]
    rw [hm1]
    exact hcell

/-- The maximizing loop hands back the board it was entered with, provided
each listed move is empty on it and child calls restore their boards. -/
theorem mm_loop_max_board {Z : Nat → Nat → Nat → Nat} {dchild : Nat} {beta : XInt}
    {player opponent : Cell} {mc rad nh ply depth : Nat}
    (IH : ∀ (b' : Board) (α β : XInt) (nh' ply' : Nat) (st' : SearchState),
      (minimax Z b' dchild α β false player opponent mc rad nh' ply' st').2.2.1 = b') :
    ∀ (moves : List ((Nat × Nat) × Int)) (b : Board) (alpha value : XInt)
      (best : Option (Nat × Nat)) (st : SearchState),
      (∀ m ∈ moves, cellI b m.1.1 m.1.2 = "") →
      (mm_loop_max Z b dchild alpha beta player opponent mc rad nh ply depth
        moves value best st).2.2.2.1 = b := by
  intro moves
  induction moves with
  | nil =>
    intro b alpha value best st _
    simp [mm_loop_max]
  | cons m rest ih =>
    intro b alpha value best st hemp
    have hhead : cellI b m.1.1 m.1.2 = "" := hemp m (by simp)
    have hrest : ∀ x ∈ rest, cellI b x.1.1 x.1.2 = "" := fun x hx => hemp x (by simp [hx])
    simp only [mm_loop_max]
    rw [IH (setCell b m.1.1 m.1.2 player) alpha beta (nh ^^^ Z m.1.1 m.1.2 0) (ply + 1) st]
    rw [setCell_roundtrip hhead]
    split
    · split
      · rfl
      · exact ih b _ _ _ _ hrest
    · split
      · rfl
      · exact ih b _ _ _ _ hrest

/-- The minimizing loop hands back the board it was entered with. -/
theorem mm_loop_min_board {Z : Nat → Nat → Nat → Nat} {dchild : Nat} {alpha : XInt}
    {player opponent : Cell} {mc rad nh ply depth : Nat}
    (IH : ∀ (b' : Board) (α β : XInt) (nh' ply' : Nat) (st' : SearchState),
      (minimax Z b' dchild α β true player opponent mc rad nh' ply' st').2.2.1 = b') :
    ∀ (moves : List ((Nat × Nat) × Int)) (b : Board) (beta value : XInt)
      (best : Option (Nat × Nat)) (st : SearchState),
      (∀ m ∈ moves, cellI b m.1.1 m.1.2 = "") →
      (mm_loop_min Z b dchild alpha beta player opponent mc rad nh ply depth
        moves value best st).2.2.2.1 = b := by
  intro moves
  induction moves with
  | nil =>
    intro b beta value best st _
    simp [mm_loop_min]
  | cons m rest ih =>
    intro b beta value best st hemp
    have hhead : cellI b m.1.1 m.1.2 = "" := hemp m (by simp)
    have hrest : ∀ x ∈ rest, cellI b x.1.1 x.1.2 = "" := fun x hx => hemp x (by simp [hx])
    simp only [mm_loop_min]
    rw [IH (setCell b m.1.1 m.1.2 opponent) alpha beta (nh ^^^ Z m.1.1 m.1.2 1) (ply + 1) st]
    rw [setCell_roundtrip hhead]
    split
    · split
      · rfl
      · exact ih b _ _ _ _ hrest
    · split
      · rfl
      · exact ih b _ _ _ _ hrest

/-- Every `_minimax` call returns with the shared board exactly as it was at
entry: each stone placed during the call is removed before returning. -/
theorem minimax_board_restored :
    ∀ (depth : Nat) (Z : Nat → Nat → Nat → Nat) (b : Board) (alpha beta : XInt)
      (maximizing : Bool) (player opponent : Cell) (mc rad nh ply : Nat)
      (st : SearchState),
      (minimax Z b depth alpha beta maximizing player opponent mc rad nh ply st).2.2.1 = b := by
  intro depth
  induction depth using Nat.strong_induction_on with
  | _ depth IH =>
    intro Z b alpha beta maximizing player opponent mc rad nh ply st
    unfold minimax
    cases htt : tt_lookup st nh with
    | some e =>
      obtain ⟨td, ts, tf, tm⟩ := e
      simp only []
      split
      · rfl
      · split
        · rfl
        · split
          · rfl
          · split
            · rfl
            · rename_i hdz
              split
              · exact mm_loop_max_board
                  (fun b' α β nh' ply' st' => IH (depth - 1) (by omega) Z b' α β false player opponent mc rad nh' ply' st')
                  _ b alpha XInt.negInf none st
                  (fun m hm => generate_moves_empty_cells hm)
              · exact mm_loop_min_board
                  (fun b' α β nh' ply' st' => IH (depth - 1) (by omega) Z b' α β true player opponent mc rad nh' ply' st')
                  _ b beta XInt.posInf none st
                  (fun m hm => generate_moves_empty_cells hm)
    | none =>
      simp only []
      split
      · rfl
      · split
        · rfl
        · split
          · rfl
          · rename_i hdz
            split
            · exact mm_loop_max_board
                (fun b' α β nh' ply' st' => IH (depth - 1) (by omega) Z b' α β false player opponent mc rad nh' ply' st')
                _ b alpha XInt.negInf none st
                (fun m hm => generate_moves_empty_cells hm)
            · exact mm_loop_min_board
                (fun b' α β nh' ply' st' => IH (depth - 1) (by omega) Z b' α β true player opponent mc rad nh' ply' st')
                _ b beta XInt.posInf none st
                (fun m hm => generate_moves_empty_cells hm)

end MinimaxEngine

/-! ## Shortcut behaviour of choose_best_move -/

namespace MinimaxEngine

/-- When an immediate winning placement is found, choose_best_move returns
it with the configured win score and depth 0, for every difficulty. -/
theorem choose_best_move_win_shortcut {Z : Nat → Nat → Nat → Nat}
    {time_up : Nat → Bool} {noise : Int} {b : Board} {d : String} {m : Nat × Nat}
    (h : find_immediate_win b "O" = some m) :
    choose_best_move Z time_up noise b d =
      .ok (some ⟨m.1, m.2, PATTERN_SCORES WIN, 0⟩) := by
  simp only [choose_best_move, h]

/-- When no own win exists but an opponent winning placement is found,
choose_best_move returns the blocking cell with score WIN - 1 and depth 0. -/
theorem choose_best_move_block_shortcut {Z : Nat → Nat → Nat → Nat}
    {time_up : Nat → Bool} {noise : Int} {b : Board} {d : String} {m : Nat × Nat}
    (hO : find_immediate_win b "O" = none) (hX : find_immediate_win b "X" = some m) :
    choose_best_move Z time_up noise b d =
      .ok (some ⟨m.1, m.2, PATTERN_SCORES WIN - 1, 0⟩) := by
  simp only [choose_best_move, hO, hX]

/-- Helper for C1: on a live board where some empty cell completes a five
for the mover "O", choose_best_move returns a winning move (any difficulty,
any time oracle, any noise sample). -/
theorem choose_best_move_finds_win {Z : Nat → Nat → Nat → Nat}
    {time_up : Nat → Bool} {noise : Int} {b : Board} {d : String}
    (hnone : check_winner b = none)
    (hex : ∃ rc : Nat × Nat, rc.1 < BOARD_SIZE ∧ rc.2 < BOARD_SIZE ∧
      cellI b rc.1 rc.2 = "" ∧ board_has_five (setCell b rc.1 rc.2 "O") "O" = true) :
    ∃ res : MoveResult,
      choose_best_move Z time_up noise b d = .ok (some res) ∧
      cellI b res.row res.col = "" ∧
      board_has_five (setCell b res.row res.col "O") "O" = true ∧
      res.score = PATTERN_SCORES WIN ∧ res.depth = 0 := by
  obtain ⟨m, hm⟩ := find_immediate_win_isSome hnone (Or.inr rfl) hex
  obtain ⟨hemp, hcw, _, _⟩ := find_immediate_win_some hm
  refine ⟨⟨m.1, m.2, PATTERN_SCORES WIN, 0⟩, choose_best_move_win_shortcut hm, hemp, ?_, rfl, rfl⟩
  exact (check_winner_some hcw).2

/-- Helper for C2: on a live board where the mover "O" has no winning
placement but the opponent "X" has one, choose_best_move returns a cell
whose occupation blocks an opponent winning cell. -/
theorem choose_best_move_finds_block {Z : Nat → Nat → Nat → Nat}
    {time_up : Nat → Bool} {noise : Int} {b : Board} {d : String}
    (hnone : check_winner b = none)
    (hnoO : ∀ r c : Nat, r < BOARD_SIZE → c < BOARD_SIZE → cellI b r c = "" →
      board_has_five (setCell b r c "O") "O" = false)
    (hexX : ∃ rc : Nat × Nat, rc.1 < BOARD_SIZE ∧ rc.2 < BOARD_SIZE ∧
      cellI b rc.1 rc.2 = "" ∧ board_has_five (setCell b rc.1 rc.2 "X") "X" = true) :
    ∃ res : MoveResult,
      choose_best_move Z time_up noise b d = .ok (some res) ∧
      cellI b res.row res.col = "" ∧
      board_has_five (setCell b res.row res.col "X") "X" = true ∧
      res.score = PATTERN_SCORES WIN - 1 ∧ res.depth = 0 := by
  have hO : find_immediate_win b "O" = none := find_immediate_win_none hnoO
  obtain ⟨m, hm⟩ := find_immediate_win_isSome hnone (Or.inl rfl) hexX
  obtain ⟨hemp, hcw, _, _⟩ := find_immediate_win_some hm
  refine ⟨⟨m.1, m.2, PATTERN_SCORES WIN - 1, 0⟩,
    choose_best_move_block_shortcut hO hm, hemp, ?_, rfl, rfl⟩
  exact (check_winner_some hcw).2

/-- Amended antisymmetry: once the early-game center bonus is off (at least
10 stones) and no five is on the board, `_evaluate_position` is exactly
antisymmetric in the two players. -/
theorem evaluate_position_antisymm {b : Board} {p o : Cell}
    (hpo : p ≠ o) (hnw : check_winner b = none) (hstage : get_game_stage b ≠ 0) :
    evaluate_position b p o = -evaluate_position b o p := by
  unfold evaluate_position
  rw [hnw]
  simp only [reduceCtorEq, if_false, hstage]
  have h1 : (pairs15.map fun rc =>
      if cellI b rc.1 rc.2 = p then pattern_cell_score b p rc.1 rc.2 else 0) =
    (pairs15.map fun rc =>
      if cellI b rc.1 rc.2 = o then 0
      else if cellI b rc.1 rc.2 = p then pattern_cell_score b p rc.1 rc.2 else 0) := by
    apply List.map_eq_map_iff.mpr
    intro rc _
    by_cases hc : cellI b rc.1 rc.2 = o
    · rw [hc]
      rw [if_pos rfl, if_neg (fun h => hpo h.symm)]
    · rw [if_neg hc]
  have h2 : (pairs15.map fun rc =>
      if cellI b rc.1 rc.2 = o then pattern_cell_score b o rc.1 rc.2 else 0) =
    (pairs15.map fun rc =>
      if cellI b rc.1 rc.2 = p then 0
      else if cellI b rc.1 rc.2 = o then pattern_cell_score b o rc.1 rc.2 else 0) := by
    apply List.map_eq_map_iff.mpr
    intro rc _
    by_cases hc : cellI b rc.1 rc.2 = p
    · rw [hc]
      rw [if_pos rfl, if_neg hpo]
    · rw [if_neg hc]
  rw [← h1, ← h2]
  ring

/-- Amended terminal behaviour of `_minimax`: when the transposition probe
misses, a board already containing a completed five for the maximizing
player scores WIN - ply, and one for the opponent scores -WIN + ply, before
depth is consulted. -/
theorem minimax_terminal_after_tt_miss {Z : Nat → Nat → Nat → Nat} {b : Board}
    {depth : Nat} {alpha beta : XInt} {maximizing : Bool} {player opponent : Cell}
    {mc rad nh ply : Nat} {st : SearchState}
    (htt : tt_lookup st nh = none) :
    (check_winner b = some player →
      minimax Z b depth alpha beta maximizing player opponent mc rad nh ply st =
        (XInt.fin (WIN_SCORE - ply), none, b, st)) ∧
    (check_winner b = some opponent → player ≠ opponent →
      minimax Z b depth alpha beta maximizing player opponent mc rad nh ply st =
        (XInt.fin (-WIN_SCORE + ply), none, b, st)) := by
  constructor
  · intro hw
    simp only [minimax, htt, hw]
    simp
  · intro hw hne
    have hnp : check_winner b ≠ some player := by
      rw [hw]
      intro hcon
      exact hne (Option.some.inj hcon).symm
    simp only [minimax, htt, hw, hnp]
    simp
    intro hcon
    exact absurd hcon.symm hne

end MinimaxEngine

/-! ## Full-board behaviour (claim C9) -/

namespace MinimaxEngine

/-- Invariant: every transposition entry stores no best move. -/
def tt_moves_none (st : SearchState) : Prop := ∀ e ∈ st.tt, e.2.2.2.2 = none

theorem tt_lookup_move_none {st : SearchState} {h : Nat}
    {td : Nat} {ts : XInt} {tf : Nat} {tm : Option (Nat × Nat)}
    (hinv : tt_moves_none st) (hl : tt_lookup st h = some (td, ts, tf, tm)) :
    tm = none := by
  unfold tt_lookup at hl
  cases hf : st.tt.find? fun e => e.1 == h with
  | none => rw [hf] at hl; exact absurd hl (by simp)
  | some e =>
    rw [hf] at hl
    have hmem := List.mem_of_find?_eq_some hf
    have he2 : e.2 = (td, ts, tf, tm) := by simpa using hl
    have := hinv e hmem
    rw [he2] at this
    exact this

/-- On a board with no empty cell, the candidate generator returns no moves. -/
theorem generate_moves_full {b : Board} {hist : Nat → Nat → Int} {p o : Cell}
    {rad mc : Nat}
    (hfull : ∀ r c : Nat, r < BOARD_SIZE → c < BOARD_SIZE → cellI b r c ≠ "") :
    generate_moves b hist p o rad mc = [] := by
  simp only [generate_moves]
  have h00mem : ((0 : Nat), (0 : Nat)) ∈ pairs15 :=
    mem_pairs15.mpr (by constructor <;> norm_num [BOARD_SIZE])
  have hstones : ¬(pairs15.filter fun rc => !(cellI b rc.1 rc.2 == "")).isEmpty = true := by
    rw [List.isEmpty_iff]
    intro hnil
    have h00 : ((0 : Nat), (0 : Nat)) ∈ pairs15.filter fun rc => !(cellI b rc.1 rc.2 == "") := by
      rw [List.mem_filter]
      refine ⟨h00mem, ?_⟩
      have := hfull 0 0 (by norm_num [BOARD_SIZE]) (by norm_num [BOARD_SIZE])
      simpa using this
    rw [hnil] at h00
    exact absurd h00 (List.not_mem_nil _)
  rw [if_neg hstones]
  have hcand : (pairs15.filter fun rc =>
      (cellI b rc.1 rc.2 == "") &&
      (pairs15.filter fun rc => !(cellI b rc.1 rc.2 == "")).any fun s =>
        ((rc.1 : Int) - s.1).natAbs ≤ rad && ((rc.2 : Int) - s.2).natAbs ≤ rad) = [] := by
    rw [List.filter_eq_nil_iff]
    intro rc hrc
    have hb : rc.1 < BOARD_SIZE ∧ rc.2 < BOARD_SIZE := by
      have : (rc.1, rc.2) ∈ pairs15 := by simpa using hrc
      exact mem_pairs15.mp this
    have := hfull rc.1 rc.2 hb.1 hb.2
    simp [this]
  rw [hcand]
  simp [stable_sort]

/-- On a full board a `_minimax` call expands no moves: it returns best-move
none and preserves the table invariant. -/
theorem minimax_full_board {Z : Nat → Nat → Nat → Nat} {b : Board} {depth : Nat}
    {alpha beta : XInt} {maximizing : Bool} {player opponent : Cell}
    {mc rad nh ply : Nat} {st : SearchState}
    (hfull : ∀ r c : Nat, r < BOARD_SIZE → c < BOARD_SIZE → cellI b r c ≠ "")
    (hinv : tt_moves_none st) :
    (minimax Z b depth alpha beta maximizing player opponent mc rad nh ply st).2.1 = none ∧
    tt_moves_none (minimax Z b depth alpha beta maximizing player opponent mc rad nh ply st).2.2.2 := by
  unfold minimax
  cases htt : tt_lookup st nh with
  | some e =>
    obtain ⟨td, ts, tf, tm⟩ := e
    have htm : tm = none := tt_lookup_move_none hinv htt
    subst htm
    simp only []
    split
    · rename_i s m heq
      refine ⟨?_, hinv⟩
      split at heq
      · split at heq
        · simp at heq
          exact heq.2.symm
        · split at heq
          · simp at heq
            exact heq.2.symm
          · split at heq
            · simp at heq
              exact heq.2.symm
            · simp at heq
      · simp at heq
    · split
      · exact ⟨rfl, hinv⟩
      · split
        · exact ⟨rfl, hinv⟩
        · split
          · exact ⟨rfl, hinv⟩
          · rw [generate_moves_full hfull]
            split
            · simp only [mm_loop_max]
              constructor
              · trivial
              · split
                · intro e he
                  simp only [tt_store] at he
                  rcases List.mem_cons.mp he with he | he
                  · rw [he]
                  · exact hinv e he
                · exact hinv
            · simp only [mm_loop_min]
              constructor
              · trivial
              · split
                · intro e he
                  simp only [tt_store] at he
                  rcases List.mem_cons.mp he with he | he
                  · rw [he]
                  · exact hinv e he
                · exact hinv
  | none =>
    simp only []
    split
    · exact ⟨rfl, hinv⟩
    · split
      · exact ⟨rfl, hinv⟩
      · split
        · exact ⟨rfl, hinv⟩
        · rw [generate_moves_full hfull]
          split
          · simp only [mm_loop_max]
            constructor
            · trivial
            · split
              · intro e he
                simp only [tt_store] at he
                rcases List.mem_cons.mp he with he | he
                · rw [he]
                · exact hinv e he
              · exact hinv
          · simp only [mm_loop_min]
            constructor
            · trivial
            · split
              · intro e he
                simp only [tt_store] at he
                rcases List.mem_cons.mp he with he | he
                · rw [he]
                · exact hinv e he
              · exact hinv

end MinimaxEngine

namespace MinimaxEngine

/-- With no empty cell there is no immediate win to find, for either side. -/
theorem find_immediate_win_full {b : Board} {p : Cell}
    (hfull : ∀ r c : Nat, r < BOARD_SIZE → c < BOARD_SIZE → cellI b r c ≠ "") :
    find_immediate_win b p = none := by
  unfold find_immediate_win
  rw [List.find?_eq_none]
  intro rc hrc
  have hb := mem_pairs15.mp (by simpa using hrc)
  have := hfull rc.1 rc.2 hb.1 hb.2
  simp [this]

/-- Aspiration search on a full board: no best move, board unchanged,
table invariant preserved. -/
theorem aspiration_full_board {Z : Nat → Nat → Nat → Nat} {b : Board} {depth : Nat}
    {prev : XInt} {player opponent : Cell} {params : Params} {nh : Nat}
    {st : SearchState}
    (hfull : ∀ r c : Nat, r < BOARD_SIZE → c < BOARD_SIZE → cellI b r c ≠ "")
    (hinv : tt_moves_none st) :
    (aspiration_search Z b depth prev player opponent params nh st).2.1 = none ∧
    (aspiration_search Z b depth prev player opponent params nh st).2.2.1 = b ∧
    tt_moves_none (aspiration_search Z b depth prev player opponent params nh st).2.2.2 := by
  unfold aspiration_search
  simp only []
  generalize (if depth ≥ 4 then (500 : Int) else 1000) = M
  have h1 := @minimax_full_board Z b depth (XInt.addInt prev (-M))
    (XInt.addInt prev M) true player opponent params.max_candidates
    params.radius nh 0 st hfull hinv
  have hb1 := minimax_board_restored depth Z b (XInt.addInt prev (-M))
    (XInt.addInt prev M) true player opponent params.max_candidates params.radius nh 0 st
  split
  · rw [hb1]
    have h2 := @minimax_full_board Z b depth XInt.negInf (XInt.addInt prev M)
      true player opponent params.max_candidates params.radius nh 0 _
      hfull h1.2
    exact ⟨h2.1, minimax_board_restored _ _ _ _ _ _ _ _ _ _ _ _ _, h2.2⟩
  · split
    · rw [hb1]
      have h2 := @minimax_full_board Z b depth (XInt.addInt prev (-M))
        XInt.posInf true player opponent params.max_candidates params.radius nh 0 _
        hfull h1.2
      exact ⟨h2.1, minimax_board_restored _ _ _ _ _ _ _ _ _ _ _ _ _, h2.2⟩
    · exact ⟨h1.1, hb1, h1.2⟩

/-- The iterative-deepening loop on a full board keeps best-move none,
returns the entry board, and preserves the table invariant. -/
theorem id_loop_full_board {Z : Nat → Nat → Nat → Nat} {tf : Nat → Bool}
    {player opponent : Cell} {params : Params} {dnorm : String} {nh : Nat} :
    ∀ (ds : List Nat) (b : Board) (bscore : XInt) (st : SearchState),
    (∀ r c : Nat, r < BOARD_SIZE → c < BOARD_SIZE → cellI b r c ≠ "") →
    tt_moves_none st →
    (id_loop Z tf player opponent params dnorm nh ds b none bscore st).1 = none ∧
    (id_loop Z tf player opponent params dnorm nh ds b none bscore st).2.2.1 = b := by
  intro ds
  induction ds with
  | nil =>
    intro b bscore st _ _
    simp [id_loop]
  | cons d rest ih =>
    intro b bscore st hfull hinv
    simp only [id_loop]
    by_cases hd : d = 1
    · rw [if_pos hd]
      have hstep := @minimax_full_board Z b d XInt.negInf XInt.posInf true
        player opponent params.max_candidates params.radius nh 0 st hfull hinv
      have hbd := minimax_board_restored d Z b XInt.negInf XInt.posInf true player
        opponent params.max_candidates params.radius nh 0 st
      rw [hstep.1]
      simp only []
      split
      · exact ⟨rfl, hbd⟩
      · split
        · exact ⟨rfl, hbd⟩
        · rw [hbd]
          exact ih b bscore _ hfull hstep.2
    · rw [if_neg hd]
      have hstep := @aspiration_full_board Z b d bscore player opponent
        params nh st hfull hinv
      rw [hstep.1]
      simp only []
      split
      · exact ⟨rfl, hstep.2.1⟩
      · split
        · exact ⟨rfl, hstep.2.1⟩
        · rw [hstep.2.1]
          exact ih b bscore _ hfull hstep.2.2

/-- Amended C9 behaviour of choose_best_move: a board with no empty cell
yields the "no move" result (Python None), at every difficulty, without an
exception. -/
theorem choose_best_move_full_board {Z : Nat → Nat → Nat → Nat}
    {tf : Nat → Bool} {noise : Int} {b : Board} {d : String}
    (hfull : ∀ r c : Nat, r < BOARD_SIZE → c < BOARD_SIZE → cellI b r c ≠ "") :
    choose_best_move Z tf noise b d = .ok none := by
  have hO := @find_immediate_win_full b "O" hfull
  have hX := @find_immediate_win_full b "X" hfull
  simp only [choose_best_move, hO, hX]
  have hres := @id_loop_full_board Z tf "O" "X"
    ((DIFFICULTY_PARAMS (if (DIFFICULTY_PARAMS d).isSome then d else "standard")).getD ⟨4, 2, 25, 0⟩)
    (if (DIFFICULTY_PARAMS d).isSome then d else "standard")
    (zobrist_hash Z b)
    (List.range' 1 ((DIFFICULTY_PARAMS (if (DIFFICULTY_PARAMS d).isSome then d else "standard")).getD ⟨4, 2, 25, 0⟩).max_depth)
    b XInt.negInf initial_state hfull (by intro e he; exact absurd he (List.not_mem_nil _))
  have hst0 : (if initial_state.tt.length > 500000 then
      ({ tt := [], killers := [], hist := initial_state.hist } : SearchState)
      else initial_state) = initial_state := by
    rw [if_neg]
    simp [initial_state]
  rw [hst0, hres.1, hres.2]
  rw [generate_moves_full hfull]

end MinimaxEngine

namespace MinimaxEngine

/-- The projection of a result onto the returned cell. -/
def result_move (res : Except String (Option MoveResult)) :
    Except String (Option (Nat × Nat)) :=
  res.map (Option.map fun r => (r.row, r.col))

theorem finish_result_move_eq {params : Params} {noise : Int} {best : Nat × Nat}
    {bscore : XInt} :
    result_move (finish_result params noise best bscore) =
    result_move (finish_result params 0 best bscore) := by
  unfold finish_result result_move
  by_cases h : params.noise > 0
  · rw [if_pos h, if_pos h]
    cases bscore <;> rfl
  · rw [if_neg h, if_neg h]

theorem choose_tail_move_eq {params : Params} {noise : Int}
    (res : Option (Nat × Nat) × XInt × Board × SearchState) :
    result_move (match res.1 with
      | some best => finish_result params noise best res.2.1
      | none =>
        match generate_moves res.2.2.1 res.2.2.2.hist "O" "X"
          params.radius params.max_candidates with
        | [] => Except.ok none
        | m :: _ => finish_result params noise m.1 res.2.1) =
    result_move (match res.1 with
      | some best => finish_result params 0 best res.2.1
      | none =>
        match generate_moves res.2.2.1 res.2.2.2.hist "O" "X"
          params.radius params.max_candidates with
        | [] => Except.ok none
        | m :: _ => finish_result params 0 m.1 res.2.1) := by
  obtain ⟨o, sc, bb, stt⟩ := res
  cases o with
  | some best => exact finish_result_move_eq
  | none =>
    simp only []
    cases generate_moves bb stt.hist "O" "X" params.radius params.max_candidates with
    | nil => rfl
    | cons m tail => exact finish_result_move_eq

/-- Amended C10 for choose_best_move: the returned cell does not depend on
the sampled noise; only the reported score is perturbed. -/
theorem choose_best_move_move_noise_free {Z : Nat → Nat → Nat → Nat}
    {tf : Nat → Bool} {b : Board} {d : String} {noise : Int} :
    result_move (choose_best_move Z tf noise b d) =
    result_move (choose_best_move Z tf 0 b d) := by
  unfold choose_best_move
  cases hO : find_immediate_win b "O" with
  | some m => rfl
  | none =>
    cases hX : find_immediate_win b "X" with
    | some m => rfl
    | none =>
      simp only []
      exact choose_tail_move_eq _

end MinimaxEngine

namespace MinimaxEngine

theorem finish_result_depth {params : Params} {noise : Int} {best : Nat × Nat}
    {bscore : XInt} {res : MoveResult}
    (h : finish_result params noise best bscore = .ok (some res)) :
    res.depth = params.max_depth := by
  simp only [finish_result] at h
  cases hsc : (if params.noise > 0 then XInt.addInt bscore noise else bscore).toIntE with
  | ok s =>
    rw [hsc] at h
    simp only [Except.ok.injEq, Option.some.injEq] at h
    rw [← h]
  | error e =>
    rw [hsc] at h
    exact absurd h (by simp)

/-- On the search path (no tactical shortcut fired), any returned move
carries `params.max_depth` as its depth field: the configured maximum for
the (normalised) difficulty, independent of the time oracle. -/
theorem choose_best_move_depth_reported {Z : Nat → Nat → Nat → Nat}
    {tf : Nat → Bool} {noise : Int} {b : Board} {d : String} {res : MoveResult}
    (hO : find_immediate_win b "O" = none) (hX : find_immediate_win b "X" = none)
    (h : choose_best_move Z tf noise b d = .ok (some res)) :
    res.depth = ((DIFFICULTY_PARAMS (if (DIFFICULTY_PARAMS d).isSome then d
      else "standard")).getD ⟨4, 2, 25, 0⟩).max_depth := by
  simp only [choose_best_move, hO, hX] at h
  revert h
  generalize (id_loop Z tf "O" "X"
    ((DIFFICULTY_PARAMS (if (DIFFICULTY_PARAMS d).isSome then d else "standard")).getD ⟨4, 2, 25, 0⟩)
    (if (DIFFICULTY_PARAMS d).isSome then d else "standard") (zobrist_hash Z b)
    (List.range' 1 ((DIFFICULTY_PARAMS (if (DIFFICULTY_PARAMS d).isSome then d
      else "standard")).getD ⟨4, 2, 25, 0⟩).max_depth)
    b none XInt.negInf
    (if initial_state.tt.length > 500000 then
      { tt := [], killers := [], hist := initial_state.hist } else initial_state)) = r
  obtain ⟨o, sc, bb, stt⟩ := r
  intro h
  cases o with
  | some best => exact finish_result_depth h
  | none =>
    simp only [] at h
    revert h
    cases generate_moves bb stt.hist "O" "X"
      ((DIFFICULTY_PARAMS (if (DIFFICULTY_PARAMS d).isSome then d else "standard")).getD ⟨4, 2, 25, 0⟩).radius
      ((DIFFICULTY_PARAMS (if (DIFFICULTY_PARAMS d).isSome then d else "standard")).getD ⟨4, 2, 25, 0⟩).max_candidates with
    | nil => intro h; exact absurd h (by simp)
    | cons m tail => intro h; exact finish_result_depth h

end MinimaxEngine

/-! ## Embedding of game/ai.py (AdvancedGomokuAI) -/

namespace GameAi

/-- Module constants of game/ai.py. -/
def HUMAN : Cell := "X"

def AI : Cell := "O"

def EMPTY : Cell := ""

def DIRECTIONS : List (Int × Int) := [(1, 0), (0, 1), (1, 1), (1, -1)]

/-- in_bounds(r, c, n). -/
def in_bounds (n : Nat) (r c : Int) : Bool :=
  0 ≤ r && r < (n : Int) && 0 ≤ c && c < (n : Int)

/-- Row-major coordinates of an n x n scan. -/
def pairsN (n : Nat) : List (Nat × Nat) :=
  (List.range n).flatMap fun r => (List.range n).map fun c => (r, c)

/-- The while-loops of has_five: consecutive p-cells from (r,c) inclusive
walking (dr,dc); fuel n bounds the walk (the walk leaves an n x n board
after at most n steps). -/
def count_run (b : Board) (p : Cell) (n : Nat) : Nat → Int → Int → Int → Int → Nat
  | 0, _, _, _, _ => 0
  | fuel + 1, r, c, dr, dc =>
    if in_bounds n r c && (cellI b r c == p) then
      1 + count_run b p n fuel (r + dr) (c + dc) dr dc
    else 0

/-- has_five(board, r, c, player): some axis through (r,c) carries at least
five consecutive stones of `player` (the anchor cell itself is counted
without being inspected, exactly as the source does). -/
def has_five (b : Board) (r c : Int) (p : Cell) : Bool :=
  let n := b.length
  DIRECTIONS.any fun d =>
    1 + count_run b p n n (r + d.1) (c + d.2) d.1 d.2
      + count_run b p n n (r - d.1) (c - d.2) (-d.1) (-d.2) ≥ 5

/-- check_win(board): first stone (row-major) anchoring a five wins. -/
def check_win (b : Board) : Option Cell :=
  (pairsN b.length).findSome? fun rc =>
    if (cellI b rc.1 rc.2 = HUMAN ∨ cellI b rc.1 rc.2 = AI) &&
        has_five b rc.1 rc.2 (cellI b rc.1 rc.2) then
      some (cellI b rc.1 rc.2)
    else none

/-- basic_neighbors: empty cells within a (2*dist+1) box of any stone;
center of the board when no stone exists. The Python set is enumerated
row-major. -/
def basic_neighbors (b : Board) (dist : Nat) : List (Nat × Nat) :=
  let n := b.length
  let occ := (pairsN n).filter fun rc =>
    cellI b rc.1 rc.2 == HUMAN || cellI b rc.1 rc.2 == AI
  if occ.isEmpty then [(n / 2, n / 2)]
  else (pairsN n).filter fun rc =>
    (cellI b rc.1 rc.2 == EMPTY) && occ.any fun s =>
      ((rc.1 : Int) - s.1).natAbs ≤ dist && ((rc.2 : Int) - s.2).natAbs ≤ dist

/-- generate_moves: the neighborhood of the last move, widened with
basic_neighbors when fewer than 6 candidates result. The Python set union
is modelled as an ordered, duplicate-free row-major enumeration. -/
def generate_moves (b : Board) (last_move : Option (Nat × Nat)) (dist : Nat) :
    List (Nat × Nat) :=
  let n := b.length
  let occ := (pairsN n).filter fun rc =>
    cellI b rc.1 rc.2 == HUMAN || cellI b rc.1 rc.2 == AI
  if occ.isEmpty then [(n / 2, n / 2)]
  else
    let near := match last_move with
      | some lm => (pairsN n).filter fun rc =>
          (cellI b rc.1 rc.2 == EMPTY) &&
          (((rc.1 : Int) - lm.1).natAbs ≤ dist && ((rc.2 : Int) - lm.2).natAbs ≤ dist)
      | none => []
    if near.length < 6 then
      (pairsN n).filter fun rc =>
        rc ∈ near ∨ rc ∈ basic_neighbors b dist
    else near

/-- The pattern table of game/ai.py, in dict insertion order. Lines are
mapped onto the mover's alphabet before matching: "O" mover stone, "X"
opponent stone, "_" anything else. -/
def PATTERN_LIST : List (List Cell × Int) :=
  [ (["O", "O", "O", "O", "O"], 1000000)
  , (["O", "O", "O", "O", "_"], 100000)
  , (["_", "O", "O", "O", "O"], 100000)
  , (["_", "O", "O", "O", "O", "_"], 150000)
  , (["O", "O", "O", "_", "O"], 80000)
  , (["O", "O", "_", "O", "O"], 80000)
  , (["_", "O", "O", "O", "_"], 5000)
  , (["O", "O", "O", "_", "_"], 3000)
  , (["_", "_", "O", "O", "O"], 3000)
  , (["_", "O", "O", "O"], 3000)
  , (["O", "O", "_", "O", "_"], 3000)
  , (["_", "O", "_", "O", "O"], 3000)
  , (["_", "O", "O", "_"], 500)
  , (["_", "_", "O", "O", "_"], 300)
  , (["_", "O", "O", "_", "_"], 300)
  ]

/-- Does pat match at the head of s. -/
def match_at : List Cell → List Cell → Bool
  | [], _ => true
  | _ :: _, [] => false
  | p :: ps, x :: xs => p == x && match_at ps xs

/-- Number of start positions where pat matches (str.find loop with idx+1
restarts, so overlapping matches all count). -/
def count_occ (pat : List Cell) : List Cell → Nat
  | [] => 0
  | x :: xs => (if match_at pat (x :: xs) then 1 else 0) + count_occ pat xs

/-- _extract_lines: rows, columns, both diagonal families (diagonals kept
only when at least 5 long), as lists of cell values with "." for empty. -/
def extract_lines (b : Board) : List (List Cell) :=
  let n := b.length
  let dot : Cell → Cell := fun ch => if ch = EMPTY then "." else ch
  let rows := (List.range n).map fun r =>
    (List.range n).map fun c => dot (cellI b r c)
  let cols := (List.range n).map fun c =>
    (List.range n).map fun r => dot (cellI b r c)
  let diag1 := ((List.range (2 * n - 1)).map fun k =>
    let kk : Int := (k : Int) - (n - 1 : Nat)
    ((List.range n).filterMap fun r =>
      if 0 ≤ (r : Int) + kk ∧ (r : Int) + kk < (n : Int) then
        some (dot (cellI b r ((r : Int) + kk)))
      else none)).filter fun l => 5 ≤ l.length
  let diag2 := ((List.range (2 * n - 1)).map fun k =>
    ((List.range n).filterMap fun r =>
      if 0 ≤ (k : Int) - r ∧ (k : Int) - r < (n : Int) then
        some (dot (cellI b r ((k : Int) - r)))
      else none)).filter fun l => 5 ≤ l.length
  rows ++ cols ++ diag1 ++ diag2

/-- _score_line_patterns for one line and one mover. -/
def score_line_patterns (line : List Cell) (player opp : Cell) : Int :=
  let mapped := line.map fun ch =>
    if ch = player then "O" else if ch = opp then "X" else "_"
  (PATTERN_LIST.map fun pv => (count_occ pv.1 mapped : Int) * pv.2).sum

/-- enhanced_evaluation. The 1.1 defense multiplier is `int(1.1 * h)`;
under exact arithmetic this is truncation of 11*h/10 (the float64 detour of
the source can deviate on no value relevant here; the evaluation is only a
heuristic weight). -/
def enhanced_evaluation (ai hu : Cell) (b : Board) : Int :=
  if check_win b = some ai then 1000000
  else if check_win b = some hu then -1000000
  else
    let lines := extract_lines b
    let ai_score := (lines.map fun l => score_line_patterns l ai hu).sum
    let hu_score := (lines.map fun l => score_line_patterns l hu ai).sum
    let n := b.length
    let mid := n / 2
    let cb_ai := ((pairsN n).map fun rc =>
      if cellI b rc.1 rc.2 = ai then
        max 0 (8 - (((rc.1 : Int) - mid).natAbs + ((rc.2 : Int) - mid).natAbs : Nat))
      else 0).sum
    let cb_hu := ((pairsN n).map fun rc =>
      if cellI b rc.1 rc.2 = hu then
        max 0 (8 - (((rc.1 : Int) - mid).natAbs + ((rc.2 : Int) - mid).natAbs : Nat))
      else 0).sum
    (ai_score + cb_ai) - Int.tdiv (11 * (hu_score + cb_hu)) 10

/-- The search-state fields of one AdvancedGomokuAI instance (the
write-only benchmarking counters are omitted; nothing reads them). The
transposition key is (player, depth, board) as in _board_key. -/
structure AIState where
  tt : List ((Cell × Nat × Board) × (XInt × Nat × String))
  killers : List (Int × List (Nat × Nat))
  hist : Cell → (Nat × Nat) → Int

def ai_initial_state : AIState := ⟨[], [], fun _ _ => 0⟩

def killers_get (st : AIState) (depth : Int) : List (Nat × Nat) :=
  ((st.killers.find? fun e => e.1 == depth).map (·.2)).getD []

def ai_tt_lookup (st : AIState) (k : Cell × Nat × Board) :
    Option (XInt × Nat × String) :=
  (st.tt.find? fun e => e.1 == k).map (·.2)

/-- _is_quiet: no completed five on the board. -/
def is_quiet (b : Board) (ai hu : Cell) : Bool :=
  !((pairsN b.length).any fun rc =>
    (cellI b rc.1 rc.2 == ai || cellI b rc.1 rc.2 == hu) &&
    has_five b rc.1 rc.2 (cellI b rc.1 rc.2))

/-- Descending stable order by score for advanced_move_ordering. -/
def order_before (x y : Int × (Nat × Nat)) : Bool := y.1 < x.1

/-- advanced_move_ordering: killer bonus, history weight, immediate
win/block detection (the temporary placements of the source are modelled
as expressions; both are undone in the source), centrality and last-move
proximity. -/
def advanced_move_ordering (ai hu : Cell) (st : AIState) (b : Board)
    (moves : List (Nat × Nat)) (player : Cell) (depth : Int)
    (last_move : Option (Nat × Nat)) : List (Nat × Nat) :=
  let n := b.length
  let mid := n / 2
  let opponent := if player = ai then hu else ai
  let killer_list := killers_get st depth
  let scored := moves.map fun m =>
    let base : Int := -((((m.1 : Int) - mid).natAbs + ((m.2 : Int) - mid).natAbs : Nat) : Int)
    let k : Int := if m ∈ killer_list then 50000 else 0
    let h : Int := st.hist player m
    let tact : Int :=
      if check_win (setCell b m.1 m.2 player) = some player then 1000000
      else if check_win (setCell b m.1 m.2 opponent) = some opponent then 200000
      else 0
    let near : Int := match last_move with
      | some lm =>
        if Nat.max ((((m.1 : Int) - lm.1).natAbs)) ((((m.2 : Int) - lm.2).natAbs)) ≤ 1
        then 1000 else 0
      | none => 0
    (base + k + h + tact + near, m)
  (stable_sort order_before scored).map (·.2)

mutual

/-- quiescence_search: stand-pat bound, quiet test, then loud-move
recursion in negamax form. Only the board is mutated, so it alone is
threaded; the ordering state is read-only here. -/
def quiescence (ai hu : Cell) (st : AIState) (q_depth : Nat) (b : Board)
    (alpha beta : XInt) (player : Cell) (last_move : Option (Nat × Nat)) :
    XInt × Board :=
  let stand_pat := XInt.fin (enhanced_evaluation ai hu b)
  if XInt.ble beta stand_pat then (beta, b)
  else
    let alpha1 := if XInt.blt alpha stand_pat then stand_pat else alpha
    if q_depth = 0 || is_quiet b ai hu then (stand_pat, b)
    else
      let moves := generate_moves b last_move 1
      let ordered := advanced_move_ordering ai hu st b moves player (-1) last_move
      let opponent := if player = ai then hu else ai
      q_loop ai hu st (q_depth - 1) opponent player ordered b alpha1 beta
termination_by (q_depth, 0)
decreasing_by
  simp only [Bool.or_eq_true, decide_eq_true_eq, not_or] at *
  exact Prod.Lex.left _ _ (by omega)

/-- The move loop of quiescence_search (fail-hard on beta, raise alpha). -/
def q_loop (ai hu : Cell) (st : AIState) (qchild : Nat) (mover responder : Cell)
    (moves : List (Nat × Nat)) (b : Board) (alpha beta : XInt) :
    XInt × Board :=
  match moves with
  | [] => (alpha, b)
  | m :: rest =>
    let b1 := setCell b m.1 m.2 responder
    let child := quiescence ai hu st qchild b1 (XInt.neg beta) (XInt.neg alpha) mover (some m)
    let score := XInt.neg child.1
    let b3 := setCell child.2 m.1 m.2 EMPTY
    if XInt.ble beta score then (beta, b3)
    else if XInt.blt alpha score then
      q_loop ai hu st qchild mover responder rest b3 score beta
    else
      q_loop ai hu st qchild mover responder rest b3 alpha beta
termination_by (qchild, moves.length + 1)
decreasing_by
  all_goals exact Prod.Lex.right _ (by simp)

end

mutual

/-- alpha_beta of game/ai.py: terminal win check (with the early/late ply
tie-break), quiescence hand-off at depth 0, transposition probe with
window tightening, expansion over ordered moves, and the final bound
classification and store. Modelled in the no-time-limit mode (the soft
time check never fires; when it does fire the source returns the static
evaluation without touching the board). -/
def alpha_beta (ai hu : Cell) (depth : Nat) (b : Board) (alpha beta : XInt)
    (player : Cell) (maximizing : Bool) (last_move : Option (Nat × Nat))
    (ply : Nat) (st : AIState) : XInt × Board × AIState :=
  let winner := check_win b
  if winner = some ai then (XInt.fin (1000000 - ply), b, st)
  else if winner = some hu then (XInt.fin (-1000000 + ply), b, st)
  else if hdz : depth = 0 then
    let q := quiescence ai hu st 2 b alpha beta player last_move
    (q.1, q.2, st)
  else
    let act : Option XInt × XInt × XInt :=
      match ai_tt_lookup st (player, depth, b) with
      | some (sv, sd, sf) =>
        if sd ≥ depth then
          if sf = "EXACT" then (some sv, alpha, beta)
          else
            let a1 := if sf = "LOWERBOUND" then XInt.max alpha sv else alpha
            let b1 := if sf = "UPPERBOUND" then XInt.min beta sv else beta
            if XInt.ble b1 a1 then (some sv, a1, b1) else (none, a1, b1)
        else (none, alpha, beta)
      | none => (none, alpha, beta)
    match act.1 with
    | some sv => (sv, b, st)
    | none =>
      let moves := generate_moves b last_move 2
      if moves.isEmpty then (XInt.fin (enhanced_evaluation ai hu b), b, st)
      else
        let ordered := advanced_move_ordering ai hu st b moves player depth last_move
        let res := ab_loop ai hu (depth - 1) depth player maximizing ordered b
          act.2.1 act.2.2 (if maximizing then XInt.negInf else XInt.posInf) ply st
        let best_val := res.1
        let flag : String :=
          if XInt.ble best_val alpha then
            (if maximizing then "UPPERBOUND" else "LOWERBOUND")
          else if XInt.ble beta best_val then
            (if maximizing then "LOWERBOUND" else "UPPERBOUND")
          else "EXACT"
        let st2 := { res.2.2 with
          tt := ((player, depth, b), (best_val, depth, flag)) :: res.2.2.tt }
        (best_val, res.2.1, st2)
termination_by (depth, 0)
decreasing_by
  exact Prod.Lex.left _ _ (by omega)

/-- The expansion loop of alpha_beta: place, recurse with roles swapped,
undo; update best value and window; on a cutoff record killer and history
and break. -/
def ab_loop (ai hu : Cell) (dchild : Nat) (depth : Nat) (player : Cell)
    (maximizing : Bool) (moves : List (Nat × Nat)) (b : Board)
    (alpha beta best_val : XInt) (ply : Nat) (st : AIState) :
    XInt × Board × AIState :=
  match moves with
  | [] => (best_val, b, st)
  | m :: rest =>
    let b1 := setCell b m.1 m.2 player
    let opponent := if player = ai then hu else ai
    let child := alpha_beta ai hu dchild b1 alpha beta opponent (!maximizing)
      (some m) (ply + 1) st
    let val := child.1
    let b3 := setCell child.2.1 m.1 m.2 EMPTY
    let st1 := child.2.2
    if maximizing then
      let best1 := if XInt.blt best_val val then val else best_val
      let alpha1 := if XInt.blt alpha best1 then best1 else alpha
      if XInt.ble beta val then
        let ks := killers_get st1 depth
        let st2 := if m ∈ ks then st1
          else { st1 with killers := ((depth : Int), m :: ks.take 1) :: st1.killers }
        let st3 := { st2 with hist := (fun p mm =>
          if p = player ∧ mm = m then st2.hist player m + (depth : Int) * depth
          else st2.hist p mm) }
        (best1, b3, st3)
      else ab_loop ai hu dchild depth player maximizing rest b3 alpha1 beta best1 ply st1
    else
      let best1 := if XInt.blt val best_val then val else best_val
      let beta1 := if XInt.blt best1 beta then best1 else beta
      if XInt.ble val alpha then
        let ks := killers_get st1 depth
        let st2 := if m ∈ ks then st1
          else { st1 with killers := ((depth : Int), m :: ks.take 1) :: st1.killers }
        let st3 := { st2 with hist := (fun p mm =>
          if p = player ∧ mm = m then st2.hist player m + (depth : Int) * depth
          else st2.hist p mm) }
        (best1, b3, st3)
      else ab_loop ai hu dchild depth player maximizing rest b3 alpha beta1 best1 ply st1
termination_by (dchild, moves.length + 1)
decreasing_by
  all_goals first
    | exact Prod.Lex.right _ (by simp)
    | exact Prod.Lex.left _ _ (by omega)

end

end GameAi

namespace GameAi

/-- A completed five of value p anywhere on the board (window form). -/
def exists_five (b : Board) (p : Cell) : Bool :=
  (pairsN b.length).any fun rc => DIRECTIONS.any fun d =>
    (List.range 5).all fun t =>
      in_bounds b.length ((rc.1 : Int) + d.1 * t) ((rc.2 : Int) + d.2 * t) &&
      (cellI b ((rc.1 : Int) + d.1 * t) ((rc.2 : Int) + d.2 * t) == p)

theorem mem_pairsN {n r c : Nat} : (r, c) ∈ pairsN n ↔ r < n ∧ c < n := by
  simp [pairsN, List.mem_flatMap, List.mem_map, List.mem_range]

/-- The while loop counts at least j steps when the first j cells match. -/
theorem count_run_ge {b : Board} {p : Cell} {n : Nat} :
    ∀ (j fuel : Nat) (r c dr dc : Int), j ≤ fuel →
    (∀ t : Nat, t < j → in_bounds n (r + t * dr) (c + t * dc) = true ∧
      cellI b (r + t * dr) (c + t * dc) = p) →
    j ≤ count_run b p n fuel r c dr dc := by
  intro j
  induction j with
  | zero => intro fuel r c dr dc _ _; omega
  | succ k ih =>
    intro fuel r c dr dc hf hall
    cases fuel with
    | zero => omega
    | succ f =>
      have h0 := hall 0 (by omega)
      have h0' : in_bounds n r c = true ∧ cellI b r c = p := by
        have e1 : r + (0 : Nat) * dr = r := by push_cast; ring
        have e2 : c + (0 : Nat) * dc = c := by push_cast; ring
        rw [e1, e2] at h0
        exact h0
      unfold count_run
      rw [if_pos (by rw [h0'.1, h0'.2]; simp)]
      have hshift : ∀ t : Nat, t < k →
          in_bounds n (r + dr + t * dr) (c + dc + t * dc) = true ∧
          cellI b (r + dr + t * dr) (c + dc + t * dc) = p := by
        intro t ht
        have := hall (t + 1) (by omega)
        have e1 : r + ((t + 1 : Nat) : Int) * dr = r + dr + t * dr := by push_cast; ring
        have e2 : c + ((t + 1 : Nat) : Int) * dc = c + dc + t * dc := by push_cast; ring
        rw [e1, e2] at this
        exact this
      have := ih f (r + dr) (c + dc) dr dc (by omega) hshift
      omega

/-- Every counted cell matches and lies on the board. -/
theorem count_run_spec {b : Board} {p : Cell} {n : Nat} :
    ∀ (fuel : Nat) (r c dr dc : Int) (t : Nat),
    t < count_run b p n fuel r c dr dc →
    in_bounds n (r + t * dr) (c + t * dc) = true ∧
      cellI b (r + t * dr) (c + t * dc) = p := by
  intro fuel
  induction fuel with
  | zero =>
    intro r c dr dc t ht
    simp [count_run] at ht
  | succ f ih =>
    intro r c dr dc t ht
    unfold count_run at ht
    by_cases hc : (in_bounds n r c && (cellI b r c == p)) = true
    · rw [if_pos hc] at ht
      rw [Bool.and_eq_true, beq_iff_eq] at hc
      cases t with
      | zero =>
        have e1 : r + ((0 : Nat) : Int) * dr = r := by push_cast; ring
        have e2 : c + ((0 : Nat) : Int) * dc = c := by push_cast; ring
        rw [e1, e2]
        exact hc
      | succ k =>
        have := ih (r + dr) (c + dc) dr dc k (by omega)
        have e1 : r + dr + (k : Int) * dr = r + ((k + 1 : Nat) : Int) * dr := by push_cast; ring
        have e2 : c + dc + (k : Int) * dc = c + ((k + 1 : Nat) : Int) * dc := by push_cast; ring
        rw [e1, e2] at this
        exact this
    · rw [if_neg hc] at ht
      omega

/-- Each direction of the scan has a unit step on its non-degenerate axis:
used to bound the run lengths by the board size. -/
theorem directions_step {d : Int × Int} (hd : d ∈ DIRECTIONS) :
    d.1 = 1 ∨ (d.1 = 0 ∧ d.2 = 1) := by
  simp only [DIRECTIONS, List.mem_cons, List.not_mem_nil, or_false] at hd
  rcases hd with h | h | h | h <;> rw [h] <;> simp

/-- First half of C3 for has_five: a contiguous line of at least five
p-stones through (r,c) in a scan direction makes has_five true. -/
theorem has_five_of_line {b : Board} {p : Cell} {r c : Int} {d : Int × Int}
    {i j : Nat} (hd : d ∈ DIRECTIONS) (hij : 4 ≤ i + j)
    (hall : ∀ t : Int, -(i : Int) ≤ t → t ≤ j →
      in_bounds b.length (r + t * d.1) (c + t * d.2) = true ∧
      cellI b (r + t * d.1) (c + t * d.2) = p) :
    has_five b r c p = true := by
  unfold has_five
  rw [List.any_eq_true]
  refine ⟨d, hd, ?_⟩
  have hn : (i : Int) ≤ b.length ∧ (j : Int) ≤ b.length := by
    have h1 := (hall (-(i : Int)) (le_refl _) (by omega)).1
    have h2 := (hall j (by omega) (le_refl _)).1
    have h0 := (hall 0 (by omega) (by omega)).1
    unfold in_bounds at h1 h2 h0
    simp only [Bool.and_eq_true, decide_eq_true_eq] at h1 h2 h0
    rcases directions_step hd with hstep | hstep
    · constructor <;> [nlinarith [h1.1.1.1, h1.1.1.2, h2.1.1.1, h2.1.1.2, h0.1.1.1, h0.1.1.2, hstep] ;
        nlinarith [h1.1.1.1, h1.1.1.2, h2.1.1.1, h2.1.1.2, h0.1.1.1, h0.1.1.2, hstep]]
    · constructor <;> [nlinarith [h1.1.2, h1.2, h2.1.2, h2.2, h0.1.2, h0.2, hstep.1, hstep.2] ;
        nlinarith [h1.1.2, h1.2, h2.1.2, h2.2, h0.1.2, h0.2, hstep.1, hstep.2]]
  have hf : j ≤ count_run b p b.length b.length (r + d.1) (c + d.2) d.1 d.2 := by
    apply count_run_ge j b.length _ _ _ _ (by omega)
    intro t ht
    have := hall (t + 1) (by omega) (by omega)
    have e1 : r + ((t : Int) + 1) * d.1 = r + d.1 + t * d.1 := by ring
    have e2 : c + ((t : Int) + 1) * d.2 = c + d.2 + t * d.2 := by ring
    rw [e1, e2] at this
    exact this
  have hb : i ≤ count_run b p b.length b.length (r - d.1) (c - d.2) (-d.1) (-d.2) := by
    apply count_run_ge i b.length _ _ _ _ (by omega)
    intro t ht
    have := hall (-(t + 1 : Int)) (by omega) (by omega)
    have e1 : r + -((t : Int) + 1) * d.1 = r - d.1 + t * -d.1 := by ring
    have e2 : c + -((t : Int) + 1) * d.2 = c - d.2 + t * -d.2 := by ring
    rw [e1, e2] at this
    exact this
  simp only [decide_eq_true_eq]
  omega

end GameAi

namespace GameAi

/-- Second half of C3: a true has_five at a stone yields a five-window. -/
theorem exists_five_of_has_five {b : Board} {p : Cell} {r c : Nat}
    (hr : r < b.length) (hc : c < b.length) (hcell : cellI b r c = p)
    (h : has_five b r c p = true) : exists_five b p = true := by
  unfold has_five at h
  rw [List.any_eq_true] at h
  obtain ⟨d, hd, hcnt⟩ := h
  simp only [decide_eq_true_eq] at hcnt
  set F := count_run b p b.length b.length ((r : Int) + d.1) ((c : Int) + d.2) d.1 d.2 with hF
  set K := count_run b p b.length b.length ((r : Int) - d.1) ((c : Int) - d.2) (-d.1) (-d.2) with hK
  have hcomb : ∀ o : Int, -(K : Int) ≤ o → o ≤ (F : Int) →
      in_bounds b.length ((r : Int) + o * d.1) ((c : Int) + o * d.2) = true ∧
      cellI b ((r : Int) + o * d.1) ((c : Int) + o * d.2) = p := by
    intro o h1 h2
    rcases lt_trichotomy o 0 with ho | ho | ho
    · obtain ⟨t, ht1, ht2⟩ : ∃ t : Nat, (t : Int) = -o - 1 ∧ t < K := by
        refine ⟨(-o - 1).toNat, by omega, by omega⟩
      have hs := count_run_spec b.length ((r : Int) - d.1) ((c : Int) - d.2) (-d.1) (-d.2) t (by rw [← hK]; exact ht2)
      have e1 : (r : Int) - d.1 + t * -d.1 = (r : Int) + o * d.1 := by rw [ht1]; ring
      have e2 : (c : Int) - d.2 + t * -d.2 = (c : Int) + o * d.2 := by rw [ht1]; ring
      rw [e1, e2] at hs
      exact hs
    · subst ho
      constructor
      · unfold in_bounds
        simp only [Bool.and_eq_true, decide_eq_true_eq]
        omega
      · have e1 : (r : Int) + 0 * d.1 = (r : Int) := by ring
        have e2 : (c : Int) + 0 * d.2 = (c : Int) := by ring
        rw [e1, e2]
        exact hcell
    · obtain ⟨t, ht1, ht2⟩ : ∃ t : Nat, (t : Int) = o - 1 ∧ t < F := by
        refine ⟨(o - 1).toNat, by omega, by omega⟩
      have hs := count_run_spec b.length ((r : Int) + d.1) ((c : Int) + d.2) d.1 d.2 t (by rw [← hF]; exact ht2)
      have e1 : (r : Int) + d.1 + t * d.1 = (r : Int) + o * d.1 := by rw [ht1]; ring
      have e2 : (c : Int) + d.2 + t * d.2 = (c : Int) + o * d.2 := by rw [ht1]; ring
      rw [e1, e2] at hs
      exact hs
  have hkneg := hcomb (-(K : Int)) (le_refl _) (by omega)
  have e1 : (r : Int) + -(K : Int) * d.1 = (r : Int) - (K : Int) * d.1 := by ring
  have e2 : (c : Int) + -(K : Int) * d.2 = (c : Int) - (K : Int) * d.2 := by ring
  rw [e1, e2] at hkneg
  have hkb := hkneg.1
  unfold in_bounds at hkb
  simp only [Bool.and_eq_true, decide_eq_true_eq] at hkb
  unfold exists_five
  rw [List.any_eq_true]
  refine ⟨(((r : Int) - (K : Int) * d.1).toNat, ((c : Int) - (K : Int) * d.2).toNat), ?_, ?_⟩
  · rw [mem_pairsN]
    constructor <;> omega
  · rw [List.any_eq_true]
    refine ⟨d, hd, ?_⟩
    rw [List.all_eq_true]
    intro t htmem
    rw [List.mem_range] at htmem
    have hr0 : ((((r : Int) - (K : Int) * d.1).toNat : Int)) = (r : Int) - (K : Int) * d.1 := by omega
    have hc0 : ((((c : Int) - (K : Int) * d.2).toNat : Int)) = (c : Int) - (K : Int) * d.2 := by omega
    have e3 : ((((r : Int) - (K : Int) * d.1).toNat : Int)) + d.1 * t =
        (r : Int) + ((t : Int) - K) * d.1 := by rw [hr0]; ring
    have e4 : ((((c : Int) - (K : Int) * d.2).toNat : Int)) + d.2 * t =
        (c : Int) + ((t : Int) - K) * d.2 := by rw [hc0]; ring
    rw [e3, e4]
    have := hcomb ((t : Int) - K) (by omega) (by omega)
    rw [Bool.and_eq_true, beq_iff_eq]
    exact this

end GameAi

namespace GameAi

/-- No five for either player: every anchored check is negative and the
full scan reports no winner. -/
theorem check_win_none_of_no_five {b : Board}
    (hH : exists_five b HUMAN = false) (hA : exists_five b AI = false) :
    check_win b = none ∧
    (∀ r c : Nat, r < b.length → c < b.length → ∀ p, (p = HUMAN ∨ p = AI) →
      cellI b r c = p → has_five b r c p = false) := by
  have hmain : ∀ r c : Nat, r < b.length → c < b.length → ∀ p, (p = HUMAN ∨ p = AI) →
      cellI b r c = p → has_five b r c p = false := by
    intro r c hr hc p hp hcell
    by_contra hne
    rw [Bool.not_eq_false] at hne
    have hx := exists_five_of_has_five hr hc hcell hne
    rcases hp with rfl | rfl
    · rw [hH] at hx; exact Bool.false_ne_true hx
    · rw [hA] at hx; exact Bool.false_ne_true hx
  refine ⟨?_, hmain⟩
  unfold check_win
  rw [List.findSome?_eq_none_iff]
  intro rc hmem
  have hb : rc.1 < b.length ∧ rc.2 < b.length := by
    have : (rc.1, rc.2) ∈ pairsN b.length := by simpa using hmem
    exact mem_pairsN.mp this
  by_cases hg : cellI b rc.1 rc.2 = HUMAN ∨ cellI b rc.1 rc.2 = AI
  · have := hmain rc.1 rc.2 hb.1 hb.2 (cellI b rc.1 rc.2) hg rfl
    rw [if_neg]
    rw [Bool.and_eq_true]
    intro hcon
    rw [this] at hcon
    exact Bool.false_ne_true hcon.2
  · rw [if_neg]
    rw [Bool.and_eq_true]
    intro hcon
    rcases hcon with ⟨hdec, _⟩
    rw [decide_eq_true_eq] at hdec
    exact hg hdec

end GameAi

/-! ## Restoration lemmas for the game/ai.py search (claim C4) -/

/-- The write at (r,c) actually lands in the list-of-rows representation. -/
def writable (b : Board) (r c : Nat) : Prop :=
  r < b.length ∧ c < (b.getD r []).length

instance (b : Board) (r c : Nat) : Decidable (writable b r c) := by
  unfold writable
  infer_instance

/-- The round trip also holds when the write is an out-of-shape no-op. -/
theorem setCell_roundtrip_or {b : Board} {r c : Nat} {v : Cell}
    (h : cellI b r c = "" ∨ ¬ writable b r c) :
    setCell (setCell b r c v) r c "" = b := by
  rcases h with h | h
  · exact setCell_roundtrip h
  · unfold writable at h
    push_neg at h
    unfold setCell
    have hg : (0 : Int) ≤ (r : Int) ∧ (0 : Int) ≤ (c : Int) :=
      ⟨Int.ofNat_nonneg r, Int.ofNat_nonneg c⟩
    rw [if_pos hg, if_pos hg]
    simp only [Int.toNat_natCast]
    by_cases hlen : r < b.length
    · have hcl := h hlen
      have hrow : ∀ w : Cell, (b.getD r []).set c w = b.getD r [] := fun w =>
        List.set_eq_of_length_le hcl
      have hb : b.getD r [] = b[r] := by
        rw [List.getD_eq_getElem?_getD, List.getElem?_eq_getElem hlen]
        rfl
      have hinner : b.set r ((b.getD r []).set c v) = b := by
        rw [hrow, hb]
        exact List.set_getElem_self_eq b r hlen
      rw [hinner, hrow, hb]
      exact List.set_getElem_self_eq b r hlen
    · rw [List.set_eq_of_length_le (Nat.le_of_not_lt hlen),
        List.set_eq_of_length_le (Nat.le_of_not_lt hlen)]

/-- The three legal cell states of the data model, on the cells the board
really stores. -/
def rows_valid (b : Board) : Prop :=
  ∀ r c : Nat, writable b r c →
    (b.getD r []).getD c "?" = "" ∨ (b.getD r []).getD c "?" = "X" ∨
    (b.getD r []).getD c "?" = "O"

theorem cellI_eq_getD {b : Board} {r c : Nat} :
    cellI b r c = (b.getD r []).getD c "?" := by
  unfold cellI
  rw [if_pos ⟨Int.ofNat_nonneg r, Int.ofNat_nonneg c⟩]
  simp only [Int.toNat_natCast]

/-- Writing a legal value keeps the board's cells legal. -/
theorem rows_valid_setCell {b : Board} {r c : Nat} {v : Cell}
    (hrv : rows_valid b) (hv : v = "" ∨ v = "X" ∨ v = "O") :
    rows_valid (setCell b (r : Int) (c : Int) v) := by
  intro r' c' hw'
  unfold setCell at hw' ⊢
  rw [if_pos ⟨Int.ofNat_nonneg r, Int.ofNat_nonneg c⟩] at hw' ⊢
  simp only [Int.toNat_natCast] at hw' ⊢
  unfold writable at hw'
  rw [List.length_set] at hw'
  by_cases hr : r' = r
  · subst hr
    by_cases hlen : r' < b.length
    · rw [getD_set_self_split, if_pos hlen] at hw' ⊢
      rw [List.length_set] at hw'
      by_cases hc : c' = c
      · subst hc
        rw [getD_set_self_split, if_pos hw'.2]
        exact hv
      · rw [getD_set_ne _ _ _ _ _ (fun hcon => hc hcon.symm)]
        exact hrv r' c' ⟨hlen, hw'.2⟩
    · rw [List.set_eq_of_length_le (Nat.le_of_not_lt hlen)] at hw' ⊢
      exact hrv r' c' hw'
  · rw [getD_set_ne _ _ _ _ _ (fun hcon => hr hcon.symm)] at hw' ⊢
    exact hrv r' c' hw'

namespace GameAi

/-- Candidates of basic_neighbors are empty cells whenever a stone exists. -/
theorem basic_neighbors_empty_cells {b : Board} {dist : Nat}
    (hocc : ¬((pairsN b.length).filter fun rc =>
      cellI b rc.1 rc.2 == HUMAN || cellI b rc.1 rc.2 == AI).isEmpty = true) :
    ∀ x ∈ basic_neighbors b dist, cellI b x.1 x.2 = "" := by
  intro x hx
  simp only [basic_neighbors] at hx
  rw [if_neg hocc] at hx
  rw [List.mem_filter, Bool.and_eq_true, beq_iff_eq] at hx
  exact hx.2.1

/-- Moves of the move generator are empty cells, except the degenerate
stone-free center whose write may be an out-of-shape no-op; on a board
with only legal cell values either way the place/undo round trip holds. -/
theorem generate_moves_placeable {b : Board} {lm : Option (Nat × Nat)} {dist : Nat}
    (hrv : rows_valid b) :
    ∀ m ∈ generate_moves b lm dist, cellI b m.1 m.2 = "" ∨ ¬ writable b m.1 m.2 := by
  intro m hm
  simp only [generate_moves] at hm
  by_cases hocc : ((pairsN b.length).filter fun rc =>
      cellI b rc.1 rc.2 == HUMAN || cellI b rc.1 rc.2 == AI).isEmpty
  · rw [if_pos hocc] at hm
    have hmm : m = (b.length / 2, b.length / 2) := by simpa using hm
    subst hmm
    by_cases hw : writable b (b.length / 2) (b.length / 2)
    · left
      have hcell := hrv _ _ hw
      rw [← cellI_eq_getD] at hcell
      have hcontra : ∀ q : Cell, cellI b (b.length / 2 : Nat) (b.length / 2 : Nat) = q →
          (q = "X" ∨ q = "O") → False := by
        intro q hq hqs
        have hpred : (cellI b ((b.length / 2 : Nat) : Int) ((b.length / 2 : Nat) : Int) == HUMAN ||
            cellI b ((b.length / 2 : Nat) : Int) ((b.length / 2 : Nat) : Int) == AI) = true := by
          rw [hq]
          rcases hqs with rfl | rfl <;> rfl
        have hmem : (b.length / 2, b.length / 2) ∈ (pairsN b.length).filter fun rc =>
            cellI b rc.1 rc.2 == HUMAN || cellI b rc.1 rc.2 == AI := by
          rw [List.mem_filter]
          exact ⟨mem_pairsN.mpr ⟨hw.1, hw.1⟩, hpred⟩
        rw [List.isEmpty_iff] at hocc
        rw [hocc] at hmem
        exact absurd hmem (List.not_mem_nil _)
      rcases hcell with h | h | h
      · exact h
      · exact absurd (hcontra _ h (Or.inl rfl)) not_false
      · exact absurd (hcontra _ h (Or.inr rfl)) not_false
    · exact Or.inr hw
  · rw [if_neg hocc] at hm
    left
    split at hm
    · rw [List.mem_filter] at hm
      have hp := hm.2
      rw [decide_eq_true_eq] at hp
      rcases hp with hp | hp
      · split at hp
        · rw [List.mem_filter, Bool.and_eq_true, beq_iff_eq] at hp
          exact hp.2.1
        · exact absurd hp (List.not_mem_nil _)
      · exact basic_neighbors_empty_cells hocc _ hp
    · rename_i hnear
      split at hm
      · rw [List.mem_filter, Bool.and_eq_true, beq_iff_eq] at hm
        exact hm.2.1
      · exact absurd hm (List.not_mem_nil _)

end GameAi

namespace GameAi

theorem mem_advanced_move_ordering {ai hu : Cell} {st : AIState} {b : Board}
    {moves : List (Nat × Nat)} {player : Cell} {depth : Int}
    {lm : Option (Nat × Nat)} {m : Nat × Nat}
    (h : m ∈ advanced_move_ordering ai hu st b moves player depth lm) :
    m ∈ moves := by
  simp only [advanced_move_ordering] at h
  rw [List.mem_map] at h
  obtain ⟨pr, hpr, hm⟩ := h
  rw [mem_stable_sort, List.mem_map] at hpr
  obtain ⟨m0, hm0, hmap⟩ := hpr
  rw [← hm, ← hmap]
  exact hm0

/-- The quiescence move loop returns the board it was entered with. -/
theorem q_loop_board_restored {ai hu : Cell} {st : AIState}
    (hai : ai = "X" ∨ ai = "O") (hhu : hu = "X" ∨ hu = "O") {qchild : Nat}
    (IH : ∀ (b' : Board) (alpha beta : XInt) (pl : Cell) (lm : Option (Nat × Nat)),
      rows_valid b' → (pl = ai ∨ pl = hu) →
      (quiescence ai hu st qchild b' alpha beta pl lm).2 = b') :
    ∀ (moves : List (Nat × Nat)) (b : Board) (alpha beta : XInt)
      (mover responder : Cell),
      rows_valid b → (mover = ai ∨ mover = hu) → (responder = ai ∨ responder = hu) →
      (∀ m ∈ moves, cellI b m.1 m.2 = "" ∨ ¬ writable b m.1 m.2) →
      (q_loop ai hu st qchild mover responder moves b alpha beta).2 = b := by
  intro moves
  induction moves with
  | nil =>
    intro b alpha beta mover responder _ _ _ _
    simp [q_loop]
  | cons m rest ih =>
    intro b alpha beta mover responder hrv hmov hresp hpl
    have hhead := hpl m (by simp)
    have hrest : ∀ x ∈ rest, cellI b x.1 x.2 = "" ∨ ¬ writable b x.1 x.2 :=
      fun x hx => hpl x (by simp [hx])
    have hresp' : responder = "" ∨ responder = "X" ∨ responder = "O" := by
      rcases hresp with h | h <;> rcases hai with ha | ha <;> rcases hhu with hh | hh <;>
        simp [h, ha, hh]
    simp only [q_loop]
    rw [IH (setCell b m.1 m.2 responder) (XInt.neg beta) (XInt.neg alpha) mover (some m)
      (rows_valid_setCell hrv hresp') hmov]
    rw [show (EMPTY : Cell) = "" from rfl, setCell_roundtrip_or hhead]
    split
    · rfl
    · split
      · exact ih b _ _ _ _ hrv hmov hresp hrest
      · exact ih b _ _ _ _ hrv hmov hresp hrest

/-- quiescence_search returns the board exactly as at entry. -/
theorem quiescence_board_restored {ai hu : Cell}
    (hai : ai = "X" ∨ ai = "O") (hhu : hu = "X" ∨ hu = "O") :
    ∀ (qd : Nat) (st : AIState) (b : Board) (alpha beta : XInt) (player : Cell)
      (lm : Option (Nat × Nat)),
      rows_valid b → (player = ai ∨ player = hu) →
      (quiescence ai hu st qd b alpha beta player lm).2 = b := by
  intro qd
  induction qd using Nat.strong_induction_on with
  | _ qd IH =>
    intro st b alpha beta player lm hrv hpl
    simp only [quiescence]
    by_cases h1 : XInt.ble beta (XInt.fin (enhanced_evaluation ai hu b)) = true
    · rw [if_pos h1]
    · rw [if_neg h1]
      by_cases h2 : (decide (qd = 0) || is_quiet b ai hu) = true
      · rw [if_pos h2]
      · rw [if_neg h2]
        have hopp : (if player = ai then hu else ai) = ai ∨
            (if player = ai then hu else ai) = hu := by
          split
          · exact Or.inr rfl
          · exact Or.inl rfl
        apply q_loop_board_restored hai hhu
          (fun b' a' b'' pl' lm' hrv' hpl' =>
            IH (qd - 1) (by
              simp only [Bool.or_eq_true, decide_eq_true_eq, not_or] at h2
              omega) st b' a' b'' pl' lm' hrv' hpl')
          _ b _ _ _ _ hrv hopp hpl
        intro m hm
        exact generate_moves_placeable hrv m (mem_advanced_move_ordering hm)

end GameAi

namespace GameAi

/-- The alpha_beta move loop returns the board it was entered with. -/
theorem ab_loop_board_restored {ai hu : Cell} {dchild : Nat} {depth : Nat}
    {ply : Nat}
    (hai : ai = "X" ∨ ai = "O") (hhu : hu = "X" ∨ hu = "O")
    (IH : ∀ (b' : Board) (alpha beta : XInt) (pl : Cell) (mx : Bool)
      (lm : Option (Nat × Nat)) (ply' : Nat) (st' : AIState),
      rows_valid b' → (pl = ai ∨ pl = hu) →
      (alpha_beta ai hu dchild b' alpha beta pl mx lm ply' st').2.1 = b') :
    ∀ (moves : List (Nat × Nat)) (b : Board) (alpha beta best_val : XInt)
      (player : Cell) (maximizing : Bool) (st : AIState),
      rows_valid b → (player = ai ∨ player = hu) →
      (∀ m ∈ moves, cellI b m.1 m.2 = "" ∨ ¬ writable b m.1 m.2) →
      (ab_loop ai hu dchild depth player maximizing moves b alpha beta best_val ply st).2.1 = b := by
  intro moves
  induction moves with
  | nil =>
    intro b alpha beta best_val player maximizing st _ _ _
    simp [ab_loop]
  | cons m rest ih =>
    intro b alpha beta best_val player maximizing st hrv hpl hplc
    have hhead := hplc m (by simp)
    have hrest : ∀ x ∈ rest, cellI b x.1 x.2 = "" ∨ ¬ writable b x.1 x.2 :=
      fun x hx => hplc x (by simp [hx])
    have hpl' : player = "" ∨ player = "X" ∨ player = "O" := by
      rcases hpl with h | h <;> rcases hai with ha | ha <;> rcases hhu with hh | hh <;>
        simp [h, ha, hh]
    have hopp : (if player = ai then hu else ai) = ai ∨
        (if player = ai then hu else ai) = hu := by
      split
      · exact Or.inr rfl
      · exact Or.inl rfl
    simp only [ab_loop]
    rw [IH (setCell b m.1 m.2 player) alpha beta (if player = ai then hu else ai)
      (!maximizing) (some m) (ply + 1) st (rows_valid_setCell hrv hpl') hopp]
    rw [show (EMPTY : Cell) = "" from rfl, setCell_roundtrip_or hhead]
    repeat' split
    all_goals first
      | rfl
      | exact ih b _ _ _ _ _ _ hrv hpl hrest

/-- Every alpha_beta call returns with the shared board exactly as it was
at entry (place-before-recursing, remove-after-returning). -/
theorem alpha_beta_board_restored {ai hu : Cell}
    (hai : ai = "X" ∨ ai = "O") (hhu : hu = "X" ∨ hu = "O") :
    ∀ (depth : Nat) (b : Board) (alpha beta : XInt) (player : Cell)
      (maximizing : Bool) (lm : Option (Nat × Nat)) (ply : Nat) (st : AIState),
      rows_valid b → (player = ai ∨ player = hu) →
      (alpha_beta ai hu depth b alpha beta player maximizing lm ply st).2.1 = b := by
  intro depth
  induction depth using Nat.strong_induction_on with
  | _ depth IH =>
    intro b alpha beta player maximizing lm ply st hrv hpl
    unfold alpha_beta
    by_cases h1 : check_win b = some ai
    · rw [if_pos h1]
    · rw [if_neg h1]
      by_cases h2 : check_win b = some hu
      · rw [if_pos h2]
      · rw [if_neg h2]
        by_cases h3 : depth = 0
        · rw [dif_pos h3]
          exact quiescence_board_restored hai hhu 2 st b alpha beta player lm hrv hpl
        · rw [dif_neg h3]
          simp only []
          split
          · rfl
          · by_cases h4 : (generate_moves b lm 2).isEmpty
            · rw [if_pos h4]
            · rw [if_neg h4]
              simp only []
              apply ab_loop_board_restored hai hhu
                (fun b' a' b'' pl' mx' lm' ply' st' hrv' hpl' =>
                  IH (depth - 1) (by omega) b' a' b'' pl' mx' lm' ply' st' hrv' hpl')
                _ b _ _ _ _ _ _ hrv hpl
              intro m hm
              exact generate_moves_placeable hrv m (mem_advanced_move_ordering hm)

end GameAi

namespace GameAi

/-- Terminal behaviour of alpha_beta: a board already won by the engine's
own player scores 1000000 - ply before the table or depth is consulted. -/
theorem alpha_beta_terminal_ai {ai hu : Cell} {depth : Nat} {b : Board}
    {alpha beta : XInt} {player : Cell} {maximizing : Bool}
    {lm : Option (Nat × Nat)} {ply : Nat} {st : AIState}
    (hw : check_win b = some ai) :
    (alpha_beta ai hu depth b alpha beta player maximizing lm ply st).1 =
      XInt.fin (1000000 - ply) := by
  unfold alpha_beta
  rw [if_pos (by rw [hw])]

/-- Terminal behaviour of alpha_beta for an opponent win: -1000000 + ply. -/
theorem alpha_beta_terminal_hu {ai hu : Cell} {depth : Nat} {b : Board}
    {alpha beta : XInt} {player : Cell} {maximizing : Bool}
    {lm : Option (Nat × Nat)} {ply : Nat} {st : AIState}
    (hw : check_win b = some hu) (hne : ai ≠ hu) :
    (alpha_beta ai hu depth b alpha beta player maximizing lm ply st).1 =
      XInt.fin (-1000000 + ply) := by
  unfold alpha_beta
  rw [if_neg (by rw [hw]; intro hcon; exact hne (Option.some.inj hcon).symm)]
  rw [if_pos (by rw [hw])]

end GameAi

/-! ## Embedding of game/ai/engines/engine_engine.py -/

namespace EngineEngine

/-- Integer-encoded boards: 0 empty, 1 Human (X), -1 AI (O). -/
abbrev IBoard := List (List Int)

/-- board[r][c] for the guarded accesses (junk default 2 never read on the
guarded paths). -/
def icell (b : IBoard) (r c : Int) : Int :=
  if 0 ≤ r ∧ 0 ≤ c then (b.getD r.toNat []).getD c.toNat 2 else 2

/-- board[r][c] = v (no-op out of range, never relied upon). -/
def isetCell (b : IBoard) (r c : Int) (v : Int) : IBoard :=
  if 0 ≤ r ∧ 0 ≤ c then b.set r.toNat ((b.getD r.toNat []).set c.toNat v) else b

/-- _difficulty_to_depth (the lowercase normalisation is the identity on
the names the router passes; unknown names map to 4). -/
def difficulty_to_depth (d : String) : Nat :=
  if d = "easy" then 2
  else if d = "standard" then 4
  else if d = "challenge" then 6
  else 4

def in_bounds (n : Nat) (r c : Int) : Bool :=
  0 ≤ r && r < (n : Int) && 0 ≤ c && c < (n : Int)

def pairsN (n : Nat) : List (Nat × Nat) :=
  (List.range n).flatMap fun r => (List.range n).map fun c => (r, c)

/-- _legal_moves. -/
def legal_moves (b : IBoard) : List (Nat × Nat) :=
  (pairsN b.length).filter fun rc => icell b rc.1 rc.2 == 0

/-- _has_any_stone. -/
def has_any_stone (b : IBoard) : Bool :=
  (pairsN b.length).any fun rc => !(icell b rc.1 rc.2 == 0)

/-- Ascending (center distance, r, c) order used by _candidate_moves. -/
def cand_before (n : Nat) (x y : Nat × Nat) : Bool :=
  let kx : Int × Int × Int :=
    ((((x.1 : Int) - (n / 2 : Nat)).natAbs + ((x.2 : Int) - (n / 2 : Nat)).natAbs : Nat),
      (x.1 : Int), (x.2 : Int))
  let ky : Int × Int × Int :=
    ((((y.1 : Int) - (n / 2 : Nat)).natAbs + ((y.2 : Int) - (n / 2 : Nat)).natAbs : Nat),
      (y.1 : Int), (y.2 : Int))
  kx.1 < ky.1 || (kx.1 == ky.1 && (kx.2.1 < ky.2.1 ||
    (kx.2.1 == ky.2.1 && kx.2.2 < ky.2.2)))

/-- _candidate_moves: empty cells within Chebyshev distance radius of a
stone; the center when the board is empty; sorted and truncated to k when
too many. The Python set is enumerated row-major; the sort key is a total
order on cells, so the output is independent of that enumeration. -/
def candidate_moves (b : IBoard) (k : Nat) (radius : Nat) : List (Nat × Nat) :=
  let n := b.length
  if !(has_any_stone b) then [(n / 2, n / 2)]
  else
    let cand := (pairsN n).filter fun rc =>
      (icell b rc.1 rc.2 == 0) &&
      (pairsN n).any fun s =>
        !(icell b s.1 s.2 == 0) &&
        (((rc.1 : Int) - s.1).natAbs ≤ radius && ((rc.2 : Int) - s.2).natAbs ≤ radius)
    let sorted := stable_sort (cand_before n) cand
    if sorted.length > k then sorted.take k else sorted

/-- _count_in_direction (fuel n bounds the walk as before). -/
def count_in_direction (b : IBoard) (player : Int) (n : Nat) :
    Nat → Int → Int → Int → Int → Nat
  | 0, _, _, _, _ => 0
  | fuel + 1, r, c, dr, dc =>
    if in_bounds n r c && (icell b r c == player) then
      1 + count_in_direction b player n fuel (r + dr) (c + dc) dr dc
    else 0

def IDIRS : List (Int × Int) := [(1, 0), (0, 1), (1, 1), (1, -1)]

/-- _is_winning_move: placing player at (r,c) makes five or more in a row
(placement and removal of the probe stone modelled as an expression). -/
def is_winning_move (b : IBoard) (r c : Int) (player : Int) : Bool :=
  if !(icell b r c == 0) then false
  else
    let b1 := isetCell b r c player
    let n := b.length
    IDIRS.any fun d =>
      1 + count_in_direction b1 player n n (r + d.1) (c + d.2) d.1 d.2
        + count_in_direction b1 player n n (r - d.1) (c - d.2) (-d.1) (-d.2) ≥ 5

/-- _heuristic: center preference plus neighborhood influence, from the AI
(-1) perspective. -/
def heuristic (b : IBoard) : Int :=
  let n := b.length
  let center := (n / 2 : Nat)
  ((pairsN n).map fun rc =>
    let v := icell b rc.1 rc.2
    if v = 0 then 0
    else
      let w_center : Int := max 0 (8 - (((rc.1 : Int) - center).natAbs + ((rc.2 : Int) - center).natAbs : Nat))
      let neigh : Int := (((List.range 3).flatMap fun i => (List.range 3).map fun j => ((i : Int) - 1, (j : Int) - 1)).map
        fun d => if d = (0, 0) then 0
          else if in_bounds n ((rc.1 : Int) + d.1) ((rc.2 : Int) + d.2) &&
              (icell b ((rc.1 : Int) + d.1) ((rc.2 : Int) + d.2) == 0) then (1 : Int)
          else 0).sum
      (-v) * w_center + (-v) * neigh).sum

end EngineEngine

namespace EngineEngine

/-- The maximizing loop of _minimax_ab (AI -1 to move); the child search
is abstracted as f (board, alpha, beta), instantiated with the depth-1
search below, keeping the recursion structural in depth so that concrete
runs reduce. -/
def ab_max_go (f : IBoard → Int → Int → Int) (b : IBoard) :
    List (Nat × Nat) → Int → Int → Int → Int
  | [], _, _, best => best
  | m :: rest, alpha, beta, best =>
    if !(icell b m.1 m.2 == 0) then ab_max_go f b rest alpha beta best
    else
      let val := f (isetCell b m.1 m.2 (-1)) alpha beta
      let best1 := max best val
      let alpha1 := max alpha best1
      if beta ≤ alpha1 then best1
      else ab_max_go f b rest alpha1 beta best1

/-- The minimizing loop of _minimax_ab (Human 1 to move). -/
def ab_min_go (f : IBoard → Int → Int → Int) (b : IBoard) :
    List (Nat × Nat) → Int → Int → Int → Int
  | [], _, _, best => best
  | m :: rest, alpha, beta, best =>
    if !(icell b m.1 m.2 == 0) then ab_min_go f b rest alpha beta best
    else
      let val := f (isetCell b m.1 m.2 1) alpha beta
      let best1 := min best val
      let beta1 := min beta best1
      if beta1 ≤ alpha then best1
      else ab_min_go f b rest alpha beta1 best1

/-- _minimax_ab: depth cutoff, candidate generation, the quick tactical
win scan, then plain alpha-beta over the candidates (the `opp_wins` block
of the source computes a list and discards it; it has no effect). -/
def minimax_ab : Nat → IBoard → Int → Int → Int → Int
  | 0, b, _, _, _ => heuristic b
  | depth + 1, b, player_to_move, alpha, beta =>
    let moves := candidate_moves b 20 2
    if moves.isEmpty then heuristic b
    else if moves.any fun m => is_winning_move b m.1 m.2 player_to_move then
      (if player_to_move = -1 then 100000000 else -100000000)
    else if player_to_move = -1 then
      ab_max_go (fun b' a' b'' => minimax_ab depth b' 1 a' b'') b moves alpha beta (-1000000000)
    else
      ab_min_go (fun b' a' b'' => minimax_ab depth b' (-1) a' b'') b moves alpha beta 1000000000

/-- The metadata dictionary of compute_ai_move. -/
structure EMeta where
  score : Int
  depth : Nat
deriving DecidableEq

/-- The root loop of compute_ai_move: collect the best score and ALL moves
achieving it (random.choice then picks among them). -/
def root_loop (b : IBoard) (dchild : Nat) :
    List (Nat × Nat) → Int → List (Nat × Nat) → Int × List (Nat × Nat)
  | [], best, bm => (best, bm)
  | m :: rest, best, bm =>
    if !(icell b m.1 m.2 == 0) then root_loop b dchild rest best bm
    else
      let score := minimax_ab dchild (isetCell b m.1 m.2 (-1)) 1 (-1000000000) 1000000000
      if best < score then root_loop b dchild rest score [m]
      else if score = best then root_loop b dchild rest best (bm ++ [m])
      else root_loop b dchild rest best bm

/-- compute_ai_move: shape validation, empty-board center, candidate
generation with random fallback, tactical win, tactical block, then the
root search with a uniformly random choice among tied best moves.
`choice` models `random.choice`: it returns some element of the list it is
given. -/
def compute_ai_move (b : IBoard) (difficulty : String)
    (choice : List (Nat × Nat) → Nat × Nat) : Nat × Nat × EMeta :=
  let depth := difficulty_to_depth difficulty
  let n := b.length
  if n = 0 ∨ b.any fun row => row.length ≠ n then (0, 0, ⟨0, depth⟩)
  else if !(has_any_stone b) then (n / 2, n / 2, ⟨0, depth⟩)
  else
    let moves := candidate_moves b 24 2
    if moves.isEmpty then
      let lm := legal_moves b
      if lm.isEmpty then (0, 0, ⟨0, depth⟩)
      else ((choice lm).1, (choice lm).2, ⟨0, depth⟩)
    else
      match moves.find? fun m => is_winning_move b m.1 m.2 (-1) with
      | some m => (m.1, m.2, ⟨100000000, depth⟩)
      | none =>
        let threats := moves.filter fun m => is_winning_move b m.1 m.2 1
        if !threats.isEmpty then
          let ts := stable_sort (cand_before n) threats
          ((ts.headD (0, 0)).1, (ts.headD (0, 0)).2, ⟨10000000, depth⟩)
        else
          let res := root_loop b (depth - 1) moves (-1000000000) []
          if res.2.isEmpty then
            let lm := legal_moves b
            if lm.isEmpty then (0, 0, ⟨0, depth⟩)
            else ((choice lm).1, (choice lm).2, ⟨0, depth⟩)
          else ((choice res.2).1, (choice res.2).2, ⟨res.1, depth⟩)

/-- A concrete admissible tie-break function: pick the first element. -/
def choice_head (l : List (Nat × Nat)) : Nat × Nat := l.headD (0, 0)

/-- A concrete admissible tie-break function: pick the last element. -/
def choice_last (l : List (Nat × Nat)) : Nat × Nat := (l.reverse).headD (0, 0)

end EngineEngine

/-! ## Bounds and root-loop facts for engine_engine.py -/

namespace EngineEngine

theorem epairs_mem {n r c : Nat} : (r, c) ∈ pairsN n ↔ r < n ∧ c < n := by
  simp [pairsN, List.mem_flatMap, List.mem_map, List.mem_range]

/-- Well-formed small boards: rows of the board's own length, entries among
-1, 0 and 1, side at most 100 (covers every grid the router feeds). -/
def igood (b : IBoard) : Bool :=
  decide (b.length ≤ 100) &&
  b.all fun row => decide (row.length = b.length) &&
    row.all fun v => decide (v = -1) || decide (v = 0) || decide (v = 1)

theorem igood_spec {b : IBoard} (hb : igood b = true) :
    b.length ≤ 100 ∧ ∀ row ∈ b, row.length = b.length ∧
      ∀ v ∈ row, v = -1 ∨ v = 0 ∨ v = 1 := by
  unfold igood at hb
  simp only [Bool.and_eq_true, List.all_eq_true, decide_eq_true_eq,
    Bool.or_eq_true] at hb
  exact ⟨hb.1, fun row hrow => ⟨(hb.2 row hrow).1, fun v hv =>
    by rcases (hb.2 row hrow).2 v hv with (h | h) | h <;> [exact Or.inl h;
      exact Or.inr (Or.inl h); exact Or.inr (Or.inr h)]⟩⟩

theorem icell_igood {b : IBoard} (hb : igood b = true) {r c : Nat}
    (hr : r < b.length) (hc : c < b.length) :
    icell b r c = -1 ∨ icell b r c = 0 ∨ icell b r c = 1 := by
  obtain ⟨-, hrows⟩ := igood_spec hb
  unfold icell
  rw [if_pos ⟨Int.ofNat_nonneg r, Int.ofNat_nonneg c⟩]
  simp only [Int.toNat_natCast]
  have hrmem : b.getD r [] = b[r] := by
    rw [List.getD_eq_getElem?_getD, List.getElem?_eq_getElem hr]
    rfl
  rw [hrmem]
  have hrow := hrows b[r] (List.getElem_mem hr)
  have hclen : c < b[r].length := by rw [hrow.1]; exact hc
  have hcmem : b[r].getD c 2 = b[r][c] := by
    rw [List.getD_eq_getElem?_getD, List.getElem?_eq_getElem hclen]
    rfl
  rw [hcmem]
  exact hrow.2 _ (List.getElem_mem hclen)

theorem igood_isetCell {b : IBoard} {r c : Int} {v : Int}
    (hb : igood b = true) (hv : v = -1 ∨ v = 0 ∨ v = 1) :
    igood (isetCell b r c v) = true := by
  obtain ⟨hlen, hrows⟩ := igood_spec hb
  unfold isetCell
  split
  · by_cases hrlt : r.toNat < b.length
    · unfold igood
      simp only [Bool.and_eq_true, List.all_eq_true, decide_eq_true_eq,
        Bool.or_eq_true, List.length_set]
      refine ⟨hlen, fun row hrow => ?_⟩
      rcases List.mem_or_eq_of_mem_set hrow with hmem | heq
      · refine ⟨(hrows row hmem).1, fun w hw => ?_⟩
        rcases (hrows row hmem).2 w hw with h | h | h <;> simp [h]
      · subst heq
        have hbase : b.getD r.toNat [] = b[r.toNat] := by
          rw [List.getD_eq_getElem?_getD, List.getElem?_eq_getElem hrlt]
          rfl
        rw [hbase, List.length_set]
        have hrow0 := hrows b[r.toNat] (List.getElem_mem hrlt)
        refine ⟨hrow0.1, fun w hw => ?_⟩
        rcases List.mem_or_eq_of_mem_set hw with hmem | heqv
        · rcases hrow0.2 w hmem with h | h | h <;> simp [h]
        · subst heqv
          rcases hv with h | h | h <;> simp [h]
    · rw [List.set_eq_of_length_le (Nat.le_of_not_lt hrlt)]
      exact hb
  · exact hb

/-- Each per-cell contribution of _heuristic is at least -17. -/
theorem heuristic_term_ge {v w s : Int} (hv : v = -1 ∨ v = 0 ∨ v = 1)
    (hw0 : 0 ≤ w) (hw8 : w ≤ 8) (hs0 : 0 ≤ s) (hs9 : s ≤ 9) :
    (-17 : Int) ≤ (-v) * w + (-v) * s := by
  rcases hv with h | h | h <;> rw [h] <;> nlinarith

theorem range_map_const_sum (n k : Nat) :
    ((List.range n).map fun r => k).sum = n * k := by
  rw [List.map_const', List.sum_replicate, List.length_range, smul_eq_mul]

theorem heuristic_ge {b : IBoard} (hb : igood b = true) :
    (-1000000000 : Int) ≤ heuristic b := by
  obtain ⟨hlen, -⟩ := igood_spec hb
  unfold heuristic
  have key : ∀ L : List Int, (∀ x ∈ L, (-17 : Int) ≤ x) →
      L.length = b.length * b.length → (-1000000000 : Int) ≤ L.sum := by
    intro L hL hlen2
    have hs := List.card_nsmul_le_sum L (-17 : Int) hL
    rw [hlen2, nsmul_eq_mul] at hs
    have h100 : (b.length : Int) ≤ 100 := by exact_mod_cast hlen
    have h0 : (0 : Int) ≤ b.length := Int.ofNat_nonneg _
    have hc : ((b.length * b.length : Nat) : Int) ≤ 10000 := by
      push_cast
      nlinarith
    nlinarith
  apply key
  · intro x hx
    rw [List.mem_map] at hx
    obtain ⟨rc, hrc, hd⟩ := hx
    rw [← hd]
    obtain ⟨r, c⟩ := rc
    rw [epairs_mem] at hrc
    have hv := icell_igood hb hrc.1 hrc.2
    dsimp only []
    split
    · omega
    · refine heuristic_term_ge hv (le_max_left _ _) ?_ ?_ ?_
      · exact max_le (by omega) (by omega)
      · apply List.sum_nonneg
        intro y hy
        rw [List.mem_map] at hy
        obtain ⟨d, -, rfl⟩ := hy
        split
        · omega
        · split <;> omega
      · calc _ ≤ _ • (1 : Int) := by
              apply List.sum_le_card_nsmul
              intro y hy
              rw [List.mem_map] at hy
              obtain ⟨d, -, rfl⟩ := hy
              split
              · omega
              · split <;> omega
          _ ≤ 9 := by
              rw [List.length_map]
              decide
  · rw [List.length_map]
    simp only [pairsN, List.length_flatMap, Function.comp_def, List.length_map,
      List.length_range]
    rw [range_map_const_sum]

end EngineEngine

namespace EngineEngine

/-- The maximizing loop never returns less than its running best. -/
theorem ab_max_go_ge {f : IBoard → Int → Int → Int} {b : IBoard} :
    ∀ (mvs : List (Nat × Nat)) (alpha beta best : Int),
      (-1000000000 : Int) ≤ best →
      (-1000000000 : Int) ≤ ab_max_go f b mvs alpha beta best := by
  intro mvs
  induction mvs with
  | nil => intro alpha beta best h; simpa only [ab_max_go] using h
  | cons m rest ih =>
    intro alpha beta best h
    simp only [ab_max_go]
    split
    · exact ih alpha beta best h
    · have hb1 : (-1000000000 : Int) ≤
          max best (f (isetCell b (m.1 : Int) (m.2 : Int) (-1)) alpha beta) :=
        le_trans h (le_max_left _ _)
      split
      · exact hb1
      · exact ih _ beta _ hb1

/-- The minimizing loop never returns less than -10^9 when every child
value respects that bound. -/
theorem ab_min_go_ge {f : IBoard → Int → Int → Int} {b : IBoard} :
    ∀ (mvs : List (Nat × Nat)) (alpha beta best : Int),
      (∀ m ∈ mvs, ∀ a' b'' : Int,
        (-1000000000 : Int) ≤ f (isetCell b (m.1 : Int) (m.2 : Int) 1) a' b'') →
      (-1000000000 : Int) ≤ best →
      (-1000000000 : Int) ≤ ab_min_go f b mvs alpha beta best := by
  intro mvs
  induction mvs with
  | nil => intro alpha beta best _ h; simpa only [ab_min_go] using h
  | cons m rest ih =>
    intro alpha beta best hf h
    simp only [ab_min_go]
    split
    · exact ih alpha beta best (fun x hx => hf x (List.mem_cons_of_mem m hx)) h
    · have hval := hf m (List.mem_cons_self m rest) alpha beta
      have hb1 : (-1000000000 : Int) ≤
          min best (f (isetCell b (m.1 : Int) (m.2 : Int) 1) alpha beta) :=
        le_min h hval
      split
      · exact hb1
      · exact ih alpha _ _ (fun x hx => hf x (List.mem_cons_of_mem m hx)) hb1

/-- _minimax_ab never evaluates below -10^9 on a well-formed board. -/
theorem minimax_ab_ge :
    ∀ (depth : Nat) (b : IBoard) (p alpha beta : Int), igood b = true →
      (-1000000000 : Int) ≤ minimax_ab depth b p alpha beta := by
  intro depth
  induction depth with
  | zero => intro b p alpha beta hb; exact heuristic_ge hb
  | succ d ih =>
    intro b p alpha beta hb
    simp only [minimax_ab]
    split
    · exact heuristic_ge hb
    · split
      · split <;> omega
      · split
        · exact ab_max_go_ge _ alpha beta _ (by omega)
        · apply ab_min_go_ge _ alpha beta _ _ (by omega)
          intro m hm a' b''
          exact ih _ _ a' b'' (igood_isetCell hb (Or.inr (Or.inr rfl)))

/-- Every move the root loop accumulates comes from its inputs. -/
theorem root_loop_subset {b : IBoard} {dchild : Nat} :
    ∀ (moves : List (Nat × Nat)) (best : Int) (bm : List (Nat × Nat))
      (x : Nat × Nat), x ∈ (root_loop b dchild moves best bm).2 →
      x ∈ bm ∨ x ∈ moves := by
  intro moves
  induction moves with
  | nil => intro best bm x hx; exact Or.inl hx
  | cons m rest ih =>
    intro best bm x hx
    simp only [root_loop] at hx
    revert hx
    split
    · intro hx
      rcases ih _ _ _ hx with h | h
      · exact Or.inl h
      · exact Or.inr (List.mem_cons_of_mem m h)
    · split
      · intro hx
        rcases ih _ _ _ hx with h | h
        · rw [List.mem_singleton] at h
          exact Or.inr (h ▸ List.mem_cons_self m rest)
        · exact Or.inr (List.mem_cons_of_mem m h)
      · split
        · intro hx
          rcases ih _ _ _ hx with h | h
          · rw [List.mem_append] at h
            rcases h with h | h
            · exact Or.inl h
            · rw [List.mem_singleton] at h
              exact Or.inr (h ▸ List.mem_cons_self m rest)
          · exact Or.inr (List.mem_cons_of_mem m h)
        · intro hx
          rcases ih _ _ _ hx with h | h
          · exact Or.inl h
          · exact Or.inr (List.mem_cons_of_mem m h)

/-- Once nonempty, the accumulated best-move list stays nonempty. -/
theorem root_loop_keep {b : IBoard} {dchild : Nat} :
    ∀ (moves : List (Nat × Nat)) (best : Int) (bm : List (Nat × Nat)),
      bm ≠ [] → (root_loop b dchild moves best bm).2 ≠ [] := by
  intro moves
  induction moves with
  | nil => intro best bm h; exact h
  | cons m rest ih =>
    intro best bm h
    simp only [root_loop]
    split
    · exact ih _ _ h
    · split
      · exact ih _ _ (by simp)
      · split
        · exact ih _ _ (by simp)
        · exact ih _ _ h

/-- Starting from the sentinel best score -10^9, the root loop ends with at
least one best move whenever some candidate cell is empty. -/
theorem root_loop_ne {b : IBoard} {dchild : Nat} (hb : igood b = true) :
    ∀ (moves : List (Nat × Nat)) (bm : List (Nat × Nat)),
      ((∃ m ∈ moves, icell b (m.1 : Int) (m.2 : Int) = 0) ∨ bm ≠ []) →
      (root_loop b dchild moves (-1000000000) bm).2 ≠ [] := by
  intro moves
  induction moves with
  | nil =>
    intro bm h
    rcases h with ⟨m, hm, -⟩ | h
    · exact absurd hm (List.not_mem_nil m)
    · exact h
  | cons m rest ih =>
    intro bm h
    simp only [root_loop]
    split
    · rename_i hcell
      apply ih
      rcases h with ⟨m', hm', he'⟩ | hbm
      · rcases List.mem_cons.mp hm' with rfl | hm'
        · rw [he'] at hcell
          simp at hcell
        · exact Or.inl ⟨m', hm', he'⟩
      · exact Or.inr hbm
    · have hscore := minimax_ab_ge dchild (isetCell b (m.1 : Int) (m.2 : Int) (-1))
        1 (-1000000000) 1000000000 (igood_isetCell hb (Or.inl rfl))
      split
      · exact root_loop_keep _ _ _ (by simp)
      · split
        · exact root_loop_keep _ _ _ (by simp)
        · rename_i hlt heq
          omega

end EngineEngine

/-! ## Path characterisations of compute_ai_move -/

namespace EngineEngine

/-- The default head of a nonempty list is a member. -/
theorem headD_mem {α : Type} {l : List α} {d : α} (h : l ≠ []) :
    l.headD d ∈ l := by
  cases l with
  | nil => exact absurd rfl h
  | cons a t => simp

theorem stable_sort_ne_nil {α : Type} {before : α → α → Bool} {l : List α}
    (h : l ≠ []) : stable_sort before l ≠ [] := by
  cases l with
  | nil => exact absurd rfl h
  | cons a t =>
    intro hcon
    have : a ∈ stable_sort before (a :: t) := mem_stable_sort.mpr (by simp)
    rw [hcon] at this
    exact List.not_mem_nil a this

/-- Malformed boards (no rows, or a row whose length differs from the
number of rows) yield the fixed fallback (0, 0) with score 0 and the
difficulty's configured depth. -/
theorem compute_ai_move_malformed {b : IBoard} {d : String}
    {choice : List (Nat × Nat) → Nat × Nat}
    (h : b.length = 0 ∨ (b.any fun row => row.length ≠ b.length) = true) :
    compute_ai_move b d choice = (0, 0, ⟨0, difficulty_to_depth d⟩) := by
  simp only [compute_ai_move]
  rw [if_pos h]

/-- Every branch of compute_ai_move reports the difficulty's configured
depth in the meta dictionary. -/
theorem compute_ai_move_depth (b : IBoard) (d : String)
    (choice : List (Nat × Nat) → Nat × Nat) :
    (compute_ai_move b d choice).2.2.depth = difficulty_to_depth d := by
  simp only [compute_ai_move]
  repeat' split
  all_goals rfl

/-- Tactical-win path: the first candidate that wins at once is returned,
with score 10^8 and the configured depth. -/
theorem compute_ai_move_win {b : IBoard} {d : String}
    {choice : List (Nat × Nat) → Nat × Nat} {m : Nat × Nat}
    (hsh : ¬(b.length = 0 ∨ (b.any fun row => row.length ≠ b.length) = true))
    (hst : has_any_stone b = true)
    (hfind : (candidate_moves b 24 2).find?
      (fun m => is_winning_move b m.1 m.2 (-1)) = some m) :
    compute_ai_move b d choice = (m.1, m.2, ⟨100000000, difficulty_to_depth d⟩) := by
  simp only [compute_ai_move]
  rw [if_neg hsh, if_neg (show ¬((!has_any_stone b) = true) by simp [hst])]
  have hne : (candidate_moves b 24 2).isEmpty = false := by
    cases hc : candidate_moves b 24 2 with
    | nil => rw [hc] at hfind; simp at hfind
    | cons a l => rfl
  rw [if_neg (show ¬((candidate_moves b 24 2).isEmpty = true) by simp [hne]), hfind]

/-- Tactical-block path: with no own immediate win but candidate threats,
the center-closest threat is returned with score 10^7. -/
theorem compute_ai_move_threat {b : IBoard} {d : String}
    {choice : List (Nat × Nat) → Nat × Nat}
    (hsh : ¬(b.length = 0 ∨ (b.any fun row => row.length ≠ b.length) = true))
    (hst : has_any_stone b = true)
    (hfind : (candidate_moves b 24 2).find?
      (fun m => is_winning_move b m.1 m.2 (-1)) = none)
    (hthr : (candidate_moves b 24 2).filter
      (fun m => is_winning_move b m.1 m.2 1) ≠ []) :
    compute_ai_move b d choice =
      (((stable_sort (cand_before b.length) ((candidate_moves b 24 2).filter
          fun m => is_winning_move b m.1 m.2 1)).headD (0, 0)).1,
       ((stable_sort (cand_before b.length) ((candidate_moves b 24 2).filter
          fun m => is_winning_move b m.1 m.2 1)).headD (0, 0)).2,
       ⟨10000000, difficulty_to_depth d⟩) := by
  simp only [compute_ai_move]
  rw [if_neg hsh, if_neg (show ¬((!has_any_stone b) = true) by simp [hst])]
  have hne : (candidate_moves b 24 2).isEmpty = false := by
    cases hc : candidate_moves b 24 2 with
    | nil =>
      rw [hc] at hthr
      exact absurd rfl hthr
    | cons a l => rfl
  rw [if_neg (show ¬((candidate_moves b 24 2).isEmpty = true) by simp [hne]), hfind]
  rw [if_pos (show (!((candidate_moves b 24 2).filter
    fun m => is_winning_move b m.1 m.2 1).isEmpty) = true by
      simp [List.isEmpty_eq_false, hthr])]

/-- Search path: no shortcut fires and some best move is accumulated; the
result is `choice` applied to the accumulated best moves, with the best
score and the configured depth. -/
theorem compute_ai_move_search {b : IBoard} {d : String}
    {choice : List (Nat × Nat) → Nat × Nat}
    (hsh : ¬(b.length = 0 ∨ (b.any fun row => row.length ≠ b.length) = true))
    (hst : has_any_stone b = true)
    (hmv : (candidate_moves b 24 2).isEmpty = false)
    (hfind : (candidate_moves b 24 2).find?
      (fun m => is_winning_move b m.1 m.2 (-1)) = none)
    (hthr : (candidate_moves b 24 2).filter
      (fun m => is_winning_move b m.1 m.2 1) = [])
    (hne : (root_loop b (difficulty_to_depth d - 1) (candidate_moves b 24 2)
      (-1000000000) []).2 ≠ []) :
    compute_ai_move b d choice =
      ((choice (root_loop b (difficulty_to_depth d - 1) (candidate_moves b 24 2)
          (-1000000000) []).2).1,
       (choice (root_loop b (difficulty_to_depth d - 1) (candidate_moves b 24 2)
          (-1000000000) []).2).2,
       ⟨(root_loop b (difficulty_to_depth d - 1) (candidate_moves b 24 2)
          (-1000000000) []).1, difficulty_to_depth d⟩) := by
  simp only [compute_ai_move]
  rw [if_neg hsh, if_neg (show ¬((!has_any_stone b) = true) by simp [hst])]
  rw [if_neg (show ¬((candidate_moves b 24 2).isEmpty = true) by simp [hmv]), hfind]
  rw [if_neg (show ¬((!((candidate_moves b 24 2).filter
    fun m => is_winning_move b m.1 m.2 1).isEmpty) = true) by simp [hthr])]
  rw [if_neg (show ¬(((root_loop b (difficulty_to_depth d - 1)
      (candidate_moves b 24 2) (-1000000000) []).2.isEmpty) = true) by
    simp [List.isEmpty_eq_false, hne])]

/-- With no empty cell near a stone, the candidate generator is empty. -/
theorem candidate_moves_nil_of_no_legal {b : IBoard} {k rad : Nat}
    (hst : has_any_stone b = true) (hlm : legal_moves b = []) :
    candidate_moves b k rad = [] := by
  unfold candidate_moves
  rw [if_neg (by simp [hst])]
  have hfil : ((pairsN b.length).filter fun rc =>
      (icell b rc.1 rc.2 == 0) &&
      (pairsN b.length).any fun s =>
        !(icell b s.1 s.2 == 0) &&
        (((rc.1 : Int) - s.1).natAbs ≤ rad && ((rc.2 : Int) - s.2).natAbs ≤ rad)) = [] := by
    rw [List.filter_eq_nil_iff]
    intro rc hrc
    have := List.filter_eq_nil_iff.mp hlm rc hrc
    simp only [Bool.and_eq_true, not_and]
    intro hcell
    exact absurd hcell this
  rw [hfil]
  simp [stable_sort]

/-- Boards with stones but no legal move at all (full boards) fall through
to the occupied fallback cell (0, 0) with score 0. -/
theorem compute_ai_move_full {b : IBoard} {d : String}
    {choice : List (Nat × Nat) → Nat × Nat}
    (hsh : ¬(b.length = 0 ∨ (b.any fun row => row.length ≠ b.length) = true))
    (hst : has_any_stone b = true) (hlm : legal_moves b = []) :
    compute_ai_move b d choice = (0, 0, ⟨0, difficulty_to_depth d⟩) := by
  simp only [compute_ai_move]
  rw [if_neg hsh, if_neg (show ¬((!has_any_stone b) = true) by simp [hst])]
  rw [candidate_moves_nil_of_no_legal hst hlm, hlm]
  rfl

end EngineEngine

/-! ## Concrete boards for engine_engine.py -/

namespace EngineEngine

/-- Decode one row: 'X' is Human 1, 'O' is AI -1, anything else empty 0. -/
def irow (s : String) : List Int :=
  s.data.map fun ch => if ch = 'X' then 1 else if ch = 'O' then -1 else 0

def mkIBoard (rows : List String) : IBoard := rows.map irow

/-- 7x7 position: O (the mover) has four in column 0, rows 0-3, so (4,0)
wins at once; the scattered X stones pull the 24 retained center-closest
candidates away from the edge, so (4,0) is not a candidate. -/
def E1 : IBoard := mkIBoard
  ["O......", "O..X...", "O......", "O...X..", ".......", "..X....", "......."]

/-- The same position with colours swapped: X threatens (4,0) and O has no
immediate win; (4,0) is outside the candidate list. -/
def E2 : IBoard := mkIBoard
  ["X......", "X..O...", "X......", "X...O..", ".......", "..O....", "......."]

/-- 5x5 position where the mover O wins at once at (2,4). -/
def B7 : IBoard := mkIBoard [".....", ".XXX.", "OOOO.", ".....", "....."]

/-- A ragged board: row lengths 2 and 1. -/
def B8 : IBoard := [[1, 0], [0]]

/-- A full 2x2 board. -/
def B9 : IBoard := mkIBoard ["XO", "OX"]

/-- A symmetric opening: one X in the center of a 3x3 grid. -/
def B10 : IBoard := mkIBoard ["...", ".X.", "..."]

/-- 5x5 position where X threatens to win at (1,0) and O has no win. -/
def BT : IBoard := mkIBoard [".....", ".XXXX", "OOO..", ".....", "....."]

end EngineEngine

namespace EngineEngine

/-- On E1 the returned move of any admissible run is one of the 24
candidates, none of which wins: the returned move does not win. -/
theorem E1_move_not_winning (choice : List (Nat × Nat) → Nat × Nat)
    (hch : ∀ l : List (Nat × Nat), l ≠ [] → choice l ∈ l) :
    is_winning_move E1 ((compute_ai_move E1 "easy" choice).1 : Nat)
      ((compute_ai_move E1 "easy" choice).2.1 : Nat) (-1) = false := by
  have h6 : (root_loop E1 (difficulty_to_depth "easy" - 1) (candidate_moves E1 24 2)
      (-1000000000) []).2 ≠ [] := by
    apply root_loop_ne (by decide)
    exact Or.inl (by decide)
  have hpath := @compute_ai_move_search E1 "easy" choice
    (by decide) (by decide) (by decide) (by decide) (by decide) h6
  rw [hpath]
  have hm := hch _ h6
  have hall : ∀ m ∈ candidate_moves E1 24 2,
      is_winning_move E1 m.1 m.2 (-1) = false := by decide
  rcases root_loop_subset _ _ _ _ hm with h | h
  · exact absurd h (List.not_mem_nil _)
  · exact hall _ h

/-- On E2 likewise: the returned move is one of the 24 candidates, and
after every one of them the threat at (4,0) still wins for X. -/
theorem E2_threat_survives (choice : List (Nat × Nat) → Nat × Nat)
    (hch : ∀ l : List (Nat × Nat), l ≠ [] → choice l ∈ l) :
    is_winning_move
      (isetCell E2 ((compute_ai_move E2 "easy" choice).1 : Nat)
        ((compute_ai_move E2 "easy" choice).2.1 : Nat) (-1)) 4 0 1 = true := by
  have h6 : (root_loop E2 (difficulty_to_depth "easy" - 1) (candidate_moves E2 24 2)
      (-1000000000) []).2 ≠ [] := by
    apply root_loop_ne (by decide)
    exact Or.inl (by decide)
  have hpath := @compute_ai_move_search E2 "easy" choice
    (by decide) (by decide) (by decide) (by decide) (by decide) h6
  rw [hpath]
  have hm := hch _ h6
  have hall : ∀ m ∈ candidate_moves E2 24 2,
      is_winning_move (isetCell E2 m.1 m.2 (-1)) 4 0 1 = true := by decide
  rcases root_loop_subset _ _ _ _ hm with h | h
  · exact absurd h (List.not_mem_nil _)
  · exact hall _ h

theorem choice_head_mem : ∀ l : List (Nat × Nat), l ≠ [] → choice_head l ∈ l := by
  intro l h
  unfold choice_head
  exact headD_mem h

theorem choice_last_mem : ∀ l : List (Nat × Nat), l ≠ [] → choice_last l ∈ l := by
  intro l h
  unfold choice_last
  have hrev : l.reverse ≠ [] := by simpa using h
  have := @headD_mem (Nat × Nat) l.reverse (0, 0) hrev
  rw [List.mem_reverse] at this
  exact this

end EngineEngine

/-! ## Concrete string boards and a no-stone lemma for minimax_engine.py -/

/-- Any cell read is either the junk default or an entry of some row. -/
theorem cellI_cases (b : Board) (x y : Int) :
    cellI b x y = "?" ∨ ∃ row ∈ b, cellI b x y ∈ row := by
  unfold cellI
  by_cases hg : 0 ≤ x ∧ 0 ≤ y
  · rw [if_pos hg]
    by_cases hr : x.toNat < b.length
    · have hrow : b.getD x.toNat [] = b[x.toNat] := by
        rw [List.getD_eq_getElem?_getD, List.getElem?_eq_getElem hr]
        rfl
      rw [hrow]
      by_cases hc : y.toNat < b[x.toNat].length
      · right
        refine ⟨b[x.toNat], List.getElem_mem hr, ?_⟩
        have hg2 : b[x.toNat].getD y.toNat "?" = b[x.toNat][y.toNat] := by
          rw [List.getD_eq_getElem?_getD, List.getElem?_eq_getElem hc]
          rfl
        rw [hg2]
        exact List.getElem_mem hc
      · left
        rw [List.getD_eq_getElem?_getD, List.getElem?_eq_none (by omega)]
        rfl
    · left
      have hnone : b.getD x.toNat [] = [] := by
        rw [List.getD_eq_getElem?_getD, List.getElem?_eq_none (by omega)]
        rfl
      rw [hnone]
      rfl
  · rw [if_neg hg]
    left
    rfl

namespace MinimaxEngine

/-- If p appears nowhere on the board, placing a single p stone cannot
complete a five: every five-window has at least one other cell. -/
theorem board_has_five_setCell_single {b : Board} {p : Cell} {r c : Nat}
    (hp : p ≠ "?") (hall : ∀ row ∈ b, ∀ v ∈ row, v ≠ p) :
    board_has_five (setCell b (r : Int) (c : Int) p) p = false := by
  by_contra h5
  rw [Bool.not_eq_false] at h5
  unfold board_has_five at h5
  rw [List.any_eq_true] at h5
  obtain ⟨rc, -, h5⟩ := h5
  rw [List.any_eq_true] at h5
  obtain ⟨d, hd, hw⟩ := h5
  unfold window_all at hw
  rw [Bool.and_eq_true, List.all_eq_true] at hw
  have h0 := hw.2 0 (by decide)
  have h1 := hw.2 1 (by decide)
  rw [beq_iff_eq] at h0 h1
  simp only [Nat.cast_zero, Nat.cast_one, Nat.cast_ofNat, mul_zero, mul_one,
    add_zero] at h0 h1
  have hno : ∀ x y : Int, (x, y) ≠ ((r : Int), (c : Int)) →
      cellI (setCell b (r : Int) (c : Int) p) x y ≠ p := by
    intro x y hne
    rw [cellI_setCell_ne hne]
    rcases cellI_cases b x y with h | ⟨row, hrow, hmem⟩
    · rw [h]
      intro hq
      exact hp hq.symm
    · exact hall row hrow _ hmem
  by_cases h0e : ((rc.1 : Int), (rc.2 : Int)) = ((r : Int), (c : Int))
  · refine hno ((rc.1 : Int) + d.1) ((rc.2 : Int) + d.2) ?_ h1
    have hne01 : ((rc.1 : Int) + d.1, (rc.2 : Int) + d.2) ≠ ((rc.1 : Int), (rc.2 : Int)) := by
      simp only [DIRS, List.mem_cons, List.not_mem_nil, or_false] at hd
      rcases hd with h | h | h | h <;> subst h <;>
        (intro hcon
         rw [Prod.mk.injEq] at hcon
         omega)
    rw [← h0e]
    exact hne01
  · exact hno _ _ h0e h0

/-- No empty cell completes a five for a player with no stone on the board. -/
theorem find_immediate_win_no_stone {b : Board} {p : Cell} (hp : p ≠ "?")
    (hall : ∀ row ∈ b, ∀ v ∈ row, v ≠ p) :
    find_immediate_win b p = none := by
  apply find_immediate_win_none
  intro r c _ _ _
  exact board_has_five_setCell_single hp hall

end MinimaxEngine

namespace MinimaxEngine

/-- Decode one row of a 15x15 test board. -/
def mkRow (s : String) : List Cell :=
  s.data.map fun ch => if ch = 'X' then "X" else if ch = 'O' then "O" else ""

def mkBoard (rows : List String) : Board := rows.map mkRow

/-- O has four in row 0 (columns 1-4); (0,0) completes a five. -/
def bWin : Board := mkBoard
  [".OOOO..........", "...............", "...............", "...............",
   "...............", "...............", "...............", "...............",
   "...............", "...............", "...............", "...............",
   "...............", "...............", "..............."]

/-- X has four in row 0 (columns 1-4) and O has no stone at all. -/
def bBlock : Board := mkBoard
  [".XXXX..........", "...............", "...............", "...............",
   "...............", "...............", "...............", "...............",
   "...............", "...............", "...............", "...............",
   "...............", "...............", "..............."]

/-- A full 15x15 board (no empty cell). -/
def bFull15 : Board := mkBoard
  ["XXOOXXOOXXOOXXO", "XXOOXXOOXXOOXXO", "OOXXOOXXOOXXOOX", "OOXXOOXXOOXXOOX",
   "XXOOXXOOXXOOXXO", "XXOOXXOOXXOOXXO", "OOXXOOXXOOXXOOX", "OOXXOOXXOOXXOOX",
   "XXOOXXOOXXOOXXO", "XXOOXXOOXXOOXXO", "OOXXOOXXOOXXOOX", "OOXXOOXXOOXXOOX",
   "XXOOXXOOXXOOXXO", "XXOOXXOOXXOOXXO", "OOXXOOXXOOXXOOX"]

/-- A completed five for O in row 0. -/
def bFive5 : Board := mkBoard
  ["OOOOO..........", "...............", "...............", "...............",
   "...............", "...............", "...............", "...............",
   "...............", "...............", "...............", "...............",
   "...............", "...............", "..............."]

/-- A single O in the center: fewer than ten stones, so the evaluation's
one-sided center bonus is active. -/
def bC6 : Board := mkBoard
  ["...............", "...............", "...............", "...............",
   "...............", "...............", "...............", ".......O.......",
   "...............", "...............", "...............", "...............",
   "...............", "...............", "..............."]

/-- Twelve stones, no five, no winner: the center bonus is off. -/
def bC6w : Board := mkBoard
  ["XOXOXO.........", "OXOXOX.........", "...............", "...............",
   "...............", "...............", "...............", "...............",
   "...............", "...............", "...............", "...............",
   "...............", "...............", "..............."]

/-- The all-zero Zobrist table (a legitimate sample of the random draw). -/
def Z0 : Nat → Nat → Nat → Nat := fun _ _ _ => 0

/-- A transposition table preloaded at key 0: stored depth 5, EXACT flag,
score 12345, best move (9,9). -/
def stC5 : SearchState := ⟨[(0, (5, XInt.fin 12345, 0, some (9, 9)))], [], fun _ _ => 0⟩

end MinimaxEngine

/-! ## Remaining helpers for the claim theorems -/

/-- Boards whose entries are all legal cell values satisfy rows_valid. -/
theorem rows_valid_of_forall {b : Board}
    (h : ∀ row ∈ b, ∀ v ∈ row, v = "" ∨ v = "X" ∨ v = "O") : rows_valid b := by
  intro r c hw
  obtain ⟨hr, hc⟩ := hw
  have hrow : b.getD r [] = b[r] := by
    rw [List.getD_eq_getElem?_getD, List.getElem?_eq_getElem hr]
    rfl
  rw [hrow] at hc ⊢
  have hcell : b[r].getD c "?" = b[r][c] := by
    rw [List.getD_eq_getElem?_getD, List.getElem?_eq_getElem hc]
    rfl
  rw [hcell]
  exact h _ (List.getElem_mem hr) _ (List.getElem_mem hc)

namespace MinimaxEngine

/-- A player with no stone on the board has no completed five. -/
theorem board_has_five_no_stone {b : Board} {p : Cell} (hp : p ≠ "?")
    (hall : ∀ row ∈ b, ∀ v ∈ row, v ≠ p) : board_has_five b p = false := by
  by_contra h5
  rw [Bool.not_eq_false] at h5
  unfold board_has_five at h5
  rw [List.any_eq_true] at h5
  obtain ⟨rc, -, h5⟩ := h5
  rw [List.any_eq_true] at h5
  obtain ⟨d, -, hw⟩ := h5
  unfold window_all at hw
  rw [Bool.and_eq_true, List.all_eq_true] at hw
  have h0 := hw.2 0 (by decide)
  rw [beq_iff_eq] at h0
  rcases cellI_cases b ((rc.1 : Int) + d.1 * (0 : Nat)) ((rc.2 : Int) + d.2 * (0 : Nat)) with h | ⟨row, hrow, hmem⟩
  · rw [h0] at h
    exact hp h
  · rw [h0] at hmem
    exact hall row hrow p hmem rfl

end MinimaxEngine

namespace GameAi

/-- Two adjacent X near the center of a 5x5 grid: no win present. -/
def bG3 : Board := MinimaxEngine.mkBoard
  [".....", ".....", ".XX..", ".....", "....."]

/-- A completed X five in row 0 of a 5x5 grid. -/
def bG5 : Board := MinimaxEngine.mkBoard
  ["XXXXX", "....O", ".....", ".....", "...OO"]

end GameAi

/-! ## The claims -/

/-- C3: the anchored win check `has_five` is complete (a contiguous line of
at least five p-stones through the anchor makes it true) and sound (on a
board with no five anywhere every anchored check is false and `check_win`
reports no winner); `_check_winner` of minimax_engine.py reports no winner
exactly on the boards with no completed five for any player. -/
theorem C3_anchored_win_check :
  (∀ (b : Board) (p : Cell) (r c : Int) (d : Int × Int) (i j : Nat),
    d ∈ GameAi.DIRECTIONS → 4 ≤ i + j →
    (∀ t : Int, -(i : Int) ≤ t → t ≤ j →
      GameAi.in_bounds b.length (r + t * d.1) (c + t * d.2) = true ∧
      cellI b (r + t * d.1) (c + t * d.2) = p) →
    GameAi.has_five b r c p = true) ∧
  (∀ b : Board, GameAi.exists_five b GameAi.HUMAN = false →
    GameAi.exists_five b GameAi.AI = false →
    GameAi.check_win b = none ∧
    (∀ r c : Nat, r < b.length → c < b.length →
      ∀ p, (p = GameAi.HUMAN ∨ p = GameAi.AI) →
      cellI b r c = p → GameAi.has_five b r c p = false)) ∧
  (∀ b : Board, MinimaxEngine.check_winner b = none ↔
    ∀ p, p ≠ "" → MinimaxEngine.board_has_five b p = false) :=
  ⟨fun _ _ _ _ _ _ _ hd hij hall => GameAi.has_five_of_line hd hij hall,
   fun _ h1 h2 => GameAi.check_win_none_of_no_five h1 h2,
   fun _ => MinimaxEngine.check_winner_eq_none_iff⟩

/-- Witness for C3 at concrete boards: the anchored check sees the five of
bG5 from its left end, and the no-five boards bG3 / bC6 report no winner. -/
theorem C3_witness :
    GameAi.has_five GameAi.bG5 0 0 GameAi.HUMAN = true ∧
    GameAi.check_win GameAi.bG3 = none ∧
    MinimaxEngine.check_winner MinimaxEngine.bC6 = none := by
  refine ⟨?_, (C3_anchored_win_check.2.1 GameAi.bG3 (by decide) (by decide)).1, ?_⟩
  · apply C3_anchored_win_check.1 GameAi.bG5 GameAi.HUMAN 0 0 (0, 1) 0 4
      (by decide) (by decide)
    intro t h1 h2
    have ht : t = 0 ∨ t = 1 ∨ t = 2 ∨ t = 3 ∨ t = 4 := by omega
    rcases ht with rfl | rfl | rfl | rfl | rfl <;> exact ⟨by decide, by decide⟩
  · apply (C3_anchored_win_check.2.2 MinimaxEngine.bC6).mpr
    intro p hp
    by_cases hO : p = "O"
    · subst hO
      decide
    · by_cases hq : p = "?"
      · subst hq
        decide
      · apply MinimaxEngine.board_has_five_no_stone hq
        have hval : ∀ row ∈ MinimaxEngine.bC6, ∀ v ∈ row, v = "" ∨ v = "O" := by
          decide
        intro row hrow v hv hcon
        rcases hval row hrow v hv with h | h
        · rw [hcon] at h
          exact hp h
        · rw [hcon] at h
          exact hO h

/-- C4: every recursive search call leaves the shared board exactly as it
found it: `_minimax` of minimax_engine.py unconditionally, and `alpha_beta`
and `quiescence_search` of game/ai.py for legal players on boards with
legal cell values (place-before-recursing, remove-after-returning). -/
theorem C4_board_restoration :
  (∀ (depth : Nat) (Z : Nat → Nat → Nat → Nat) (b : Board) (alpha beta : XInt)
    (maximizing : Bool) (player opponent : Cell) (mc rad nh ply : Nat)
    (st : MinimaxEngine.SearchState),
    (MinimaxEngine.minimax Z b depth alpha beta maximizing player opponent
      mc rad nh ply st).2.2.1 = b) ∧
  (∀ ai hu : Cell, (ai = "X" ∨ ai = "O") → (hu = "X" ∨ hu = "O") →
    ∀ (depth : Nat) (b : Board) (alpha beta : XInt) (player : Cell)
      (maximizing : Bool) (lm : Option (Nat × Nat)) (ply : Nat)
      (st : GameAi.AIState),
      rows_valid b → (player = ai ∨ player = hu) →
      (GameAi.alpha_beta ai hu depth b alpha beta player maximizing lm ply st).2.1 = b) ∧
  (∀ ai hu : Cell, (ai = "X" ∨ ai = "O") → (hu = "X" ∨ hu = "O") →
    ∀ (qd : Nat) (st : GameAi.AIState) (b : Board) (alpha beta : XInt)
      (player : Cell) (lm : Option (Nat × Nat)),
      rows_valid b → (player = ai ∨ player = hu) →
      (GameAi.quiescence ai hu st qd b alpha beta player lm).2 = b) :=
  ⟨fun depth Z b alpha beta maximizing player opponent mc rad nh ply st =>
    MinimaxEngine.minimax_board_restored depth Z b alpha beta maximizing
      player opponent mc rad nh ply st,
   fun _ _ h1 h2 depth b alpha beta player maximizing lm ply st hrv hpl =>
    GameAi.alpha_beta_board_restored h1 h2 depth b alpha beta player
      maximizing lm ply st hrv hpl,
   fun _ _ h1 h2 qd st b alpha beta player lm hrv hpl =>
    GameAi.quiescence_board_restored h1 h2 qd st b alpha beta player lm hrv hpl⟩

/-- Witness for C4 at concrete calls: each search returns bC6 / bG3
unchanged. -/
theorem C4_witness :
    (MinimaxEngine.minimax MinimaxEngine.Z0 MinimaxEngine.bC6 2 XInt.negInf
      XInt.posInf true "O" "X" 25 2 0 0 MinimaxEngine.initial_state).2.2.1 =
      MinimaxEngine.bC6 ∧
    (GameAi.alpha_beta "X" "O" 2 GameAi.bG3 XInt.negInf XInt.posInf "X" true
      none 0 GameAi.ai_initial_state).2.1 = GameAi.bG3 ∧
    (GameAi.quiescence "X" "O" GameAi.ai_initial_state 2 GameAi.bG3
      XInt.negInf XInt.posInf "X" none).2 = GameAi.bG3 :=
  ⟨C4_board_restoration.1 2 MinimaxEngine.Z0 MinimaxEngine.bC6 XInt.negInf
      XInt.posInf true "O" "X" 25 2 0 0 MinimaxEngine.initial_state,
   C4_board_restoration.2.1 "X" "O" (Or.inl rfl) (Or.inr rfl) 2 GameAi.bG3
      XInt.negInf XInt.posInf "X" true none 0 GameAi.ai_initial_state
      (rows_valid_of_forall (by decide)) (Or.inl rfl),
   C4_board_restoration.2.2 "X" "O" (Or.inl rfl) (Or.inr rfl) 2
      GameAi.ai_initial_state GameAi.bG3 XInt.negInf XInt.posInf "X" none
      (rows_valid_of_forall (by decide)) (Or.inl rfl)⟩

/-- C5 (amended): in `_minimax` the terminal win values WIN_SCORE - ply and
-WIN_SCORE + ply are produced before depth is consulted but only AFTER the
transposition probe misses; in `alpha_beta` of game/ai.py the terminal
check does come first unconditionally. -/
theorem C5_terminal_scoring :
  (∀ (Z : Nat → Nat → Nat → Nat) (b : Board) (depth : Nat) (alpha beta : XInt)
    (maximizing : Bool) (player opponent : Cell) (mc rad nh ply : Nat)
    (st : MinimaxEngine.SearchState),
    MinimaxEngine.tt_lookup st nh = none →
    MinimaxEngine.check_winner b = some player →
    MinimaxEngine.minimax Z b depth alpha beta maximizing player opponent
      mc rad nh ply st =
      (XInt.fin (MinimaxEngine.WIN_SCORE - ply), none, b, st)) ∧
  (∀ (Z : Nat → Nat → Nat → Nat) (b : Board) (depth : Nat) (alpha beta : XInt)
    (maximizing : Bool) (player opponent : Cell) (mc rad nh ply : Nat)
    (st : MinimaxEngine.SearchState),
    MinimaxEngine.tt_lookup st nh = none →
    MinimaxEngine.check_winner b = some opponent → player ≠ opponent →
    MinimaxEngine.minimax Z b depth alpha beta maximizing player opponent
      mc rad nh ply st =
      (XInt.fin (-MinimaxEngine.WIN_SCORE + ply), none, b, st)) ∧
  (∀ (ai hu : Cell) (depth : Nat) (b : Board) (alpha beta : XInt)
    (player : Cell) (maximizing : Bool) (lm : Option (Nat × Nat)) (ply : Nat)
    (st : GameAi.AIState),
    GameAi.check_win b = some ai →
    (GameAi.alpha_beta ai hu depth b alpha beta player maximizing lm ply st).1 =
      XInt.fin (1000000 - ply)) ∧
  (∀ (ai hu : Cell) (depth : Nat) (b : Board) (alpha beta : XInt)
    (player : Cell) (maximizing : Bool) (lm : Option (Nat × Nat)) (ply : Nat)
    (st : GameAi.AIState),
    GameAi.check_win b = some hu → ai ≠ hu →
    (GameAi.alpha_beta ai hu depth b alpha beta player maximizing lm ply st).1 =
      XInt.fin (-1000000 + ply)) :=
  ⟨fun _ _ _ _ _ _ _ _ _ _ _ _ _ htt hw =>
    (MinimaxEngine.minimax_terminal_after_tt_miss htt).1 hw,
   fun _ _ _ _ _ _ _ _ _ _ _ _ _ htt hw hne =>
    (MinimaxEngine.minimax_terminal_after_tt_miss htt).2 hw hne,
   fun _ _ _ _ _ _ _ _ _ _ _ hw => GameAi.alpha_beta_terminal_ai hw,
   fun _ _ _ _ _ _ _ _ _ _ _ hw hne => GameAi.alpha_beta_terminal_hu hw hne⟩

/-- Witness for C5: on the five-for-O board with an empty transposition
table, a fresh `_minimax` node at ply 2 does report WIN_SCORE - 2. -/
theorem C5_witness :
    MinimaxEngine.minimax MinimaxEngine.Z0 MinimaxEngine.bFive5 3 XInt.negInf
      XInt.posInf true "O" "X" 25 2 0 2 MinimaxEngine.initial_state =
      (XInt.fin (MinimaxEngine.WIN_SCORE - 2), none, MinimaxEngine.bFive5,
        MinimaxEngine.initial_state) :=
  C5_terminal_scoring.1 MinimaxEngine.Z0 MinimaxEngine.bFive5 3 XInt.negInf
    XInt.posInf true "O" "X" 25 2 0 2 MinimaxEngine.initial_state rfl (by decide)

/-- Counterexample to C5 as stated: the same node with a preloaded EXACT
transposition entry of depth 5 at the node's hash returns the stored score
12345 and stored move (9,9) although the board already holds a completed
five for the maximizing player O — the probe precedes the terminal check,
and 12345 is not WIN_SCORE - ply. -/
theorem C5_counterexample :
    MinimaxEngine.check_winner MinimaxEngine.bFive5 = some "O" ∧
    MinimaxEngine.tt_lookup MinimaxEngine.stC5 0 =
      some (5, XInt.fin 12345, 0, some (9, 9)) ∧
    MinimaxEngine.minimax MinimaxEngine.Z0 MinimaxEngine.bFive5 3 XInt.negInf
      XInt.posInf true "O" "X" 25 2 0 2 MinimaxEngine.stC5 =
      (XInt.fin 12345, some (9, 9), MinimaxEngine.bFive5, MinimaxEngine.stC5) ∧
    (12345 : Int) ≠ MinimaxEngine.WIN_SCORE - 2 := by
  refine ⟨by decide, rfl, ?_, by decide⟩
  simp only [MinimaxEngine.minimax]
  rfl

/-- C6 (amended): `_evaluate_position` is antisymmetric in the two players
whenever no five is completed AND the game stage is past the opening (at
least ten stones); in the opening it adds a center bonus for the evaluated
player only, and `enhanced_evaluation` of game/ai.py is not antisymmetric
at all (its 1.1 defensive multiplier is one-sided). -/
theorem C6_evaluation_antisymmetry :
    ∀ (b : Board) (p o : Cell), p ≠ o → MinimaxEngine.check_winner b = none →
    MinimaxEngine.get_game_stage b ≠ 0 →
    MinimaxEngine.evaluate_position b p o =
      -MinimaxEngine.evaluate_position b o p :=
  fun _ _ _ h1 h2 h3 => MinimaxEngine.evaluate_position_antisymm h1 h2 h3

/-- Witness for C6 on a twelve-stone live board. -/
theorem C6_witness :
    MinimaxEngine.evaluate_position MinimaxEngine.bC6w "X" "O" =
      -MinimaxEngine.evaluate_position MinimaxEngine.bC6w "O" "X" :=
  C6_evaluation_antisymmetry MinimaxEngine.bC6w "X" "O" (by decide) (by decide)
    (by decide)

/-- Counterexample to C6 as stated: with a single O stone (opening stage)
`_evaluate_position` gives 10 against 0 for the swapped players (10 is not
-0), and `enhanced_evaluation` of game/ai.py gives 815 against -896 on a
two-stone board (815 is not 896). -/
theorem C6_counterexample :
    MinimaxEngine.get_game_stage MinimaxEngine.bC6 = 0 ∧
    MinimaxEngine.evaluate_position MinimaxEngine.bC6 "O" "X" = 10 ∧
    MinimaxEngine.evaluate_position MinimaxEngine.bC6 "X" "O" = 0 ∧
    GameAi.check_win GameAi.bG3 = none ∧
    GameAi.enhanced_evaluation "X" "O" GameAi.bG3 = 815 ∧
    GameAi.enhanced_evaluation "O" "X" GameAi.bG3 = -896 :=
  ⟨by decide, by decide, by decide, by decide, by decide, by decide⟩

/-- C8 (amended): a malformed board (no rows, or a ragged row) makes
compute_ai_move of engine_engine.py return the FIXED cell (0,0) — not the
first empty cell — with score 0 and the difficulty's configured depth —
not depth 0 — and no exception escapes. -/
theorem C8_malformed_fallback :
    ∀ (b : EngineEngine.IBoard) (d : String)
      (choice : List (Nat × Nat) → Nat × Nat),
    (b.length = 0 ∨ (b.any fun row => row.length ≠ b.length) = true) →
    EngineEngine.compute_ai_move b d choice =
      (0, 0, ⟨0, EngineEngine.difficulty_to_depth d⟩) :=
  fun _ _ _ h => EngineEngine.compute_ai_move_malformed h

/-- Witness for C8 on the ragged board [[1,0],[0]]. -/
theorem C8_witness :
    EngineEngine.compute_ai_move EngineEngine.B8 "standard"
      EngineEngine.choice_head = (0, 0, ⟨0, 4⟩) :=
  C8_malformed_fallback EngineEngine.B8 "standard" EngineEngine.choice_head
    (by decide)

/-- Counterexample to C8 as stated: on the ragged board [[1,0],[0]] the
first empty cell is (0,1), yet the fallback returns the occupied cell
(0,0), and its reported depth is 4, not 0. -/
theorem C8_counterexample :
    (EngineEngine.legal_moves EngineEngine.B8).headD (9, 9) = (0, 1) ∧
    EngineEngine.icell EngineEngine.B8 0 0 = 1 ∧
    EngineEngine.compute_ai_move EngineEngine.B8 "standard"
      EngineEngine.choice_head = (0, 0, ⟨0, 4⟩) ∧
    (4 : Nat) ≠ 0 :=
  ⟨by decide, by decide,
   EngineEngine.compute_ai_move_malformed (by decide), by decide⟩

/-- C9 (amended): on a full board choose_best_move of minimax_engine.py
does report "no move" (ok none); compute_ai_move of engine_engine.py
instead returns the tuple (0,0) with score 0 — an occupied cell,
indistinguishable from a real move. Neither raises. -/
theorem C9_full_board_reporting :
  (∀ (Z : Nat → Nat → Nat → Nat) (tf : Nat → Bool) (noise : Int) (b : Board)
    (d : String),
    (∀ r c : Nat, r < MinimaxEngine.BOARD_SIZE → c < MinimaxEngine.BOARD_SIZE →
      cellI b r c ≠ "") →
    MinimaxEngine.choose_best_move Z tf noise b d = .ok none) ∧
  (∀ (b : EngineEngine.IBoard) (d : String)
    (choice : List (Nat × Nat) → Nat × Nat),
    ¬(b.length = 0 ∨ (b.any fun row => row.length ≠ b.length) = true) →
    EngineEngine.has_any_stone b = true →
    EngineEngine.legal_moves b = [] →
    EngineEngine.compute_ai_move b d choice =
      (0, 0, ⟨0, EngineEngine.difficulty_to_depth d⟩)) :=
  ⟨fun _ _ _ _ _ h => MinimaxEngine.choose_best_move_full_board h,
   fun _ _ _ h1 h2 h3 => EngineEngine.compute_ai_move_full h1 h2 h3⟩

/-- Witness for C9 on a full 15x15 board and the full 2x2 board. -/
theorem C9_witness :
    MinimaxEngine.choose_best_move MinimaxEngine.Z0 (fun _ => false) 0
      MinimaxEngine.bFull15 "standard" = .ok none ∧
    EngineEngine.compute_ai_move EngineEngine.B9 "standard"
      EngineEngine.choice_head = (0, 0, ⟨0, 4⟩) :=
  ⟨C9_full_board_reporting.1 MinimaxEngine.Z0 (fun _ => false) 0
      MinimaxEngine.bFull15 "standard"
      (fun r c hr hc =>
        (show ∀ r : Nat, r < MinimaxEngine.BOARD_SIZE → ∀ c : Nat,
            c < MinimaxEngine.BOARD_SIZE → cellI MinimaxEngine.bFull15 r c ≠ ""
          by decide) r hr c hc),
   C9_full_board_reporting.2 EngineEngine.B9 "standard"
      EngineEngine.choice_head (by decide) (by decide) (by decide)⟩

/-- Counterexample to C9 as stated: the full 2x2 board makes
compute_ai_move return cell (0,0), which is occupied by a stone — the
result is a plain move tuple, not a "no move" report. -/
theorem C9_counterexample :
    EngineEngine.icell EngineEngine.B9 0 0 = 1 ∧
    (EngineEngine.legal_moves EngineEngine.B9).isEmpty = true ∧
    EngineEngine.compute_ai_move EngineEngine.B9 "standard"
      EngineEngine.choice_head = (0, 0, ⟨0, 4⟩) :=
  ⟨by decide, by decide,
   EngineEngine.compute_ai_move_full (by decide) (by decide) (by decide)⟩

/-- C1 (amended): choose_best_move of minimax_engine.py returns an
immediate winning move whenever one exists anywhere on a live board (its
scan covers every cell); compute_ai_move of engine_engine.py returns a
winning move only when its find over the at most 24 center-closest
candidate cells contains one — a winning cell outside that list can be
missed. -/
theorem C1_immediate_win_scope :
  (∀ (Z : Nat → Nat → Nat → Nat) (tu : Nat → Bool) (noise : Int) (b : Board)
    (d : String),
    MinimaxEngine.check_winner b = none →
    (∃ rc : Nat × Nat, rc.1 < MinimaxEngine.BOARD_SIZE ∧
      rc.2 < MinimaxEngine.BOARD_SIZE ∧ cellI b rc.1 rc.2 = "" ∧
      MinimaxEngine.board_has_five (setCell b rc.1 rc.2 "O") "O" = true) →
    ∃ res : MinimaxEngine.MoveResult,
      MinimaxEngine.choose_best_move Z tu noise b d = .ok (some res) ∧
      cellI b res.row res.col = "" ∧
      MinimaxEngine.board_has_five (setCell b res.row res.col "O") "O" = true ∧
      res.score = MinimaxEngine.PATTERN_SCORES MinimaxEngine.WIN ∧
      res.depth = 0) ∧
  (∀ (b : EngineEngine.IBoard) (d : String)
    (choice : List (Nat × Nat) → Nat × Nat) (m : Nat × Nat),
    ¬(b.length = 0 ∨ (b.any fun row => row.length ≠ b.length) = true) →
    EngineEngine.has_any_stone b = true →
    (EngineEngine.candidate_moves b 24 2).find?
      (fun m => EngineEngine.is_winning_move b m.1 m.2 (-1)) = some m →
    EngineEngine.compute_ai_move b d choice =
      (m.1, m.2, ⟨100000000, EngineEngine.difficulty_to_depth d⟩) ∧
    EngineEngine.is_winning_move b m.1 m.2 (-1) = true) := by
  constructor
  · intro Z tu noise b d hnone hex
    exact MinimaxEngine.choose_best_move_finds_win hnone hex
  · intro b d choice m h1 h2 h3
    refine ⟨EngineEngine.compute_ai_move_win h1 h2 h3, ?_⟩
    have hpred := List.find?_some h3
    simpa using hpred

/-- Witness for C1: on bWin the minimax engine returns the winning cell,
and on B7 (win inside the candidate window) the engine engine does too. -/
theorem C1_witness :
    (∃ res : MinimaxEngine.MoveResult,
      MinimaxEngine.choose_best_move MinimaxEngine.Z0 (fun _ => false) 0
        MinimaxEngine.bWin "standard" = .ok (some res) ∧
      cellI MinimaxEngine.bWin res.row res.col = "" ∧
      MinimaxEngine.board_has_five
        (setCell MinimaxEngine.bWin res.row res.col "O") "O" = true ∧
      res.score = MinimaxEngine.PATTERN_SCORES MinimaxEngine.WIN ∧
      res.depth = 0) ∧
    (EngineEngine.compute_ai_move EngineEngine.B7 "standard"
        EngineEngine.choice_head = (2, 4, ⟨100000000, 4⟩) ∧
      EngineEngine.is_winning_move EngineEngine.B7 2 4 (-1) = true) :=
  ⟨C1_immediate_win_scope.1 MinimaxEngine.Z0 (fun _ => false) 0
      MinimaxEngine.bWin "standard" (by decide)
      ⟨(0, 0), by decide, by decide, by decide, by decide⟩,
   C1_immediate_win_scope.2 EngineEngine.B7 "standard"
      EngineEngine.choice_head (2, 4) (by decide) (by decide) (by decide)⟩

/-- Counterexample to C1 as stated: on the 7x7 board E1 the mover O has a
one-move win at (4,0), but the engine-engine run (with the head tie-break,
one legitimate sample of random.choice) returns a move that does not win. -/
theorem C1_counterexample :
    ((4, 0) ∈ EngineEngine.legal_moves EngineEngine.E1 ∧
      EngineEngine.is_winning_move EngineEngine.E1 4 0 (-1) = true) ∧
    EngineEngine.is_winning_move EngineEngine.E1
      ((EngineEngine.compute_ai_move EngineEngine.E1 "easy"
        EngineEngine.choice_head).1 : Nat)
      ((EngineEngine.compute_ai_move EngineEngine.E1 "easy"
        EngineEngine.choice_head).2.1 : Nat) (-1) = false := by
  exact ⟨⟨by decide, by decide⟩,
    EngineEngine.E1_move_not_winning EngineEngine.choice_head
      EngineEngine.choice_head_mem⟩

/-- C2 (amended): choose_best_move of minimax_engine.py blocks an immediate
opponent win whenever one exists on a live board and the mover has none of
its own; compute_ai_move of engine_engine.py blocks only threats inside its
at most 24 center-closest candidates — a threat outside that list is
invisible to it. -/
theorem C2_block_scope :
  (∀ (Z : Nat → Nat → Nat → Nat) (tu : Nat → Bool) (noise : Int) (b : Board)
    (d : String),
    MinimaxEngine.check_winner b = none →
    (∀ r c : Nat, r < MinimaxEngine.BOARD_SIZE → c < MinimaxEngine.BOARD_SIZE →
      cellI b r c = "" →
      MinimaxEngine.board_has_five (setCell b r c "O") "O" = false) →
    (∃ rc : Nat × Nat, rc.1 < MinimaxEngine.BOARD_SIZE ∧
      rc.2 < MinimaxEngine.BOARD_SIZE ∧ cellI b rc.1 rc.2 = "" ∧
      MinimaxEngine.board_has_five (setCell b rc.1 rc.2 "X") "X" = true) →
    ∃ res : MinimaxEngine.MoveResult,
      MinimaxEngine.choose_best_move Z tu noise b d = .ok (some res) ∧
      cellI b res.row res.col = "" ∧
      MinimaxEngine.board_has_five (setCell b res.row res.col "X") "X" = true ∧
      res.score = MinimaxEngine.PATTERN_SCORES MinimaxEngine.WIN - 1 ∧
      res.depth = 0) ∧
  (∀ (b : EngineEngine.IBoard) (d : String)
    (choice : List (Nat × Nat) → Nat × Nat),
    ¬(b.length = 0 ∨ (b.any fun row => row.length ≠ b.length) = true) →
    EngineEngine.has_any_stone b = true →
    (EngineEngine.candidate_moves b 24 2).find?
      (fun m => EngineEngine.is_winning_move b m.1 m.2 (-1)) = none →
    (EngineEngine.candidate_moves b 24 2).filter
      (fun m => EngineEngine.is_winning_move b m.1 m.2 1) ≠ [] →
    ∃ t : Nat × Nat,
      EngineEngine.compute_ai_move b d choice =
        (t.1, t.2, ⟨10000000, EngineEngine.difficulty_to_depth d⟩) ∧
      EngineEngine.is_winning_move b t.1 t.2 1 = true) := by
  constructor
  · intro Z tu noise b d hnone hnoO hexX
    exact MinimaxEngine.choose_best_move_finds_block hnone hnoO hexX
  · intro b d choice h1 h2 h3 h4
    refine ⟨(stable_sort (EngineEngine.cand_before b.length)
      ((EngineEngine.candidate_moves b 24 2).filter
        fun m => EngineEngine.is_winning_move b m.1 m.2 1)).headD (0, 0),
      EngineEngine.compute_ai_move_threat h1 h2 h3 h4, ?_⟩
    have hmem := @EngineEngine.headD_mem (Nat × Nat)
      (stable_sort (EngineEngine.cand_before b.length)
        ((EngineEngine.candidate_moves b 24 2).filter
          fun m => EngineEngine.is_winning_move b m.1 m.2 1))
      (0, 0) (EngineEngine.stable_sort_ne_nil h4)
    rw [mem_stable_sort, List.mem_filter] at hmem
    exact hmem.2

/-- Witness for C2: on bBlock (X four in a row, O absent) the minimax
engine returns a blocking cell; on BT (threat inside the candidate window)
the engine engine does too. -/
theorem C2_witness :
    (∃ res : MinimaxEngine.MoveResult,
      MinimaxEngine.choose_best_move MinimaxEngine.Z0 (fun _ => false) 0
        MinimaxEngine.bBlock "challenge" = .ok (some res) ∧
      cellI MinimaxEngine.bBlock res.row res.col = "" ∧
      MinimaxEngine.board_has_five
        (setCell MinimaxEngine.bBlock res.row res.col "X") "X" = true ∧
      res.score = MinimaxEngine.PATTERN_SCORES MinimaxEngine.WIN - 1 ∧
      res.depth = 0) ∧
    (∃ t : Nat × Nat,
      EngineEngine.compute_ai_move EngineEngine.BT "standard"
        EngineEngine.choice_head = (t.1, t.2, ⟨10000000, 4⟩) ∧
      EngineEngine.is_winning_move EngineEngine.BT t.1 t.2 1 = true) :=
  ⟨C2_block_scope.1 MinimaxEngine.Z0 (fun _ => false) 0 MinimaxEngine.bBlock
      "challenge" (by decide)
      (fun r c _ _ _ =>
        MinimaxEngine.board_has_five_setCell_single (by decide) (by decide))
      ⟨(0, 0), by decide, by decide, by decide, by decide⟩,
   C2_block_scope.2 EngineEngine.BT "standard" EngineEngine.choice_head
      (by decide) (by decide) (by decide) (by decide)⟩

/-- Counterexample to C2 as stated: on the 7x7 board E2 the opponent X
threatens a one-move win at (4,0) and the mover O has no win of its own,
yet the engine-engine run returns a move after which X still wins at
(4,0) — the threat is not eliminated. -/
theorem C2_counterexample :
    (EngineEngine.legal_moves EngineEngine.E2).all
      (fun m => !(EngineEngine.is_winning_move EngineEngine.E2 m.1 m.2 (-1))) =
        true ∧
    EngineEngine.is_winning_move EngineEngine.E2 4 0 1 = true ∧
    EngineEngine.is_winning_move
      (EngineEngine.isetCell EngineEngine.E2
        ((EngineEngine.compute_ai_move EngineEngine.E2 "easy"
          EngineEngine.choice_head).1 : Nat)
        ((EngineEngine.compute_ai_move EngineEngine.E2 "easy"
          EngineEngine.choice_head).2.1 : Nat) (-1)) 4 0 1 = true := by
  exact ⟨by decide, by decide,
    EngineEngine.E2_threat_survives EngineEngine.choice_head
      EngineEngine.choice_head_mem⟩

/-- C7 (amended): on the tactical shortcut paths of minimax_engine.py the
reported depth is 0, but on its search path the reported depth is always
the difficulty's configured maximum depth, regardless of which iterations
actually completed; engine_engine.py reports the configured depth on every
path, including its tactical shortcuts. -/
theorem C7_depth_reporting :
  (∀ (Z : Nat → Nat → Nat → Nat) (tu : Nat → Bool) (noise : Int) (b : Board)
    (d : String) (m : Nat × Nat),
    MinimaxEngine.find_immediate_win b "O" = some m →
    MinimaxEngine.choose_best_move Z tu noise b d =
      .ok (some ⟨m.1, m.2, MinimaxEngine.PATTERN_SCORES MinimaxEngine.WIN, 0⟩)) ∧
  (∀ (Z : Nat → Nat → Nat → Nat) (tu : Nat → Bool) (noise : Int) (b : Board)
    (d : String) (m : Nat × Nat),
    MinimaxEngine.find_immediate_win b "O" = none →
    MinimaxEngine.find_immediate_win b "X" = some m →
    MinimaxEngine.choose_best_move Z tu noise b d =
      .ok (some ⟨m.1, m.2, MinimaxEngine.PATTERN_SCORES MinimaxEngine.WIN - 1, 0⟩)) ∧
  (∀ (Z : Nat → Nat → Nat → Nat) (tf : Nat → Bool) (noise : Int) (b : Board)
    (d : String) (res : MinimaxEngine.MoveResult),
    MinimaxEngine.find_immediate_win b "O" = none →
    MinimaxEngine.find_immediate_win b "X" = none →
    MinimaxEngine.choose_best_move Z tf noise b d = .ok (some res) →
    res.depth = ((MinimaxEngine.DIFFICULTY_PARAMS
      (if (MinimaxEngine.DIFFICULTY_PARAMS d).isSome then d
        else "standard")).getD ⟨4, 2, 25, 0⟩).max_depth) ∧
  (∀ (b : EngineEngine.IBoard) (d : String)
    (choice : List (Nat × Nat) → Nat × Nat),
    (EngineEngine.compute_ai_move b d choice).2.2.depth =
      EngineEngine.difficulty_to_depth d) :=
  ⟨fun _ _ _ _ _ _ h => MinimaxEngine.choose_best_move_win_shortcut h,
   fun _ _ _ _ _ _ hO hX => MinimaxEngine.choose_best_move_block_shortcut hO hX,
   fun _ _ _ _ _ _ hO hX h =>
    MinimaxEngine.choose_best_move_depth_reported hO hX h,
   fun b d choice => EngineEngine.compute_ai_move_depth b d choice⟩

/-- Witness for C7: the win shortcut on bWin reports depth 0, and the
engine-engine result on B7 carries the configured depth 4. -/
theorem C7_witness :
    MinimaxEngine.choose_best_move MinimaxEngine.Z0 (fun _ => false) 0
      MinimaxEngine.bWin "easy" =
      .ok (some ⟨0, 0, MinimaxEngine.PATTERN_SCORES MinimaxEngine.WIN, 0⟩) ∧
    (EngineEngine.compute_ai_move EngineEngine.B7 "standard"
      EngineEngine.choice_head).2.2.depth = 4 :=
  ⟨C7_depth_reporting.1 MinimaxEngine.Z0 (fun _ => false) 0 MinimaxEngine.bWin
      "easy" (0, 0) (by decide),
   C7_depth_reporting.2.2.2 EngineEngine.B7 "standard" EngineEngine.choice_head⟩

/-- Counterexample to C7 as stated: on B7 the engine engine's tactical win
shortcut fires ((2,4) wins at once), yet the reported depth is the
configured 4, not 0. -/
theorem C7_counterexample :
    EngineEngine.is_winning_move EngineEngine.B7 2 4 (-1) = true ∧
    EngineEngine.compute_ai_move EngineEngine.B7 "standard"
      EngineEngine.choice_head = (2, 4, ⟨100000000, 4⟩) ∧
    (4 : Nat) ≠ 0 :=
  ⟨by decide,
   @EngineEngine.compute_ai_move_win EngineEngine.B7 "standard"
     EngineEngine.choice_head (2, 4) (by decide) (by decide) (by decide),
   by decide⟩

/-- C10 (amended): in minimax_engine.py the sampled noise perturbs only the
reported score, never the returned cell; in engine_engine.py the tactical
paths are choice-independent, but on the search path the returned move is
random.choice over ALL tied best moves, so two runs on the same board and
difficulty may return different moves. -/
theorem C10_determinism_and_noise :
  (∀ (Z : Nat → Nat → Nat → Nat) (tf : Nat → Bool) (noise : Int) (b : Board)
    (d : String),
    MinimaxEngine.result_move (MinimaxEngine.choose_best_move Z tf noise b d) =
    MinimaxEngine.result_move (MinimaxEngine.choose_best_move Z tf 0 b d)) ∧
  (∀ (b : EngineEngine.IBoard) (d : String)
    (c1 c2 : List (Nat × Nat) → Nat × Nat) (m : Nat × Nat),
    ¬(b.length = 0 ∨ (b.any fun row => row.length ≠ b.length) = true) →
    EngineEngine.has_any_stone b = true →
    (EngineEngine.candidate_moves b 24 2).find?
      (fun m => EngineEngine.is_winning_move b m.1 m.2 (-1)) = some m →
    EngineEngine.compute_ai_move b d c1 = EngineEngine.compute_ai_move b d c2) := by
  constructor
  · intro Z tf noise b d
    exact MinimaxEngine.choose_best_move_move_noise_free
  · intro b d c1 c2 m h1 h2 h3
    rw [EngineEngine.compute_ai_move_win h1 h2 h3,
      EngineEngine.compute_ai_move_win h1 h2 h3]

/-- Witness for C10: a concrete noisy and noise-free pair of runs return
the same cell, and the B7 tactical run is tie-break independent. -/
theorem C10_witness :
    MinimaxEngine.result_move (MinimaxEngine.choose_best_move MinimaxEngine.Z0
      (fun _ => false) 37 MinimaxEngine.bWin "easy") =
    MinimaxEngine.result_move (MinimaxEngine.choose_best_move MinimaxEngine.Z0
      (fun _ => false) 0 MinimaxEngine.bWin "easy") ∧
    EngineEngine.compute_ai_move EngineEngine.B7 "standard"
      EngineEngine.choice_head =
    EngineEngine.compute_ai_move EngineEngine.B7 "standard"
      EngineEngine.choice_last :=
  ⟨C10_determinism_and_noise.1 MinimaxEngine.Z0 (fun _ => false) 37
      MinimaxEngine.bWin "easy",
   C10_determinism_and_noise.2 EngineEngine.B7 "standard"
      EngineEngine.choice_head EngineEngine.choice_last (2, 4) (by decide)
      (by decide) (by decide)⟩

/-- Counterexample to C10 as stated: on the symmetric 3x3 opening B10 at
difficulty "easy", the head and last tie-breaks (two legitimate samples of
random.choice over the tied best moves) return different cells, (0,1)
against (2,1), with the same score and depth. -/
theorem C10_counterexample :
    EngineEngine.compute_ai_move EngineEngine.B10 "easy"
      EngineEngine.choice_head = (0, 1, ⟨-14, 2⟩) ∧
    EngineEngine.compute_ai_move EngineEngine.B10 "easy"
      EngineEngine.choice_last = (2, 1, ⟨-14, 2⟩) := by
  constructor
  · decide
  · decide
